import Mathlib

/-!
# Ruby on-chip network: the simple-network `Throttle` and the Garnet network façade

A shallow embedding of

* `src/mem/ruby/network/simple/Throttle.cc`
* `src/mem/ruby/network/garnet/flexible-pipeline/GarnetNetwork.cc`

C++ `int` values are integers (`Int`).  The counters of a throttle stay inside
small ranges in every state the code can reach (`m_wakeups_wo_switch` in
`[0, 128]`, `m_bash_counter` in `[0, 256]`), so their increments are plain
integer increments.  The `int` results whose operands come from the configuration
or grow with the traffic are taken modulo `2^32` (`wrap32`): the product
`ADJUST_INTERVAL * getLinkBandwidth()`, the products of `network_message_to_size`
and the sum `m_bandwidth_since_sample += bw_used`.  The `double` values are
rationals; every quotient, difference and sum of `double`s (the utilization ratio,
`m_links_utilized`, the sample of the predictor) is rounded to the nearest binary64
value (`round_double`).

A fatal assertion, a `fatal(...)` call or an out-of-range access ends the run;
the functions return what happened together with the state at that point.
-/

namespace Ruby

/-! ## Machine integers -/

/-- Value of a mathematical integer stored in a 32-bit two's-complement `int`. -/
def wrap32 (x : Int) : Int :=
  (x + 2147483648) % 4294967296 - 2147483648

/-- C++ `a += b` on an `int` member of value `a`: nothing changes when `b` is 0,
otherwise the member holds the 32-bit value of the sum.  For every `a` that an `int`
can hold this is `wrap32 (a + b)` (`add_int_eq`); the first case only makes the sum
with 0 leave every integer alone. -/
def add_int (a b : Int) : Int :=
  if b = 0 then a else wrap32 (a + b)

/-! ## Doubles -/

/-- Integer nearest to `n / d`, ties to the even one; `d` is positive. -/
def round_even (n d : Nat) : Nat :=
  if 2 * (n % d) < d then n / d
  else if 2 * (n % d) > d then n / d + 1
  else if (n / d) % 2 = 0 then n / d else n / d + 1

/-- Numerator and denominator of `(n / d) * 2 ^ p`. -/
def scale_pow2 (n d : Nat) (p : Int) : Nat × Nat :=
  if p ≥ 0 then (n * 2 ^ p.toNat, d) else (n, d * 2 ^ (-p).toNat)

/-- Number of binary digits of `n`, found in at most `fuel` halvings. -/
def bit_length : Nat → Nat → Nat
  | 0, _ => 0
  | fuel + 1, n => if n = 0 then 0 else bit_length fuel (n / 2) + 1

/-- The exponent `e` with `2 ^ e ≤ n / d < 2 ^ (e + 1)`, for positive `n` and `d`. -/
def floor_log2 (n d : Nat) : Int :=
  let k : Int := (bit_length n n : Int) - (bit_length d d : Int)
  if (scale_pow2 n d (-k)).1 ≥ (scale_pow2 n d (-k)).2 then k else k - 1

/-- The binary64 value nearest to the positive rational `n / d`: 53 significant bits,
and multiples of `2 ^ -1074` below `2 ^ -1022`; ties go to the even significand. -/
def round_mag (n d : Nat) : ℚ :=
  let p : Int := min (52 - floor_log2 n d) 1074
  let m := round_even (scale_pow2 n d p).1 (scale_pow2 n d p).2
  if p ≥ 0 then (m : ℚ) / ((2 ^ p.toNat : Nat) : ℚ)
  else (m : ℚ) * ((2 ^ (-p).toNat : Nat) : ℚ)

/-- The value of the `double` that the result `q` of an arithmetic operation is
rounded to (IEEE 754 binary64, round to nearest, ties to even).  Overflow to an
infinity is not modelled: the operands here are quotients of `int`s and sums of
ratios between 0 and 1. -/
def round_double (q : ℚ) : ℚ :=
  match q.num with
  | Int.ofNat 0 => 0
  | Int.ofNat (n + 1) => round_mag (n + 1) q.den
  | Int.negSucc n => - round_mag (n + 1) q.den

/-- C++ `x += y` on a `double` member of value `x`: nothing changes when `y` is 0,
otherwise the member holds the rounded sum.  For every `x` that is a `double` this is
`round_double (x + y)`; the first case only makes the sum with 0 leave every rational
alone. -/
def add_double (x y : ℚ) : ℚ :=
  if y = 0 then x else round_double (x + y)

/-! ## Vectors -/

/-- Read of `v[i]` for an `int` index; `none` when the index is outside the vector. -/
def vec_read {α : Type} (v : List α) (i : Int) : Option α :=
  if i < 0 then none else v[i.toNat]?

/-- Write `v[i] = a` for an `int` index; `none` when the index is outside the vector. -/
def vec_write {α : Type} (v : List α) (i : Int) (a : α) : Option (List α) :=
  if i < 0 then none
  else if i.toNat < v.length then some (v.set i.toNat a) else none

/-! ## Constants of `Throttle.cc` -/

def HIGH_RANGE : Int := 256

def ADJUST_INTERVAL : Int := 50000

def MESSAGE_SIZE_MULTIPLIER : Int := 1000

def BROADCAST_SCALING : Int := 1

def PRIORITY_SWITCH_LIMIT : Int := 128

/-! ## Messages and message buffers -/

/-- Modelled from the spec: `NetDest`, declared in `mem/ruby/common/NetDest.hh`, is
"the set of machine IDs that an output port can reach; supports an `is_broadcast`
predicate". -/
structure NetDest where
  machines : List Nat
  isBroadcast : Bool
deriving DecidableEq, Repr

/-- Modelled from the spec: `NetworkMessage`, declared in
`mem/ruby/slicc_interface/NetworkMessage.hh`, is opaque and provides
`destination()` and `message_size()`; `ident` stands for the payload.  The size tag
is the index of the `MessageSizeType` enumerator. -/
structure NetworkMessage where
  ident : Nat
  m_MessageSize : Nat
  m_Destination : NetDest
deriving DecidableEq, Repr

/-- One queued message with the cycle at which it becomes visible to the consumer. -/
structure MessageBufferNode where
  m_time : Int
  m_msgptr : NetworkMessage
deriving DecidableEq, Repr

/-- Modelled from the spec: `MessageBuffer`, declared in
`mem/ruby/buffers/MessageBuffer.hh`, is a "bounded FIFO of message pointers with
enqueue-with-latency and ready/slot queries".  The head of `entries` is the head of
the queue. -/
structure MessageBuffer where
  entries : List MessageBufferNode
  capacity : Nat
deriving DecidableEq, Repr

namespace MessageBuffer

/-- Modelled from the spec: `is_ready(now)` iff the head's arrival time is at most `now`. -/
def isReady (b : MessageBuffer) (now : Int) : Bool :=
  match b.entries with
  | [] => false
  | n :: _ => decide (n.m_time ≤ now)

/-- Modelled from the spec: the slot query of a bounded FIFO (monotone in `n`). -/
def areNSlotsAvailable (b : MessageBuffer) (n : Nat) : Bool :=
  decide (b.entries.length + n ≤ b.capacity)

/-- Modelled from the spec: the message at the head, if any. -/
def peekMsgPtr (b : MessageBuffer) : Option NetworkMessage :=
  match b.entries with
  | [] => none
  | n :: _ => some n.m_msgptr

/-- Modelled from the spec: "enqueue with latency L inserts at `now + L`", at the tail. -/
def enqueue (b : MessageBuffer) (msg : NetworkMessage) (delta now : Int) : MessageBuffer :=
  { b with entries := b.entries ++ [⟨now + delta, msg⟩] }

/-- Modelled from the spec: removal of the head. -/
def pop (b : MessageBuffer) : MessageBuffer :=
  { b with entries := b.entries.tail }

/-- Modelled from the spec: `clear()` drops all pending entries. -/
def clear (b : MessageBuffer) : MessageBuffer :=
  { b with entries := [] }

end MessageBuffer

/-! ## Throttle -/

/-- The ways a call on a throttle can end the simulation. -/
inductive Fault where
  | multiplier_not_positive
  | size_mismatch
  | bandwidth_not_positive
  | vector_index
  | units_remaining_negative
  | null_message
deriving DecidableEq, Repr

deriving instance DecidableEq for Except

/-- Data members of `Throttle` that the source file reads or writes. -/
structure Throttle where
  m_sID : Int
  m_node : Int
  m_vnets : Int
  m_link_bandwidth_multiplier : Int
  m_link_latency : Int
  m_in : List MessageBuffer
  m_out : List MessageBuffer
  m_units_remaining : List Int
  m_message_counters : List (List Int)
  m_out_link_vec : List (List MessageBuffer)
  m_bash_counter : Int
  m_bandwidth_since_sample : Int
  m_last_bandwidth_sample : Int
  m_wakeups_wo_switch : Int
  m_links_utilized : ℚ
  m_ruby_start : Int
deriving DecidableEq, Repr

/-- Function `network_message_to_size`: the number of bandwidth units of a message.
The table `int_of` is `MessageSizeType_to_int`, which belongs to the generated protocol
code.  The products are products of `int`s. -/
def network_message_to_size (int_of : Nat → Int) (net_msg_ptr : Option NetworkMessage) :
    Except Fault Int :=
  match net_msg_ptr with
  | none => .error .null_message
  | some m =>
    if BROADCAST_SCALING > 1 ∧ m.m_Destination.isBroadcast = true then
      .ok (wrap32 (wrap32 (int_of m.m_MessageSize * MESSAGE_SIZE_MULTIPLIER)
        * BROADCAST_SCALING))
    else
      .ok (wrap32 (int_of m.m_MessageSize * MESSAGE_SIZE_MULTIPLIER))

/-- Body of `network_message_to_size` with the value of the constant
`BROADCAST_SCALING` as the parameter `scaling`. -/
def network_message_to_size_scaled (scaling : Int) (int_of : Nat → Int)
    (net_msg_ptr : Option NetworkMessage) : Except Fault Int :=
  match net_msg_ptr with
  | none => .error .null_message
  | some m =>
    if scaling > 1 ∧ m.m_Destination.isBroadcast = true then
      .ok (wrap32 (wrap32 (int_of m.m_MessageSize * MESSAGE_SIZE_MULTIPLIER) * scaling))
    else
      .ok (wrap32 (int_of m.m_MessageSize * MESSAGE_SIZE_MULTIPLIER))

namespace Throttle

/-- Method `Throttle::clearStats` at cycle `now`. -/
def clearStats (now : Int) (t : Throttle) : Throttle :=
  { t with
    m_ruby_start := now
    m_links_utilized := 0
    m_message_counters := t.m_message_counters.map (fun row => row.map (fun _ => 0)) }

/-- Method `Throttle::init` at cycle `now`. -/
def init (t : Throttle) (node link_latency link_bandwidth_multiplier now : Int) :
    Except Fault Throttle :=
  if link_bandwidth_multiplier > 0 then
    .ok (clearStats now
      { t with
        m_node := node
        m_vnets := 0
        m_link_bandwidth_multiplier := link_bandwidth_multiplier
        m_link_latency := link_latency
        m_bash_counter := HIGH_RANGE
        m_bandwidth_since_sample := 0
        m_last_bandwidth_sample := 0
        m_wakeups_wo_switch := 0 })
  else .error .multiplier_not_positive

/-- A `Throttle` object before its constructor body runs: the vectors are empty. -/
def blank : Throttle :=
  { m_sID := 0, m_node := 0, m_vnets := 0, m_link_bandwidth_multiplier := 0,
    m_link_latency := 0, m_in := [], m_out := [], m_units_remaining := [],
    m_message_counters := [], m_out_link_vec := [], m_bash_counter := 0,
    m_bandwidth_since_sample := 0, m_last_bandwidth_sample := 0,
    m_wakeups_wo_switch := 0, m_links_utilized := 0, m_ruby_start := 0 }

/-- The constructor `Throttle(sID, node, link_latency, link_bandwidth_multiplier)`. -/
def construct (sID node link_latency link_bandwidth_multiplier now : Int) :
    Except Fault Throttle :=
  match init blank node link_latency link_bandwidth_multiplier now with
  | .error e => .error e
  | .ok t => .ok { t with m_sID := sID }

/-- The loop of `Throttle::clear`, from `counter` on; at most `fuel` iterations. -/
def clear_loop : Nat → Int → Throttle → Except Fault Throttle
  | 0, _, t => .ok t
  | fuel + 1, counter, t =>
    if counter < t.m_vnets then
      match vec_read t.m_in counter, vec_read t.m_out counter with
      | some i, some o =>
        match vec_write t.m_in counter i.clear, vec_write t.m_out counter o.clear with
        | some ins, some outs =>
          clear_loop fuel (counter + 1) { t with m_in := ins, m_out := outs }
        | _, _ => .error .vector_index
      | _, _ => .error .vector_index
    else .ok t

/-- Method `Throttle::clear`: empties the input and output buffer of every virtual
network.  The loop runs `m_vnets` times. -/
def clear (t : Throttle) : Except Fault Throttle :=
  clear_loop t.m_vnets.toNat 0 t

/-- Method `Throttle::addVirtualNetwork`.  The consumer and the description that are
set on the input buffer are not part of the buffer model. -/
def addVirtualNetwork (t : Throttle) (in_ptr out_ptr : MessageBuffer) : Throttle :=
  { t with
    m_units_remaining := t.m_units_remaining ++ [0]
    m_in := t.m_in ++ [in_ptr]
    m_out := t.m_out ++ [out_ptr]
    m_vnets := t.m_vnets + 1 }

/-- The loop of `addLinks` that adds one virtual network per pair of buffers. -/
def addLinks_loop (t : Throttle) : List MessageBuffer → List MessageBuffer → Throttle
  | i :: ins, o :: outs => addLinks_loop (addVirtualNetwork t i o) ins outs
  | _, _ => t

/-- Method `Throttle::addLinks`.  `MessageSizeType_NUM` is the number of size tags of
the protocol and `g_PRINT_TOPOLOGY` the global flag. -/
def addLinks (MessageSizeType_NUM : Nat) (g_PRINT_TOPOLOGY : Bool) (t : Throttle)
    (in_vec out_vec : List MessageBuffer) : Except Fault Throttle :=
  if in_vec.length = out_vec.length then
    let t1 := addLinks_loop t in_vec out_vec
    let t2 := { t1 with
      m_message_counters :=
        List.replicate MessageSizeType_NUM (List.replicate in_vec.length 0) }
    .ok (if g_PRINT_TOPOLOGY then
      { t2 with m_out_link_vec := t2.m_out_link_vec ++ [out_vec] } else t2)
  else .error .size_mismatch

/-- Method `Throttle::broadcastBandwidthAvailable`; `/` and `%` of C++ truncate toward
zero. -/
def broadcastBandwidthAvailable (t : Throttle) (rand : Int) : Bool :=
  !(decide (t.m_bash_counter >
      Int.tdiv HIGH_RANGE 4 + Int.tmod rand (Int.tdiv HIGH_RANGE 2)))

/-! ### `Throttle::wakeup` -/

/-- The variables the body of the loop over the virtual networks works on for one
`vnet`: `m_in[vnet]`, `m_out[vnet]`, `m_units_remaining[vnet]`, the message counters
and the local `bw_remaining`. -/
structure VnetSlot where
  m_in : MessageBuffer
  m_out : MessageBuffer
  m_units_remaining : Int
  m_message_counters : List (List Int)
  bw_remaining : Int
deriving DecidableEq, Repr

/-- Condition of the `while` loop of `wakeup`. -/
def while_cond (now : Int) (s : VnetSlot) : Bool :=
  decide (s.bw_remaining > 0)
    && (s.m_in.isReady now || decide (s.m_units_remaining > 0))
    && s.m_out.areNSlotsAvailable 1

/-- The increment `m_message_counters[size][vnet]++`. -/
def count_message (counters : List (List Int)) (size : Nat) (vnet : Int) :
    Option (List (List Int)) :=
  match counters[size]? with
  | none => none
  | some row =>
    match vec_read row vnet with
    | none => none
    | some c =>
      match vec_write row vnet (c + 1) with
      | none => none
      | some row1 => some (counters.set size row1)

/-- First half of the body of the `while` loop: start the message at the head of the
input buffer when the previous one has been paid for.  Every queued message is a
`NetworkMessage`, so the `dynamic_cast` of the head gives a non-null pointer. -/
def move_message (int_of : Nat → Int) (link_latency now vnet : Int) (s : VnetSlot) :
    Except Fault VnetSlot :=
  if s.m_units_remaining = 0 ∧ s.m_in.isReady now = true then
    match s.m_in.peekMsgPtr with
    | none => .error .null_message
    | some msg =>
      match network_message_to_size int_of (some msg) with
      | .error e => .error e
      | .ok size =>
        match count_message s.m_message_counters msg.m_MessageSize vnet with
        | none => .error .vector_index
        | some counters =>
          .ok { s with
            m_units_remaining := s.m_units_remaining + size
            m_out := s.m_out.enqueue msg link_latency now
            m_in := s.m_in.pop
            m_message_counters := counters }
  else .ok s

/-- Second half of the body of the `while` loop: pay with the bandwidth that is left. -/
def spend_bandwidth (s : VnetSlot) : VnetSlot :=
  let diff := s.m_units_remaining - s.bw_remaining
  { s with m_units_remaining := max 0 diff, bw_remaining := max 0 (-diff) }

/-- Body of the `while` loop of `wakeup`. -/
def while_body (int_of : Nat → Int) (link_latency now vnet : Int) (s : VnetSlot) :
    Except Fault VnetSlot :=
  match move_message int_of link_latency now vnet s with
  | .error e => .error e
  | .ok s1 => .ok (spend_bandwidth s1)

/-- The `while` loop of `wakeup`, at most `fuel` iterations. -/
def wakeup_while (int_of : Nat → Int) (link_latency now vnet : Int) :
    Nat → VnetSlot → Except Fault VnetSlot
  | 0, s => .ok s
  | fuel + 1, s =>
    if while_cond now s = true then
      match while_body int_of link_latency now vnet s with
      | .error e => .error e
      | .ok s1 => wakeup_while int_of link_latency now vnet fuel s1
    else .ok s

/-- A number of iterations the `while` loop never exceeds (`wakeup_while_exit`). -/
def while_fuel (s : VnetSlot) : Nat :=
  2 * s.m_in.entries.length + 2

/-- The local variables of `wakeup` that live across the loop over the virtual
networks, with the throttle. -/
structure WakeupState where
  throttle : Throttle
  bw_remaining : Int
  schedule_wakeup : Bool
deriving DecidableEq, Repr

/-- Body of the `for` loop of `wakeup` for one `vnet`. -/
def wakeup_vnet (int_of : Nat → Int) (now : Int) (w : WakeupState) (vnet : Int) :
    Except Fault WakeupState :=
  let t := w.throttle
  match vec_read t.m_out vnet, vec_read t.m_in vnet, vec_read t.m_units_remaining vnet with
  | some o, some i, some u =>
    if u ≥ 0 then
      let s0 : VnetSlot :=
        { m_in := i, m_out := o, m_units_remaining := u,
          m_message_counters := t.m_message_counters, bw_remaining := w.bw_remaining }
      match wakeup_while int_of t.m_link_latency now vnet (while_fuel s0) s0 with
      | .error e => .error e
      | .ok s =>
        match vec_write t.m_in vnet s.m_in, vec_write t.m_out vnet s.m_out,
            vec_write t.m_units_remaining vnet s.m_units_remaining with
        | some ins, some outs, some units =>
          .ok
            { throttle := { t with
                m_in := ins, m_out := outs, m_units_remaining := units,
                m_message_counters := s.m_message_counters }
              bw_remaining := s.bw_remaining
              schedule_wakeup :=
                if decide (s.bw_remaining > 0)
                    && (s.m_in.isReady now || decide (s.m_units_remaining > 0))
                    && !s.m_out.areNSlotsAvailable 1
                then true else w.schedule_wakeup }
        | _, _, _ => .error .vector_index
    else .error .units_remaining_negative
  | _, _, _ => .error .vector_index

/-- Priority selection at the head of `wakeup`: the new `m_wakeups_wo_switch` and the
locals `highest_prio_vnet`, `lowest_prio_vnet` and `counter`. -/
structure Priority where
  wakeups_wo_switch : Int
  highest_prio_vnet : Int
  lowest_prio_vnet : Int
  counter : Int
deriving DecidableEq, Repr

/-- Increment of `m_wakeups_wo_switch` and the inversion of the priorities. -/
def priority (t : Throttle) : Priority :=
  let wakeups := t.m_wakeups_wo_switch + 1
  if wakeups > PRIORITY_SWITCH_LIMIT then
    { wakeups_wo_switch := 0, highest_prio_vnet := 0,
      lowest_prio_vnet := t.m_vnets - 1, counter := -1 }
  else
    { wakeups_wo_switch := wakeups, highest_prio_vnet := t.m_vnets - 1,
      lowest_prio_vnet := 0, counter := 1 }

/-- Values the loop variable takes in
`for (vnet = start; vnet*counter >= counter*lowest; vnet -= counter)`, at most `fuel`
of them. -/
def for_vnets (counter lowest : Int) : Nat → Int → List Int
  | 0, _ => []
  | fuel + 1, vnet =>
    if vnet * counter ≥ counter * lowest then
      vnet :: for_vnets counter lowest fuel (vnet - counter)
    else []

/-- The virtual networks a wakeup of `t` visits, in order. -/
def vnet_order (t : Throttle) : List Int :=
  let p := priority t
  for_vnets p.counter p.lowest_prio_vnet (t.m_vnets.toNat + 1) p.highest_prio_vnet

/-- The `for` loop of `wakeup` over the virtual networks in `order`. -/
def wakeup_for (int_of : Nat → Int) (now : Int) :
    List Int → WakeupState → Except Fault WakeupState
  | [], w => .ok w
  | vnet :: order, w =>
    match wakeup_vnet int_of now w vnet with
    | .error e => .error e
    | .ok w1 => wakeup_for int_of now order w1

/-- The product `ADJUST_INTERVAL * getLinkBandwidth()` of two `int`s. -/
def sample_denominator (bw : Int) : Int :=
  wrap32 (ADJUST_INTERVAL * bw)

/-- The test `utilization > g_bash_bandwidth_adaptive_threshold` where `utilization`
is `m_bandwidth_since_sample / double(ADJUST_INTERVAL * getLinkBandwidth())`, the
quotient rounded to a `double`.  A division by zero gives an infinity or a NaN, which
exceeds the threshold exactly when the numerator is positive. -/
def utilization_exceeds (bandwidth_since_sample bw : Int) (threshold : ℚ) : Bool :=
  if sample_denominator bw = 0 then decide (0 < bandwidth_since_sample)
  else decide
    (round_double ((bandwidth_since_sample : ℚ) / (sample_denominator bw : ℚ)) > threshold)

/-- Body of the predictor loop of `wakeup`. -/
def bash_step (bw : Int) (threshold : ℚ) (t : Throttle) : Throttle :=
  let c :=
    if utilization_exceeds t.m_bandwidth_since_sample bw threshold = true
    then t.m_bash_counter + 1 else t.m_bash_counter - 1
  { t with
    m_bash_counter := max 0 (min HIGH_RANGE c)
    m_last_bandwidth_sample := t.m_last_bandwidth_sample + ADJUST_INTERVAL
    m_bandwidth_since_sample := 0 }

/-- The predictor loop of `wakeup`, at most `fuel` iterations. -/
def bash_loop (bw : Int) (threshold : ℚ) (current_time : Int) : Nat → Throttle → Throttle
  | 0, t => t
  | fuel + 1, t =>
    if current_time - t.m_last_bandwidth_sample > ADJUST_INTERVAL then
      bash_loop bw threshold current_time fuel (bash_step bw threshold t)
    else t

/-- A number of iterations the predictor loop never exceeds (`bash_loop_exit`). -/
def bash_fuel (current_time : Int) (t : Throttle) : Nat :=
  ((current_time - t.m_last_bandwidth_sample) / ADJUST_INTERVAL).toNat

/-- The value of `ratio` in `wakeup`,
`1.0 - (double(bw_remaining) / double(getLinkBandwidth()))`: an `int` converts to a
`double` exactly, the quotient and the difference are rounded. -/
def link_ratio (bw bw_remaining : Int) : ℚ :=
  round_double (1 - round_double ((bw_remaining : ℚ) / (bw : ℚ)))

/-- The throttle after the accounting of `wakeup` for the bandwidth used in this cycle,
before the predictor loop runs: `linkUtilized(ratio)`, which the header defines as
`m_links_utilized += ratio`, and `m_bandwidth_since_sample += bw_used` on an `int`
member. -/
def accounted (bw : Int) (w : WakeupState) : Throttle :=
  let ratio : ℚ := link_ratio bw w.bw_remaining
  let bw_used := bw - w.bw_remaining
  { w.throttle with
    m_links_utilized := add_double w.throttle.m_links_utilized ratio
    m_bandwidth_since_sample := add_int w.throttle.m_bandwidth_since_sample bw_used }

/-- Method `Throttle::wakeup` at cycle `now`.  `bw` is the value of `getLinkBandwidth()` and
`threshold` that of `g_bash_bandwidth_adaptive_threshold`.  The result is the new
state and whether the throttle scheduled itself for the next cycle. -/
def wakeup (int_of : Nat → Int) (bw : Int) (threshold : ℚ) (now : Int) (t : Throttle) :
    Except Fault (Throttle × Bool) :=
  if bw > 0 then
    let t1 := { t with m_wakeups_wo_switch := (priority t).wakeups_wo_switch }
    match wakeup_for int_of now (vnet_order t)
        { throttle := t1, bw_remaining := bw, schedule_wakeup := false } with
    | .error e => .error e
    | .ok w =>
      let t2 := accounted bw w
      let t3 := bash_loop bw threshold now (bash_fuel now t2) t2
      .ok (t3, !(decide (w.bw_remaining > 0) && !w.schedule_wakeup))
  else .error .bandwidth_not_positive

/-- States of a throttle that a simulation reaches, with the number of wakeups that
have completed so far: construction, `addLinks`, wakeups, `clear`, `clearStats` (each at
any cycle), and the other components of the simulation, which enqueue into the input
buffers and dequeue from the output buffers between the calls. -/
inductive Reachable (int_of : Nat → Int) (bw : Int) (threshold : ℚ) :
    Nat → Throttle → Prop where
  | construct (sID node link_latency link_bandwidth_multiplier now : Int) (t : Throttle) :
      construct sID node link_latency link_bandwidth_multiplier now = .ok t →
      Reachable int_of bw threshold 0 t
  | addLinks (n : Nat) (t t1 : Throttle) (MessageSizeType_NUM : Nat)
      (g_PRINT_TOPOLOGY : Bool) (in_vec out_vec : List MessageBuffer) :
      Reachable int_of bw threshold n t →
      Throttle.addLinks MessageSizeType_NUM g_PRINT_TOPOLOGY t in_vec out_vec = .ok t1 →
      Reachable int_of bw threshold n t1
  | wakeup (n : Nat) (t t1 : Throttle) (now : Int) (scheduled : Bool) :
      Reachable int_of bw threshold n t →
      Throttle.wakeup int_of bw threshold now t = .ok (t1, scheduled) →
      Reachable int_of bw threshold (n + 1) t1
  | clear (n : Nat) (t t1 : Throttle) :
      Reachable int_of bw threshold n t →
      Throttle.clear t = .ok t1 →
      Reachable int_of bw threshold n t1
  | clearStats (n : Nat) (t : Throttle) (now : Int) :
      Reachable int_of bw threshold n t →
      Reachable int_of bw threshold n (Throttle.clearStats now t)
  | buffers (n : Nat) (t : Throttle) (ins outs : List MessageBuffer) :
      Reachable int_of bw threshold n t →
      ins.length = t.m_in.length → outs.length = t.m_out.length →
      Reachable int_of bw threshold n { t with m_in := ins, m_out := outs }

end Throttle

/-! ## Garnet network façade -/

/-- Modelled from the spec: `LinkDirection` "selects one of the two unidirectional
wires in a physical link". -/
inductive LinkDirection where
  | forward
  | backward
deriving DecidableEq, Repr

/-- Modelled from the spec: a `NetworkLink`, declared in `NetworkLink.hh`; `ident`
names the link object and `m_net_ptr` records that its back-reference to the network
has been set by `init_net_ptr`. -/
structure NetworkLink where
  ident : Nat
  m_net_ptr : Bool
deriving DecidableEq, Repr

/-- Modelled from the spec: `init_net_ptr` sets the back-reference to the network. -/
def NetworkLink.init_net_ptr (l : NetworkLink) : NetworkLink :=
  { l with m_net_ptr := true }

/-- Modelled from the spec: "each physical `BasicLink` provides a pair of
unidirectional `NetworkLink`s indexed by `LinkDirection`" and carries a weight
(`GarnetExtLink` and `GarnetIntLink` are declared in `GarnetLink.hh`). -/
structure BasicLink where
  forward_link : NetworkLink
  backward_link : NetworkLink
  m_weight : Int
deriving DecidableEq, Repr

/-- The entry `m_network_links[direction]` of a physical link. -/
def BasicLink.m_network_links (l : BasicLink) : LinkDirection → NetworkLink
  | .forward => l.forward_link
  | .backward => l.backward_link

/-- An output port of a router with the routing-table entry and the weight stored
with it. -/
structure OutPort where
  link : NetworkLink
  routing_table_entry : NetDest
  weight : Int
deriving DecidableEq, Repr

/-- Modelled from the spec: a `Router`, declared in `Router.hh`, exposes
`add_in_port(link)` and `add_out_port(link, routing_table_entry, weight)`. -/
structure Router where
  m_net_ptr : Bool
  in_ports : List NetworkLink
  out_ports : List OutPort
deriving DecidableEq, Repr

namespace Router

/-- Modelled from the spec: `init_net_ptr` sets the back-reference to the network. -/
def init_net_ptr (r : Router) : Router :=
  { r with m_net_ptr := true }

/-- Modelled from the spec: `add_in_port(link)`. -/
def addInPort (r : Router) (l : NetworkLink) : Router :=
  { r with in_ports := r.in_ports ++ [l] }

/-- Modelled from the spec: `add_out_port(link, routing_table_entry, weight)`. -/
def addOutPort (r : Router) (l : NetworkLink) (routing_table_entry : NetDest)
    (weight : Int) : Router :=
  { r with out_ports := r.out_ports ++ [⟨l, routing_table_entry, weight⟩] }

end Router

/-- Modelled from the spec: a `NetworkInterface`, declared in `NetworkInterface.hh`,
exposes `add_in_port(link)`, `add_out_port(link)` and `add_node(to_queues, from_queues)`. -/
structure NetworkInterface where
  m_id : Int
  m_virtual_networks : Int
  in_ports : List NetworkLink
  out_ports : List NetworkLink
  to_queues : List MessageBuffer
  from_queues : List MessageBuffer
deriving DecidableEq, Repr

namespace NetworkInterface

/-- Modelled from the spec: the constructor `NetworkInterface(id, virtual_networks, net)`
of an interface without ports and queues. -/
def construct (id virtual_networks : Int) : NetworkInterface :=
  { m_id := id, m_virtual_networks := virtual_networks,
    in_ports := [], out_ports := [], to_queues := [], from_queues := [] }

/-- Modelled from the spec: `add_node(to_queues, from_queues)`. -/
def addNode (ni : NetworkInterface) (to_queues from_queues : List MessageBuffer) :
    NetworkInterface :=
  { ni with to_queues := to_queues, from_queues := from_queues }

/-- Modelled from the spec: `add_in_port(link)`. -/
def addInPort (ni : NetworkInterface) (l : NetworkLink) : NetworkInterface :=
  { ni with in_ports := ni.in_ports ++ [l] }

/-- Modelled from the spec: `add_out_port(link)`. -/
def addOutPort (ni : NetworkInterface) (l : NetworkLink) : NetworkInterface :=
  { ni with out_ports := ni.out_ports ++ [l] }

end NetworkInterface

/-- Data members of `GarnetNetwork` that the source file reads or writes.  `NodeID`
and `SwitchID` are integers like the `int network_num`. -/
structure GarnetNetwork where
  m_nodes : Int
  m_virtual_networks : Int
  m_toNetQueues : List (List MessageBuffer)
  m_fromNetQueues : List (List MessageBuffer)
  m_in_use : List Bool
  m_ordered : List Bool
  m_router_ptr_vector : List Router
  m_ni_ptr_vector : List NetworkInterface
  m_link_ptr_vector : List NetworkLink
  m_ruby_start : Int
  m_flits_received : Int
  m_flits_injected : Int
  m_network_latency : ℚ
  m_queueing_latency : ℚ
deriving DecidableEq, Repr

/-- How a call on the network ended. -/
inductive Status where
  | ok
  | assertion_failed
  | fatal_reconfiguration
  | out_of_bounds
deriving DecidableEq, Repr

/-- Result of a call on the network: the state the call left behind, how the call
ended and, when it returned, the returned value. -/
structure Outcome (α : Type) where
  net : GarnetNetwork
  status : Status
  value : Option α
deriving DecidableEq

namespace GarnetNetwork

/-- The constructor `GarnetNetwork(p)`: `nodes` and `virtual_networks` are the values
the base class stores in `m_nodes` and `m_virtual_networks`, `routers` the routers of
the topology parameters, `capacity` the bound of a new `MessageBuffer()`. -/
def construct (nodes virtual_networks : Nat) (routers : List Router) (capacity : Nat) :
    GarnetNetwork :=
  { m_nodes := nodes
    m_virtual_networks := virtual_networks
    m_ruby_start := 0
    m_flits_received := 0
    m_flits_injected := 0
    m_network_latency := 0
    m_queueing_latency := 0
    m_router_ptr_vector := routers
    m_toNetQueues :=
      List.replicate nodes (List.replicate virtual_networks ⟨[], capacity⟩)
    m_fromNetQueues :=
      List.replicate nodes (List.replicate virtual_networks ⟨[], capacity⟩)
    m_in_use := List.replicate virtual_networks false
    m_ordered := List.replicate virtual_networks false
    m_ni_ptr_vector := []
    m_link_ptr_vector := [] }

/-- Method `GarnetNetwork::checkNetworkAllocation`. -/
def checkNetworkAllocation (net : GarnetNetwork) (id : Int) (ordered : Bool)
    (network_num : Int) : Outcome Unit :=
  if id < net.m_nodes then
    if network_num < net.m_virtual_networks then
      match (if ordered then vec_write net.m_ordered network_num true
             else some net.m_ordered) with
      | none => ⟨net, .out_of_bounds, none⟩
      | some ord =>
        let net1 := { net with m_ordered := ord }
        match vec_write net1.m_in_use network_num true with
        | none => ⟨net1, .out_of_bounds, none⟩
        | some used => ⟨{ net1 with m_in_use := used }, .ok, some ()⟩
    else ⟨net, .assertion_failed, none⟩
  else ⟨net, .assertion_failed, none⟩

/-- Read of `queues[id][network_num]`. -/
def queue_at (queues : List (List MessageBuffer)) (id network_num : Int) :
    Option MessageBuffer :=
  match vec_read queues id with
  | none => none
  | some row => vec_read row network_num

/-- Method `GarnetNetwork::getToNetQueue`. -/
def getToNetQueue (net : GarnetNetwork) (id : Int) (ordered : Bool) (network_num : Int) :
    Outcome MessageBuffer :=
  let r := checkNetworkAllocation net id ordered network_num
  match r.status with
  | .ok =>
    match queue_at r.net.m_toNetQueues id network_num with
    | none => ⟨r.net, .out_of_bounds, none⟩
    | some b => ⟨r.net, .ok, some b⟩
  | st => ⟨r.net, st, none⟩

/-- Method `GarnetNetwork::getFromNetQueue`. -/
def getFromNetQueue (net : GarnetNetwork) (id : Int) (ordered : Bool) (network_num : Int) :
    Outcome MessageBuffer :=
  let r := checkNetworkAllocation net id ordered network_num
  match r.status with
  | .ok =>
    match queue_at r.net.m_fromNetQueues id network_num with
    | none => ⟨r.net, .out_of_bounds, none⟩
    | some b => ⟨r.net, .ok, some b⟩
  | st => ⟨r.net, st, none⟩

/-- Method `GarnetNetwork::makeInLink`: a link from endpoint `src` to router `dest`.
The `safe_cast` of `link` is the identity on the modelled physical links. -/
def makeInLink (net : GarnetNetwork) (src dest : Int) (link : BasicLink)
    (direction : LinkDirection) (_routing_table_entry : NetDest)
    (isReconfiguration : Bool) : Outcome Unit :=
  if src < net.m_nodes then
    if !isReconfiguration then
      let net_link := (link.m_network_links direction).init_net_ptr
      let net1 := { net with m_link_ptr_vector := net.m_link_ptr_vector ++ [net_link] }
      match vec_read net1.m_router_ptr_vector dest with
      | none => ⟨net1, .out_of_bounds, none⟩
      | some router =>
        let net2 := { net1 with
          m_router_ptr_vector :=
            net1.m_router_ptr_vector.set dest.toNat (router.addInPort net_link) }
        match vec_read net2.m_ni_ptr_vector src with
        | none => ⟨net2, .out_of_bounds, none⟩
        | some ni =>
          ⟨{ net2 with
              m_ni_ptr_vector :=
                net2.m_ni_ptr_vector.set src.toNat (ni.addOutPort net_link) },
            .ok, some ()⟩
    else ⟨net, .fatal_reconfiguration, none⟩
  else ⟨net, .assertion_failed, none⟩

/-- Method `GarnetNetwork::makeOutLink`: a link from router `src` to endpoint `dest`.
The comparison of `src` with the unsigned `size()` fails for a negative `src`; the
routers of the model are never null. -/
def makeOutLink (net : GarnetNetwork) (src dest : Int) (link : BasicLink)
    (direction : LinkDirection) (routing_table_entry : NetDest)
    (isReconfiguration : Bool) : Outcome Unit :=
  if dest < net.m_nodes then
    if 0 ≤ src ∧ src < (net.m_router_ptr_vector.length : Int) then
      if !isReconfiguration then
        let net_link := (link.m_network_links direction).init_net_ptr
        let net1 := { net with m_link_ptr_vector := net.m_link_ptr_vector ++ [net_link] }
        match vec_read net1.m_router_ptr_vector src with
        | none => ⟨net1, .out_of_bounds, none⟩
        | some router =>
          let net2 := { net1 with
            m_router_ptr_vector :=
              net1.m_router_ptr_vector.set src.toNat
                (router.addOutPort net_link routing_table_entry link.m_weight) }
          match vec_read net2.m_ni_ptr_vector dest with
          | none => ⟨net2, .out_of_bounds, none⟩
          | some ni =>
            ⟨{ net2 with
                m_ni_ptr_vector :=
                  net2.m_ni_ptr_vector.set dest.toNat (ni.addInPort net_link) },
              .ok, some ()⟩
      else ⟨net, .fatal_reconfiguration, none⟩
    else ⟨net, .assertion_failed, none⟩
  else ⟨net, .assertion_failed, none⟩

/-- Method `GarnetNetwork::makeInternalLink`: a link from router `src` to router `dest`. -/
def makeInternalLink (net : GarnetNetwork) (src dest : Int) (link : BasicLink)
    (direction : LinkDirection) (routing_table_entry : NetDest)
    (isReconfiguration : Bool) : Outcome Unit :=
  if !isReconfiguration then
    let net_link := (link.m_network_links direction).init_net_ptr
    let net1 := { net with m_link_ptr_vector := net.m_link_ptr_vector ++ [net_link] }
    match vec_read net1.m_router_ptr_vector dest with
    | none => ⟨net1, .out_of_bounds, none⟩
    | some router =>
      let net2 := { net1 with
        m_router_ptr_vector :=
          net1.m_router_ptr_vector.set dest.toNat (router.addInPort net_link) }
      match vec_read net2.m_router_ptr_vector src with
      | none => ⟨net2, .out_of_bounds, none⟩
      | some router1 =>
        ⟨{ net2 with
            m_router_ptr_vector :=
              net2.m_router_ptr_vector.set src.toNat
                (router1.addOutPort net_link routing_table_entry link.m_weight) },
          .ok, some ()⟩
  else ⟨net, .fatal_reconfiguration, none⟩

/-- What `printConfig` prints after `virtual_net_i: `. -/
inductive VnetReport where
  | inactive
  | active_ordered
  | active_unordered
deriving DecidableEq, Repr

/-- The line of `GarnetNetwork::printConfig` for virtual network `i`. -/
def printConfig_vnet (net : GarnetNetwork) (i : Nat) : Option VnetReport :=
  match net.m_in_use[i]?, net.m_ordered[i]? with
  | some used, some ord =>
    if used then
      if ord then some .active_ordered else some .active_unordered
    else some .inactive
  | _, _ => none

/-- Write of `queues[id][network_num]`. -/
def queue_set (queues : List (List MessageBuffer)) (id network_num : Int)
    (b : MessageBuffer) : Option (List (List MessageBuffer)) :=
  match vec_read queues id with
  | none => none
  | some row =>
    match vec_write row network_num b with
    | none => none
    | some row1 => vec_write queues id row1

/-- The inner loop of `reset` for one `node`, from virtual network `j` on. -/
def reset_vnets (node : Int) : Nat → Int → GarnetNetwork → Outcome Unit
  | 0, _, net => ⟨net, .ok, some ()⟩
  | fuel + 1, j, net =>
    if j < net.m_virtual_networks then
      match queue_at net.m_toNetQueues node j with
      | none => ⟨net, .out_of_bounds, none⟩
      | some b =>
        match queue_set net.m_toNetQueues node j b.clear with
        | none => ⟨net, .out_of_bounds, none⟩
        | some to_queues =>
          let net1 := { net with m_toNetQueues := to_queues }
          match queue_at net1.m_fromNetQueues node j with
          | none => ⟨net1, .out_of_bounds, none⟩
          | some b1 =>
            match queue_set net1.m_fromNetQueues node j b1.clear with
            | none => ⟨net1, .out_of_bounds, none⟩
            | some from_queues =>
              reset_vnets node fuel (j + 1) { net1 with m_fromNetQueues := from_queues }
    else ⟨net, .ok, some ()⟩

/-- The outer loop of `reset`, from `node` on. -/
def reset_nodes : Nat → Int → GarnetNetwork → Outcome Unit
  | 0, _, net => ⟨net, .ok, some ()⟩
  | fuel + 1, node, net =>
    if node < net.m_nodes then
      match (reset_vnets node net.m_virtual_networks.toNat 0 net).status with
      | .ok =>
        reset_nodes fuel (node + 1)
          (reset_vnets node net.m_virtual_networks.toNat 0 net).net
      | st => ⟨(reset_vnets node net.m_virtual_networks.toNat 0 net).net, st, none⟩
    else ⟨net, .ok, some ()⟩

/-- Method `GarnetNetwork::reset`: clears every buffer of the two queue tables.  The
outer loop runs `m_nodes` times and the inner one `m_virtual_networks` times. -/
def reset (net : GarnetNetwork) : Outcome Unit :=
  reset_nodes net.m_nodes.toNat 0 net

/-- A protocol request for a queue of the network. -/
inductive QueueCall where
  | to_net (id : Int) (ordered : Bool) (network_num : Int)
  | from_net (id : Int) (ordered : Bool) (network_num : Int)
deriving DecidableEq, Repr

/-- The virtual network a request names. -/
def QueueCall.network_num : QueueCall → Int
  | .to_net _ _ v => v
  | .from_net _ _ v => v

/-- The endpoint a request names. -/
def QueueCall.id : QueueCall → Int
  | .to_net n _ _ => n
  | .from_net n _ _ => n

/-- The request, made on `net`. -/
def QueueCall.run (net : GarnetNetwork) : QueueCall → Outcome MessageBuffer
  | .to_net id ordered network_num => getToNetQueue net id ordered network_num
  | .from_net id ordered network_num => getFromNetQueue net id ordered network_num

/-- State after a sequence of requests; a request that fails ends the simulation. -/
def run_queue_calls (net : GarnetNetwork) : List QueueCall → GarnetNetwork
  | [] => net
  | c :: cs =>
    match (c.run net).status with
    | .ok => run_queue_calls (c.run net).net cs
    | _ => (c.run net).net

/-- The three link-making entry points. -/
inductive LinkKind where
  | in_link
  | out_link
  | internal_link
deriving DecidableEq, Repr

/-- One link-making call of the topology, without the reconfiguration flag. -/
structure LinkCall where
  kind : LinkKind
  src : Int
  dest : Int
  link : BasicLink
  direction : LinkDirection
  routing_table_entry : NetDest
deriving DecidableEq, Repr

/-- The link-making call, made on `net`. -/
def LinkCall.run (net : GarnetNetwork) (c : LinkCall) (isReconfiguration : Bool) :
    Outcome Unit :=
  match c.kind with
  | .in_link =>
    makeInLink net c.src c.dest c.link c.direction c.routing_table_entry isReconfiguration
  | .out_link =>
    makeOutLink net c.src c.dest c.link c.direction c.routing_table_entry isReconfiguration
  | .internal_link =>
    makeInternalLink net c.src c.dest c.link c.direction c.routing_table_entry
      isReconfiguration

/-- The `NetworkLink` a link-making call selects from its physical link. -/
def LinkCall.network_link (c : LinkCall) : NetworkLink :=
  (c.link.m_network_links c.direction).init_net_ptr

/-- Modelled from the spec: `Topology::createLinks(net, isReconfiguration)`, declared in
`mem/ruby/network/Topology.hh`, "issues, in a deterministic order, a sequence of
`make_in_link` / `make_out_link` / `make_internal_link` calls"; a call that fails ends
the simulation. -/
def createLinks (net : GarnetNetwork) (isReconfiguration : Bool) :
    List LinkCall → Outcome Unit
  | [] => ⟨net, .ok, some ()⟩
  | c :: cs =>
    match (c.run net isReconfiguration).status with
    | .ok => createLinks (c.run net isReconfiguration).net isReconfiguration cs
    | st => ⟨(c.run net isReconfiguration).net, st, none⟩

/-- The loop of `init` that creates one network interface per node, from node `i` on. -/
def init_interfaces (net : GarnetNetwork) : Nat → Int → Option GarnetNetwork
  | 0, _ => some net
  | fuel + 1, i =>
    if i < net.m_nodes then
      match vec_read net.m_toNetQueues i, vec_read net.m_fromNetQueues i with
      | some to_queues, some from_queues =>
        let ni := NetworkInterface.construct i net.m_virtual_networks
        init_interfaces
          { net with
            m_ni_ptr_vector := net.m_ni_ptr_vector ++ [ni.addNode to_queues from_queues] }
          fuel (i + 1)
      | _, _ => none
    else some net

/-- Method `GarnetNetwork::init`; `topology` is the sequence of calls `createLinks` issues.
The initialisation of the base class is not part of this file. -/
def init (net : GarnetNetwork) (topology : List LinkCall) : Outcome Unit :=
  let net1 := { net with
    m_router_ptr_vector := net.m_router_ptr_vector.map Router.init_net_ptr }
  match init_interfaces net1 net1.m_nodes.toNat 0 with
  | none => ⟨net1, .out_of_bounds, none⟩
  | some net2 => createLinks net2 false topology

/-- The queues and the two bitmaps have the sizes the constructor gives them. -/
def Constructed (net : GarnetNetwork) : Prop :=
  0 ≤ net.m_nodes ∧ 0 ≤ net.m_virtual_networks ∧
  (net.m_toNetQueues.length : Int) = net.m_nodes ∧
  (net.m_fromNetQueues.length : Int) = net.m_nodes ∧
  (∀ row ∈ net.m_toNetQueues, (row.length : Int) = net.m_virtual_networks) ∧
  (∀ row ∈ net.m_fromNetQueues, (row.length : Int) = net.m_virtual_networks) ∧
  (net.m_in_use.length : Int) = net.m_virtual_networks ∧
  (net.m_ordered.length : Int) = net.m_virtual_networks

/-- The network is constructed and `init` has created one network interface per node. -/
def Initialised (net : GarnetNetwork) : Prop :=
  Constructed net ∧ (net.m_ni_ptr_vector.length : Int) = net.m_nodes

/-- The IDs of a link-making call are in range: `NodeID`s below the number of nodes
and `SwitchID`s below the number of routers. -/
def LinkCall.in_range (net : GarnetNetwork) (c : LinkCall) : Prop :=
  match c.kind with
  | .in_link =>
    0 ≤ c.src ∧ c.src < net.m_nodes ∧
      0 ≤ c.dest ∧ c.dest < (net.m_router_ptr_vector.length : Int)
  | .out_link =>
    0 ≤ c.src ∧ c.src < (net.m_router_ptr_vector.length : Int) ∧
      0 ≤ c.dest ∧ c.dest < net.m_nodes
  | .internal_link =>
    0 ≤ c.src ∧ c.src < (net.m_router_ptr_vector.length : Int) ∧
      0 ≤ c.dest ∧ c.dest < (net.m_router_ptr_vector.length : Int)

end GarnetNetwork

/-! ## Relations between states used in the statements -/

namespace Throttle

/-- State `b` differs from `a` at most in the buffers, the units that remain and the
message counters. -/
def SameControl (a b : Throttle) : Prop :=
  b.m_sID = a.m_sID ∧ b.m_node = a.m_node ∧ b.m_vnets = a.m_vnets ∧
  b.m_link_bandwidth_multiplier = a.m_link_bandwidth_multiplier ∧
  b.m_link_latency = a.m_link_latency ∧ b.m_out_link_vec = a.m_out_link_vec ∧
  b.m_bash_counter = a.m_bash_counter ∧
  b.m_bandwidth_since_sample = a.m_bandwidth_since_sample ∧
  b.m_last_bandwidth_sample = a.m_last_bandwidth_sample ∧
  b.m_wakeups_wo_switch = a.m_wakeups_wo_switch ∧
  b.m_links_utilized = a.m_links_utilized ∧ b.m_ruby_start = a.m_ruby_start

/-- What the predictor loop leaves fixed. -/
def SamePlumbing (a b : Throttle) : Prop :=
  b.m_vnets = a.m_vnets ∧ b.m_wakeups_wo_switch = a.m_wakeups_wo_switch ∧
  b.m_units_remaining = a.m_units_remaining ∧ b.m_in = a.m_in ∧ b.m_out = a.m_out ∧
  b.m_message_counters = a.m_message_counters ∧ b.m_link_latency = a.m_link_latency ∧
  b.m_links_utilized = a.m_links_utilized

/-- The nodes `moved` left the head of `i` and were appended to `o` with arrival time
`arrival`; `i1` and `o1` are the buffers afterwards. -/
def Moved (now arrival : Int) (i o i1 o1 : MessageBuffer)
    (moved : List MessageBufferNode) : Prop :=
  i.entries = moved ++ i1.entries ∧
  o1.entries = o.entries ++ moved.map (fun n => ⟨arrival, n.m_msgptr⟩) ∧
  (∀ n ∈ moved, n.m_time ≤ now) ∧
  i1.capacity = i.capacity ∧ o1.capacity = o.capacity

/-- Every virtual network keeps its pair of buffers, and what left the input buffer
is what arrived in the output buffer. -/
def MovedAll (now arrival : Int) (a b : Throttle) : Prop :=
  b.m_in.length = a.m_in.length ∧ b.m_out.length = a.m_out.length ∧
  ∀ (v : Nat) (i o : MessageBuffer), a.m_in[v]? = some i → a.m_out[v]? = some o →
    ∃ (i1 o1 : MessageBuffer) (moved : List MessageBufferNode),
      b.m_in[v]? = some i1 ∧ b.m_out[v]? = some o1 ∧ Moved now arrival i o i1 o1 moved

/-- The shape `addLinks` gives a throttle under a protocol with `MessageSizeType_NUM`
size tags: one input buffer, one output buffer and one non-negative count of units per
virtual network, a table of counters with a row per size tag and a column per virtual
network, and queued messages whose size tags belong to the protocol. -/
def WellFormed (MessageSizeType_NUM : Nat) (t : Throttle) : Prop :=
  0 ≤ t.m_vnets ∧
  t.m_in.length = t.m_vnets.toNat ∧ t.m_out.length = t.m_vnets.toNat ∧
  t.m_units_remaining.length = t.m_vnets.toNat ∧
  (∀ u ∈ t.m_units_remaining, 0 ≤ u) ∧
  t.m_message_counters.length = MessageSizeType_NUM ∧
  (∀ row ∈ t.m_message_counters, row.length = t.m_vnets.toNat) ∧
  (∀ b ∈ t.m_in, ∀ n ∈ b.entries, n.m_msgptr.m_MessageSize < MessageSizeType_NUM)

instance (MessageSizeType_NUM : Nat) (t : Throttle) :
    Decidable (WellFormed MessageSizeType_NUM t) := by
  unfold WellFormed; infer_instance

/-- The part of `WellFormed` that concerns the variables of one virtual network. -/
def SlotOk (MessageSizeType_NUM V : Nat) (vnet : Int) (s : VnetSlot) : Prop :=
  0 ≤ vnet ∧ vnet.toNat < V ∧
  s.m_message_counters.length = MessageSizeType_NUM ∧
  (∀ row ∈ s.m_message_counters, row.length = V) ∧
  (∀ n ∈ s.m_in.entries, n.m_msgptr.m_MessageSize < MessageSizeType_NUM)

/-- A quantity every iteration of the `while` loop decreases. -/
def while_measure (s : VnetSlot) : Nat :=
  2 * s.m_in.entries.length + (if s.m_units_remaining = 0 then 0 else 1)
    + (if s.bw_remaining > 0 then 1 else 0)

/-- Virtual network `v` has pending work at cycle `now`: a ready message at the head of
its input buffer, or units of a message that remain to be paid. -/
def pending (now : Int) (t : Throttle) (v : Nat) : Bool :=
  match t.m_in[v]?, t.m_units_remaining[v]? with
  | some i, some u => i.isReady now || decide (u > 0)
  | _, _ => false

/-- Virtual network `v` has pending work and its output buffer has no free slot. -/
def blocked (now : Int) (t : Throttle) (v : Nat) : Bool :=
  pending now t v &&
    match t.m_out[v]? with
    | some o => !o.areNSlotsAvailable 1
    | none => false

/-- The throttle and the locals `bw_remaining` and `schedule_wakeup` at the end of the
loop of `wakeup` over the virtual networks. -/
def wakeup_locals (int_of : Nat → Int) (bw now : Int) (t : Throttle) :
    Except Fault WakeupState :=
  wakeup_for int_of now (vnet_order t)
    { throttle := { t with m_wakeups_wo_switch := (priority t).wakeups_wo_switch },
      bw_remaining := bw, schedule_wakeup := false }

/-- Wakeups at the `n` consecutive cycles `now`, `now + 1`, ... with nothing else
touching the throttle and its buffers in between: the state afterwards and, in order,
whether each wakeup scheduled the throttle for the next cycle. -/
def wakeups (int_of : Nat → Int) (bw : Int) (threshold : ℚ) :
    Nat → Int → Throttle → Except Fault (Throttle × List Bool)
  | 0, _, t => .ok (t, [])
  | n + 1, now, t =>
    match wakeup int_of bw threshold now t with
    | .error e => .error e
    | .ok (t1, scheduled) =>
      match wakeups int_of bw threshold n (now + 1) t1 with
      | .error e => .error e
      | .ok (t2, flags) => .ok (t2, scheduled :: flags)

/-- The nodes a throttle of latency `link_latency` appends to an output buffer when it
moves the messages of the given nodes one per cycle, the first at cycle `now`. -/
def delivered (link_latency : Int) : Int → List MessageBufferNode → List MessageBufferNode
  | _, [] => []
  | now, n :: ns =>
    ⟨now + link_latency, n.m_msgptr⟩ :: delivered link_latency (now + 1) ns

/-- The value of `utilization` in the predictor loop of `wakeup`,
`m_bandwidth_since_sample / double(ADJUST_INTERVAL * getLinkBandwidth())`, as the
quotient of the two operands before it is rounded to a `double`; `none` stands for the
infinity or NaN that a division by zero gives. -/
def utilization (bandwidth_since_sample bw : Int) : Option ℚ :=
  if sample_denominator bw = 0 then none
  else some ((bandwidth_since_sample : ℚ) / (sample_denominator bw : ℚ))

/-- No message has a negative size: what `network_message_to_size` returns is never
negative. -/
def SizesNonneg (int_of : Nat → Int) : Prop :=
  ∀ (m : NetworkMessage) (size : Int),
    network_message_to_size int_of (some m) = .ok size → 0 ≤ size

/-- The units `network_message_to_size` gives for a queued message (0 stands for the
failed assertion, which no queued message meets). -/
def node_units (int_of : Nat → Int) (n : MessageBufferNode) : Int :=
  match network_message_to_size int_of (some n.m_msgptr) with
  | .ok size => size
  | .error _ => 0

/-- Total size of the messages queued in a buffer. -/
def queued_units (int_of : Nat → Int) (b : MessageBuffer) : Int :=
  (b.entries.map (node_units int_of)).sum

/-- The messages that left the head of the buffer `before`, given the buffer `after`
that holds the others. -/
def moved_nodes (before after : MessageBuffer) : List MessageBufferNode :=
  before.entries.take (before.entries.length - after.entries.length)

/-- Total size of the messages that left `in[v]` between the states `t` and `t1`. -/
def units_moved (int_of : Nat → Int) (t t1 : Throttle) (v : Nat) : Int :=
  match t.m_in[v]?, t1.m_in[v]? with
  | some i, some i1 => ((moved_nodes i i1).map (node_units int_of)).sum
  | _, _ => 0

/-- The units paid off on virtual network `v` between the states `t` and `t1`: the
units that remained before, plus the sizes of the messages moved, less the units that
remain after. -/
def units_paid (int_of : Nat → Int) (t t1 : Throttle) (v : Nat) : Int :=
  t.m_units_remaining.getD v 0 + units_moved int_of t t1 v
    - t1.m_units_remaining.getD v 0

end Throttle

namespace GarnetNetwork

/-- The state `checkNetworkAllocation` leaves when both range checks pass and the
index is inside the two bitmaps. -/
def allocated (net : GarnetNetwork) (ordered : Bool) (network_num : Int) : GarnetNetwork :=
  { net with
    m_ordered := if ordered then net.m_ordered.set network_num.toNat true else net.m_ordered
    m_in_use := net.m_in_use.set network_num.toNat true }

/-- The flags that are set in `a` are set in `b`. -/
def FlagsKept (a b : GarnetNetwork) : Prop :=
  ∀ j : Nat, (a.m_in_use[j]? = some true → b.m_in_use[j]? = some true) ∧
    (a.m_ordered[j]? = some true → b.m_ordered[j]? = some true)

/-- The `ordered` flag of a request. -/
def QueueCall.ordered : QueueCall → Bool
  | .to_net _ o _ => o
  | .from_net _ o _ => o

/-- The arguments of a request are in range. -/
def QueueCall.in_range (net : GarnetNetwork) (c : QueueCall) : Prop :=
  0 ≤ c.id ∧ c.id < net.m_nodes ∧ 0 ≤ c.network_num ∧ c.network_num < net.m_virtual_networks

/-- What a link-making call leaves fixed: the sizes, the queues and the allocation
flags. -/
def SameShape (a b : GarnetNetwork) : Prop :=
  b.m_nodes = a.m_nodes ∧ b.m_virtual_networks = a.m_virtual_networks ∧
  b.m_toNetQueues = a.m_toNetQueues ∧ b.m_fromNetQueues = a.m_fromNetQueues ∧
  b.m_in_use = a.m_in_use ∧ b.m_ordered = a.m_ordered ∧
  b.m_router_ptr_vector.length = a.m_router_ptr_vector.length ∧
  b.m_ni_ptr_vector.length = a.m_ni_ptr_vector.length

instance (net : GarnetNetwork) : Decidable (Constructed net) := by
  unfold Constructed; infer_instance

instance (net : GarnetNetwork) : Decidable (Initialised net) := by
  unfold Initialised; infer_instance

instance (net : GarnetNetwork) (c : QueueCall) : Decidable (c.in_range net) := by
  unfold QueueCall.in_range; infer_instance

instance (net : GarnetNetwork) (c : LinkCall) : Decidable (c.in_range net) := by
  unfold LinkCall.in_range; split <;> infer_instance

/-- The list `l` with `f` applied to its first `n` elements. -/
def map_upto {α : Type} (f : α → α) : Nat → List α → List α
  | 0, l => l
  | _ + 1, [] => []
  | n + 1, a :: l => f a :: map_upto f n l

/-- The network with every buffer of the two queue tables emptied. -/
def cleared (net : GarnetNetwork) : GarnetNetwork :=
  { net with
    m_toNetQueues := net.m_toNetQueues.map (fun row => row.map MessageBuffer.clear)
    m_fromNetQueues := net.m_fromNetQueues.map (fun row => row.map MessageBuffer.clear) }

/-- State after `k` calls of `reset`; a call that fails ends the simulation. -/
def resets : Nat → GarnetNetwork → GarnetNetwork
  | 0, net => net
  | k + 1, net =>
    match (reset net).status with
    | .ok => resets k (reset net).net
    | _ => (reset net).net

end GarnetNetwork

/-! ## Example states -/

namespace Examples

/-- Size table of the examples: tag 0 stands for one unit, every other tag for four. -/
def int_of (tag : Nat) : Int :=
  if tag = 0 then 1 else 4

/-- A unicast message. -/
def message (ident size : Nat) : NetworkMessage :=
  ⟨ident, size, ⟨[], false⟩⟩

/-- A throttle right after `Throttle(0, 0, 1, 1)` at cycle 0. -/
def fresh : Throttle :=
  { Throttle.blank with
    m_bash_counter := 256, m_link_bandwidth_multiplier := 1, m_link_latency := 1 }

/-- Two input buffers: three messages wait on virtual network 0 (the third arrives at
cycle 5), one on virtual network 1. -/
def in_vec : List MessageBuffer :=
  [⟨[⟨0, message 1 0⟩, ⟨0, message 2 0⟩, ⟨5, message 3 1⟩], 10⟩, ⟨[⟨0, message 4 1⟩], 10⟩]

/-- Two empty output buffers. -/
def out_vec : List MessageBuffer :=
  [⟨[], 10⟩, ⟨[], 10⟩]

/-- The throttle `fresh` after `addLinks(in_vec, out_vec)` with two size tags. -/
def linked : Throttle :=
  { fresh with
    m_vnets := 2, m_in := in_vec, m_out := out_vec, m_units_remaining := [0, 0],
    m_message_counters := [[0, 0], [0, 0]] }

/-- The throttle `linked` after a wakeup at cycle 0 with a link bandwidth of 5000:
message 4 (4000 units) left virtual network 1, then message 1 (1000 units) left
virtual network 0. -/
def woken : Throttle :=
  { linked with
    m_in := [⟨[⟨0, message 2 0⟩, ⟨5, message 3 1⟩], 10⟩, ⟨[], 10⟩]
    m_out := [⟨[⟨1, message 1 0⟩], 10⟩, ⟨[⟨1, message 4 1⟩], 10⟩]
    m_message_counters := [[1, 0], [0, 1]]
    m_bandwidth_since_sample := 5000
    m_wakeups_wo_switch := 1
    m_links_utilized := 1 }

/-- A physical link with its two network links. -/
def wire (ident : Nat) : BasicLink :=
  ⟨⟨2 * ident, false⟩, ⟨2 * ident + 1, false⟩, 1⟩

/-- A network of two nodes, four virtual networks and two routers after `init()` with a
topology that makes no link. -/
def network : GarnetNetwork :=
  (GarnetNetwork.init
    (GarnetNetwork.construct 2 4 [⟨false, [], []⟩, ⟨false, [], []⟩] 8) []).net

/-- Three link-making calls with IDs in range for `network`. -/
def link_calls : List GarnetNetwork.LinkCall :=
  [⟨.in_link, 0, 1, wire 0, .forward, ⟨[0], false⟩⟩,
   ⟨.out_link, 1, 0, wire 0, .backward, ⟨[0], false⟩⟩,
   ⟨.internal_link, 0, 1, wire 1, .forward, ⟨[1], false⟩⟩]

/-- The example network with a message waiting in `to_net[0][1]` and another one in
`from_net[1][2]`. -/
def busy_network : GarnetNetwork :=
  { network with
    m_toNetQueues :=
      [[⟨[], 8⟩, ⟨[⟨3, message 1 0⟩], 8⟩, ⟨[], 8⟩, ⟨[], 8⟩],
       [⟨[], 8⟩, ⟨[], 8⟩, ⟨[], 8⟩, ⟨[], 8⟩]]
    m_fromNetQueues :=
      [[⟨[], 8⟩, ⟨[], 8⟩, ⟨[], 8⟩, ⟨[], 8⟩],
       [⟨[], 8⟩, ⟨[], 8⟩, ⟨[⟨5, message 2 1⟩], 8⟩, ⟨[], 8⟩]]
    m_in_use := [false, true, true, false] }

/-- The throttle `fresh` after `addLinks` with one virtual network, two size tags and
the buffers `i` and `o`. -/
def single (i o : MessageBuffer) : Throttle :=
  { fresh with
    m_vnets := 1, m_in := [i], m_out := [o], m_units_remaining := [0],
    m_message_counters := [[0], [0]] }

/-- Four messages of one unit (1000), all ready at cycle 0. -/
def unit_queue : MessageBuffer :=
  ⟨[⟨0, message 1 0⟩, ⟨0, message 2 0⟩, ⟨0, message 3 0⟩, ⟨0, message 4 0⟩], 10⟩

/-- The throttle `fresh` after `addLinks` with two virtual networks that each hold a
ready message of four units (4000) and have room in their output buffers, with
`m_wakeups_wo_switch` set to `wakeups`. -/
def saturated (wakeups : Int) : Throttle :=
  { fresh with
    m_vnets := 2
    m_in := [⟨[⟨0, message 1 1⟩, ⟨0, message 2 1⟩], 10⟩,
             ⟨[⟨0, message 3 1⟩, ⟨0, message 4 1⟩], 10⟩]
    m_out := [⟨[], 10⟩, ⟨[], 10⟩]
    m_units_remaining := [0, 0]
    m_message_counters := [[0, 0], [0, 0]]
    m_wakeups_wo_switch := wakeups }

/-- The throttle `linked` after a wakeup at cycle 120000 with a link bandwidth of 5000:
as `woken`, with the arrival time 120001 and two samples taken by the predictor. -/
def woken_late : Throttle :=
  { woken with
    m_out := [⟨[⟨120001, message 1 0⟩], 10⟩, ⟨[⟨120001, message 4 1⟩], 10⟩]
    m_bash_counter := 254
    m_bandwidth_since_sample := 0
    m_last_bandwidth_sample := 100000 }

/-- A throttle with one virtual network and a ready message, 50000 cycles after the
last sample of the predictor, in all of which a link bandwidth of 42949 was used up:
`m_bandwidth_since_sample` is `50000 * 42949`, and the counter of the predictor is at
100. -/
def saturated_link : Throttle :=
  { single ⟨[⟨0, message 1 0⟩], 10⟩ ⟨[], 10⟩ with
    m_bash_counter := 100
    m_bandwidth_since_sample := 2147450000 }

end Examples

end Ruby

/-! # Theorems -/

namespace Ruby

/-! ## Vectors and remainders -/

theorem vec_read_eq_getElem? {α : Type} (v : List α) (i : Int) (h0 : 0 ≤ i) :
    vec_read v i = v[i.toNat]? := by
  unfold vec_read
  rw [if_neg (by omega)]

theorem vec_read_some {α : Type} {v : List α} {i : Int} {a : α}
    (h : vec_read v i = some a) : 0 ≤ i ∧ v[i.toNat]? = some a := by
  unfold vec_read at h
  split at h
  · simp at h
  · exact ⟨by omega, h⟩

theorem vec_write_some {α : Type} {v w : List α} {i : Int} {a : α}
    (h : vec_write v i a = some w) :
    0 ≤ i ∧ i.toNat < v.length ∧ w = v.set i.toNat a := by
  unfold vec_write at h
  split at h
  · simp at h
  · split at h
    · simp at h; exact ⟨by omega, by assumption, h.symm⟩
    · simp at h

theorem vec_write_eq_some {α : Type} (v : List α) (i : Int) (a : α)
    (h0 : 0 ≤ i) (h1 : i < (v.length : Int)) :
    vec_write v i a = some (v.set i.toNat a) := by
  unfold vec_write
  rw [if_neg (by omega), if_pos (by omega)]

theorem vec_read_isSome {α : Type} (v : List α) (i : Int)
    (h0 : 0 ≤ i) (h1 : i < (v.length : Int)) : ∃ a, vec_read v i = some a := by
  rw [vec_read_eq_getElem? v i h0]
  have : i.toNat < v.length := by omega
  exact ⟨v[i.toNat], List.getElem?_eq_getElem this⟩

theorem vec_write_length {α : Type} (v w : List α) (i : Int) (a : α)
    (h : vec_write v i a = some w) : w.length = v.length := by
  unfold vec_write at h
  split at h
  · simp at h
  · split at h
    · simp at h; subst h; simp
    · simp at h

theorem vec_write_true_mono (v w : List Bool) (i : Int) (j : Nat)
    (h : vec_write v i true = some w) (hj : v[j]? = some true) : w[j]? = some true := by
  unfold vec_write at h
  split at h
  · simp at h
  · split at h
    · simp at h; subst h
      rw [List.getElem?_set]
      split
      · rename_i hij; subst hij; simp_all
      · exact hj
    · simp at h

theorem tmod_128_bounds (r : Int) : -127 ≤ Int.tmod r 128 ∧ Int.tmod r 128 ≤ 127 := by
  cases r with
  | ofNat n =>
    have : Int.tmod (Int.ofNat n) 128 = ((n % 128 : Nat) : Int) := rfl
    rw [this]; omega
  | negSucc n =>
    have : Int.tmod (Int.negSucc n) 128 = -(((n + 1) % 128 : Nat) : Int) := rfl
    rw [this]; omega

theorem tmod_128_nonneg (r : Int) (h : 0 ≤ r) : 0 ≤ Int.tmod r 128 :=
  Int.tmod_nonneg 128 h

theorem set_getElem?_self {α : Type} :
    ∀ (l : List α) (n : Nat) (a : α), l[n]? = some a → l.set n a = l := by
  intro l
  induction l with
  | nil => intro n a h; simp at h
  | cons b l ih =>
    intro n a h
    cases n with
    | zero =>
      simp only [List.getElem?_cons_zero, Option.some.injEq] at h
      subst h; rfl
    | succ k =>
      simp only [List.getElem?_cons_succ] at h
      simp only [List.set_cons_succ]
      rw [ih k a h]

theorem getElem?_set_of_some {α : Type} (l : List α) (n m : Nat) (a b : α)
    (h : l[n]? = some b) :
    (l.set n a)[m]? = if n = m then some a else l[m]? := by
  have hn : n < l.length := by
    by_contra hc
    rw [List.getElem?_eq_none (by omega)] at h
    simp at h
  rw [List.getElem?_set]
  split
  · simp [hn]
  · rfl

theorem sum_map_set {α : Type} (f : α → Int) :
    ∀ (l : List α) (n : Nat) (a b : α), l[n]? = some b →
      ((l.set n a).map f).sum = (l.map f).sum - f b + f a := by
  intro l
  induction l with
  | nil => intro n a b h; simp at h
  | cons c l ih =>
    intro n a b h
    cases n with
    | zero =>
      simp only [List.getElem?_cons_zero, Option.some.injEq] at h
      subst h
      simp only [List.set_cons_zero, List.map_cons, List.sum_cons]
      omega
    | succ k =>
      simp only [List.getElem?_cons_succ] at h
      simp only [List.set_cons_succ, List.map_cons, List.sum_cons]
      rw [ih k a b h]
      omega

theorem sum_set {l : List Int} {n : Nat} {b : Int} (a : Int) (h : l[n]? = some b) :
    (l.set n a).sum = l.sum - b + a := by
  have := sum_map_set (fun x : Int => x) l n a b h
  simpa using this

theorem sum_range_getD (l : List Int) :
    ((List.range l.length).map (fun v => l.getD v 0)).sum = l.sum := by
  induction l with
  | nil => rfl
  | cons a l ih =>
    rw [List.length_cons, List.range_succ_eq_map]
    simp only [List.map_cons, List.map_map, List.sum_cons, List.getD_cons_zero]
    have : ((fun v => (a :: l).getD v 0) ∘ Nat.succ) = fun v => l.getD v 0 := by
      funext v
      simp
    rw [this, ih]

theorem sum_map_balance (a p r c : Nat → Int) (l : List Nat) :
    (l.map (fun v => a v + (p v - r v) - c v)).sum
      = (l.map a).sum + (l.map p).sum - (l.map r).sum - (l.map c).sum := by
  induction l with
  | nil => rfl
  | cons x l ih =>
    simp only [List.map_cons, List.sum_cons, ih]
    omega

/-! ## Machine arithmetic -/

theorem add_int_zero (a : Int) : add_int a 0 = a := by
  unfold add_int
  rw [if_pos rfl]

/-- On a value that an `int` can hold, `add_int` is the 32-bit sum. -/
theorem add_int_eq (a b : Int) (h0 : -2147483648 ≤ a) (h1 : a < 2147483648) :
    add_int a b = wrap32 (a + b) := by
  unfold add_int wrap32
  split
  · rename_i hb
    subst hb
    omega
  · rfl

theorem add_double_zero (x : ℚ) : add_double x 0 = x := by
  unfold add_double
  rw [if_pos rfl]

theorem round_double_zero : round_double 0 = 0 := by decide!

theorem round_double_one : round_double 1 = 1 := by decide!

theorem round_even_le (n d b : Nat) (h : n ≤ d * b) : round_even n d ≤ b := by
  have hdiv := Nat.div_add_mod n d
  have hf : n / d ≤ b := Nat.div_le_of_le_mul h
  have hstep : 0 < n % d → n / d + 1 ≤ b := by
    intro hr
    by_contra hc
    have hfb : n / d = b := by omega
    rw [hfb] at hdiv
    omega
  unfold round_even
  split
  · exact hf
  · split
    · exact hstep (by omega)
    · split
      · exact hf
      · rename_i h1 h2 _
        rcases Nat.eq_zero_or_pos (n % d) with h0 | h0
        · exfalso
          have hd0 : d = 0 := by omega
          subst hd0
          simp at h0
          subst h0
          simp at *
        · exact hstep h0

theorem round_even_small (n d : Nat) (hd : 0 < d) (h : 2 * n ≤ d) : round_even n d = 0 := by
  have hlt : n < d := by omega
  unfold round_even
  rw [Nat.div_eq_of_lt hlt, Nat.mod_eq_of_lt hlt]
  split
  · rfl
  · rw [if_neg (by omega)]
    rfl

theorem round_mag_nonneg (n d : Nat) : 0 ≤ round_mag n d := by
  unfold round_mag
  simp only
  split <;> positivity

theorem round_mag_le_one (n d : Nat) (hd : 0 < d) (h : n ≤ d) : round_mag n d ≤ 1 := by
  unfold round_mag
  simp only
  split
  · rename_i hp
    have hs : scale_pow2 n d (min (52 - floor_log2 n d) 1074)
        = (n * 2 ^ (min (52 - floor_log2 n d) 1074).toNat, d) := by
      unfold scale_pow2
      rw [if_pos hp]
    rw [hs]
    simp only
    have hm := round_even_le (n * 2 ^ (min (52 - floor_log2 n d) 1074).toNat) d
      (2 ^ (min (52 - floor_log2 n d) 1074).toNat) (Nat.mul_le_mul_right _ h)
    have hpos : (0 : ℚ) < ((2 ^ (min (52 - floor_log2 n d) 1074).toNat : Nat) : ℚ) := by
      positivity
    rw [div_le_one hpos]
    exact_mod_cast hm
  · rename_i hp
    have hs : scale_pow2 n d (min (52 - floor_log2 n d) 1074)
        = (n, d * 2 ^ (-(min (52 - floor_log2 n d) 1074)).toNat) := by
      unfold scale_pow2
      rw [if_neg hp]
    rw [hs]
    simp only
    have h1 : 1 ≤ (-(min (52 - floor_log2 n d) 1074)).toNat := by omega
    have h2 : 2 ≤ 2 ^ (-(min (52 - floor_log2 n d) 1074)).toNat := by
      calc 2 = 2 ^ 1 := rfl
        _ ≤ 2 ^ (-(min (52 - floor_log2 n d) 1074)).toNat :=
          Nat.pow_le_pow_right (by decide) h1
    have h3 : 2 * n ≤ d * 2 ^ (-(min (52 - floor_log2 n d) 1074)).toNat := by
      calc 2 * n ≤ 2 * d := by omega
        _ = d * 2 := by ring
        _ ≤ d * 2 ^ (-(min (52 - floor_log2 n d) 1074)).toNat := Nat.mul_le_mul_left _ h2
    rw [round_even_small n _ (by positivity) h3]
    simp

theorem round_double_nonneg (q : ℚ) (h : 0 ≤ q) : 0 ≤ round_double q := by
  have hn : 0 ≤ q.num := Rat.num_nonneg.2 h
  unfold round_double
  split
  · exact le_refl 0
  · exact round_mag_nonneg _ _
  · rename_i n hq
    rw [hq] at hn
    exact absurd hn (by simp [Int.negSucc_lt_zero])

theorem round_double_le_one (q : ℚ) (h : q ≤ 1) : round_double q ≤ 1 := by
  have hnd : q.num ≤ (q.den : Int) := by
    have hq : ((q.num : ℚ) / (q.den : ℚ)) ≤ 1 := by rw [Rat.num_div_den]; exact h
    have hpos : (0 : ℚ) < (q.den : ℚ) := by exact_mod_cast q.den_pos
    rw [div_le_one hpos] at hq
    exact_mod_cast hq
  unfold round_double
  split
  · exact zero_le_one
  · rename_i n hq
    apply round_mag_le_one _ _ q.den_pos
    rw [hq] at hnd
    have : ((n + 1 : Nat) : Int) ≤ (q.den : Int) := hnd
    exact_mod_cast this
  · rename_i n _
    have := round_mag_nonneg (n + 1) q.den
    linarith

theorem wrap32_eq (x : Int) (h0 : -2147483648 ≤ x) (h1 : x < 2147483648) : wrap32 x = x := by
  unfold wrap32
  omega

/-! ## Throttle: what the loops of a wakeup do -/

namespace Throttle

theorem sameControl_refl (a : Throttle) : SameControl a a :=
  ⟨rfl, rfl, rfl, rfl, rfl, rfl, rfl, rfl, rfl, rfl, rfl, rfl⟩

theorem sameControl_trans {a b c : Throttle} (h1 : SameControl a b) (h2 : SameControl b c) :
    SameControl a c := by
  obtain ⟨a1, a2, a3, a4, a5, a6, a7, a8, a9, a10, a11, a12⟩ := h1
  obtain ⟨b1, b2, b3, b4, b5, b6, b7, b8, b9, b10, b11, b12⟩ := h2
  exact ⟨b1.trans a1, b2.trans a2, b3.trans a3, b4.trans a4, b5.trans a5, b6.trans a6,
    b7.trans a7, b8.trans a8, b9.trans a9, b10.trans a10, b11.trans a11, b12.trans a12⟩

/-- What a successful run of the body of the `for` loop for `vnet` did. -/
theorem wakeup_vnet_ok {int_of : Nat → Int} {now : Int} {w w1 : WakeupState} {vnet : Int}
    (h : wakeup_vnet int_of now w vnet = .ok w1) :
    ∃ (o i : MessageBuffer) (u : Int) (s : VnetSlot),
      0 ≤ vnet ∧
      w.throttle.m_out[vnet.toNat]? = some o ∧
      w.throttle.m_in[vnet.toNat]? = some i ∧
      w.throttle.m_units_remaining[vnet.toNat]? = some u ∧
      0 ≤ u ∧
      wakeup_while int_of w.throttle.m_link_latency now vnet
        (while_fuel ⟨i, o, u, w.throttle.m_message_counters, w.bw_remaining⟩)
        ⟨i, o, u, w.throttle.m_message_counters, w.bw_remaining⟩ = .ok s ∧
      w1.throttle = { w.throttle with
        m_in := w.throttle.m_in.set vnet.toNat s.m_in
        m_out := w.throttle.m_out.set vnet.toNat s.m_out
        m_units_remaining := w.throttle.m_units_remaining.set vnet.toNat s.m_units_remaining
        m_message_counters := s.m_message_counters } ∧
      w1.bw_remaining = s.bw_remaining ∧
      w1.schedule_wakeup =
        (if (decide (s.bw_remaining > 0)
              && (s.m_in.isReady now || decide (s.m_units_remaining > 0))
              && !s.m_out.areNSlotsAvailable 1) = true
         then true else w.schedule_wakeup) := by
  unfold wakeup_vnet at h
  simp only at h
  split at h
  · rename_i o i u ho hi hu
    split at h
    · rename_i hu0
      split at h
      · simp at h
      · rename_i s hs
        split at h
        · rename_i ins outs units hins houts hunits
          obtain ⟨h0, hoe⟩ := vec_read_some ho
          obtain ⟨_, hie⟩ := vec_read_some hi
          obtain ⟨_, hue⟩ := vec_read_some hu
          obtain ⟨_, _, e1⟩ := vec_write_some hins
          obtain ⟨_, _, e2⟩ := vec_write_some houts
          obtain ⟨_, _, e3⟩ := vec_write_some hunits
          simp only [Except.ok.injEq] at h
          subst h e1 e2 e3
          exact ⟨o, i, u, s, h0, hoe, hie, hue, hu0, hs, rfl, rfl, rfl⟩
        · simp at h
    · simp at h
  · simp at h

theorem wakeup_vnet_sameControl {int_of : Nat → Int} {now : Int} {w w1 : WakeupState}
    {vnet : Int} (h : wakeup_vnet int_of now w vnet = .ok w1) :
    SameControl w.throttle w1.throttle := by
  obtain ⟨o, i, u, s, _, _, _, _, _, _, ht, _, _⟩ := wakeup_vnet_ok h
  rw [ht]
  exact ⟨rfl, rfl, rfl, rfl, rfl, rfl, rfl, rfl, rfl, rfl, rfl, rfl⟩

theorem wakeup_for_sameControl {int_of : Nat → Int} {now : Int} (order : List Int) :
    ∀ {w w1 : WakeupState}, wakeup_for int_of now order w = .ok w1 →
      SameControl w.throttle w1.throttle := by
  induction order with
  | nil =>
    intro w w1 h
    simp only [wakeup_for, Except.ok.injEq] at h
    subst h; exact sameControl_refl _
  | cons v vs ih =>
    intro w w1 h
    unfold wakeup_for at h
    split at h
    · simp at h
    · rename_i w2 h2
      exact sameControl_trans (wakeup_vnet_sameControl h2) (ih h)

theorem bash_step_range (bw : Int) (threshold : ℚ) (t : Throttle) :
    0 ≤ (bash_step bw threshold t).m_bash_counter ∧
    (bash_step bw threshold t).m_bash_counter ≤ HIGH_RANGE := by
  simp only [bash_step, HIGH_RANGE]
  constructor
  · exact le_max_left _ _
  · exact max_le (by decide) (min_le_left _ _)

theorem bash_loop_range (bw : Int) (threshold : ℚ) (now : Int) (fuel : Nat) :
    ∀ t : Throttle, (0 ≤ t.m_bash_counter ∧ t.m_bash_counter ≤ HIGH_RANGE) →
      0 ≤ (bash_loop bw threshold now fuel t).m_bash_counter ∧
      (bash_loop bw threshold now fuel t).m_bash_counter ≤ HIGH_RANGE := by
  induction fuel with
  | zero => intro t h; exact h
  | succ k ih =>
    intro t h
    unfold bash_loop
    split
    · exact ih _ (bash_step_range bw threshold t)
    · exact h

theorem bash_loop_samePlumbing (bw : Int) (threshold : ℚ) (now : Int) (fuel : Nat) :
    ∀ t : Throttle, SamePlumbing t (bash_loop bw threshold now fuel t) := by
  induction fuel with
  | zero => intro t; exact ⟨rfl, rfl, rfl, rfl, rfl, rfl, rfl, rfl⟩
  | succ k ih =>
    intro t
    unfold bash_loop
    split
    · obtain ⟨a1, a2, a3, a4, a5, a6, a7, a8⟩ := ih (bash_step bw threshold t)
      exact ⟨a1, a2, a3, a4, a5, a6, a7, a8⟩
    · exact ⟨rfl, rfl, rfl, rfl, rfl, rfl, rfl, rfl⟩

/-- What the predictor loop, run on the state left by the accounting, keeps of the
state at the end of the loop over the virtual networks. -/
theorem bash_loop_accounted (bw : Int) (threshold : ℚ) (now : Int) (fuel : Nat)
    (w : WakeupState) :
    (bash_loop bw threshold now fuel (accounted bw w)).m_vnets = w.throttle.m_vnets ∧
    (bash_loop bw threshold now fuel (accounted bw w)).m_wakeups_wo_switch
      = w.throttle.m_wakeups_wo_switch ∧
    (bash_loop bw threshold now fuel (accounted bw w)).m_units_remaining
      = w.throttle.m_units_remaining ∧
    (bash_loop bw threshold now fuel (accounted bw w)).m_in = w.throttle.m_in ∧
    (bash_loop bw threshold now fuel (accounted bw w)).m_out = w.throttle.m_out ∧
    (bash_loop bw threshold now fuel (accounted bw w)).m_message_counters
      = w.throttle.m_message_counters ∧
    (bash_loop bw threshold now fuel (accounted bw w)).m_link_latency
      = w.throttle.m_link_latency ∧
    (bash_loop bw threshold now fuel (accounted bw w)).m_links_utilized
      = (accounted bw w).m_links_utilized :=
  bash_loop_samePlumbing bw threshold now fuel (accounted bw w)

/-- With the whole bandwidth left, the accounting changes nothing: the ratio is 0 and
no bandwidth was used. -/
theorem accounted_idle (bw : Int) (t : Throttle) (schedule_wakeup : Bool) (hbw : 0 < bw) :
    accounted bw ⟨t, bw, schedule_wakeup⟩ = t := by
  have hq : (bw : ℚ) ≠ 0 := by
    have : (0 : ℚ) < (bw : ℚ) := by exact_mod_cast hbw
    exact ne_of_gt this
  simp only [accounted, link_ratio, div_self hq, sub_self, round_double_one,
    round_double_zero, add_double_zero, add_int_zero]

/-- The ratio handed to `linkUtilized` lies between 0 and 1. -/
theorem link_ratio_bounds (bw bw_remaining : Int) (hbw : 0 < bw)
    (h0 : 0 ≤ bw_remaining) (h1 : bw_remaining ≤ bw) :
    0 ≤ link_ratio bw bw_remaining ∧ link_ratio bw bw_remaining ≤ 1 := by
  have hq : (0 : ℚ) < (bw : ℚ) := by exact_mod_cast hbw
  have hr0 : (0 : ℚ) ≤ (bw_remaining : ℚ) := by exact_mod_cast h0
  have hr1 : (bw_remaining : ℚ) ≤ (bw : ℚ) := by exact_mod_cast h1
  have hx0 : 0 ≤ (bw_remaining : ℚ) / (bw : ℚ) := div_nonneg hr0 (le_of_lt hq)
  have hx1 : (bw_remaining : ℚ) / (bw : ℚ) ≤ 1 := (div_le_one hq).2 hr1
  have hy0 := round_double_nonneg _ hx0
  have hy1 := round_double_le_one _ hx1
  unfold link_ratio
  exact ⟨round_double_nonneg _ (by linarith), round_double_le_one _ (by linarith)⟩

/-- The predictor loop stops because its condition fails, not for lack of fuel. -/
theorem bash_loop_exit (bw : Int) (threshold : ℚ) (now : Int) (fuel : Nat) :
    ∀ t : Throttle, bash_fuel now t ≤ fuel →
      now - (bash_loop bw threshold now fuel t).m_last_bandwidth_sample ≤ ADJUST_INTERVAL := by
  induction fuel with
  | zero =>
    intro t h
    simp only [bash_loop]
    simp only [bash_fuel, ADJUST_INTERVAL] at h ⊢
    omega
  | succ k ih =>
    intro t h
    unfold bash_loop
    split
    · apply ih
      simp only [bash_fuel, bash_step, ADJUST_INTERVAL] at h ⊢
      rename_i hc
      simp only [ADJUST_INTERVAL] at hc
      omega
    · omega

/-- What a successful wakeup did. -/
theorem wakeup_ok {int_of : Nat → Int} {bw : Int} {threshold : ℚ} {now : Int}
    {t t1 : Throttle} {scheduled : Bool}
    (h : wakeup int_of bw threshold now t = .ok (t1, scheduled)) :
    0 < bw ∧ ∃ w : WakeupState,
      wakeup_for int_of now (vnet_order t)
        { throttle := { t with m_wakeups_wo_switch := (priority t).wakeups_wo_switch },
          bw_remaining := bw, schedule_wakeup := false } = .ok w ∧
      t1 = bash_loop bw threshold now
        (bash_fuel now (accounted bw w))
        (accounted bw w) ∧
      scheduled = !(decide (w.bw_remaining > 0) && !w.schedule_wakeup) := by
  unfold wakeup at h
  split at h
  · rename_i hbw
    simp only at h
    split at h
    · simp at h
    · rename_i w hw
      simp only [Except.ok.injEq, Prod.mk.injEq] at h
      exact ⟨hbw, w, hw, h.1.symm, h.2.symm⟩
  · simp at h

theorem spend_bandwidth_units_nonneg (s : VnetSlot) :
    0 ≤ (spend_bandwidth s).m_units_remaining := by
  simp only [spend_bandwidth]
  exact le_max_left _ _

theorem wakeup_while_units_nonneg (int_of : Nat → Int) (link_latency now vnet : Int)
    (fuel : Nat) :
    ∀ s s1 : VnetSlot, wakeup_while int_of link_latency now vnet fuel s = .ok s1 →
      0 ≤ s.m_units_remaining → 0 ≤ s1.m_units_remaining := by
  induction fuel with
  | zero =>
    intro s s1 h hu
    simp only [wakeup_while, Except.ok.injEq] at h
    subst h; exact hu
  | succ k ih =>
    intro s s1 h hu
    unfold wakeup_while at h
    split at h
    · split at h
      · simp at h
      · rename_i s2 hb
        apply ih _ _ h
        unfold while_body at hb
        split at hb
        · simp at hb
        · simp only [Except.ok.injEq] at hb
          subst hb
          exact spend_bandwidth_units_nonneg _
    · simp only [Except.ok.injEq] at h
      subst h; exact hu

theorem wakeup_vnet_units_nonneg {int_of : Nat → Int} {now : Int} {w w1 : WakeupState}
    {vnet : Int} (h : wakeup_vnet int_of now w vnet = .ok w1)
    (hu : ∀ u ∈ w.throttle.m_units_remaining, 0 ≤ u) :
    ∀ u ∈ w1.throttle.m_units_remaining, 0 ≤ u := by
  obtain ⟨o, i, u0, s, _, _, _, _, hu0, hs, ht, _, _⟩ := wakeup_vnet_ok h
  have hs0 := wakeup_while_units_nonneg _ _ _ _ _ _ _ hs hu0
  rw [ht]
  intro u hmem
  rcases List.mem_or_eq_of_mem_set hmem with h1 | h1
  · exact hu u h1
  · rw [h1]; exact hs0

theorem wakeup_for_units_nonneg {int_of : Nat → Int} {now : Int} (order : List Int) :
    ∀ {w w1 : WakeupState}, wakeup_for int_of now order w = .ok w1 →
      (∀ u ∈ w.throttle.m_units_remaining, 0 ≤ u) →
      ∀ u ∈ w1.throttle.m_units_remaining, 0 ≤ u := by
  induction order with
  | nil =>
    intro w w1 h hu
    simp only [wakeup_for, Except.ok.injEq] at h
    subst h; exact hu
  | cons v vs ih =>
    intro w w1 h hu
    unfold wakeup_for at h
    split at h
    · simp at h
    · rename_i w2 h2
      exact ih h (wakeup_vnet_units_nonneg h2 hu)

theorem construct_ok {sID node link_latency link_bandwidth_multiplier now : Int}
    {t : Throttle}
    (h : construct sID node link_latency link_bandwidth_multiplier now = .ok t) :
    t.m_vnets = 0 ∧ t.m_wakeups_wo_switch = 0 ∧ t.m_bash_counter = HIGH_RANGE ∧
    t.m_units_remaining = [] ∧ t.m_in = [] ∧ t.m_out = [] := by
  unfold construct init at h
  split at h
  · simp at h
  · rename_i t0 h0
    split at h0
    · simp only [Except.ok.injEq] at h0 h
      subst h0
      subst h
      simp [clearStats, blank]
    · simp at h0

theorem addLinks_loop_fields (in_vec : List MessageBuffer) :
    ∀ (t : Throttle) (out_vec : List MessageBuffer),
      t.m_vnets ≤ (addLinks_loop t in_vec out_vec).m_vnets ∧
      (addLinks_loop t in_vec out_vec).m_wakeups_wo_switch = t.m_wakeups_wo_switch ∧
      (addLinks_loop t in_vec out_vec).m_bash_counter = t.m_bash_counter ∧
      ∀ u ∈ (addLinks_loop t in_vec out_vec).m_units_remaining,
        u ∈ t.m_units_remaining ∨ u = 0 := by
  induction in_vec with
  | nil =>
    intro t out_vec
    unfold addLinks_loop
    exact ⟨le_refl _, rfl, rfl, fun u hu => Or.inl hu⟩
  | cons i ins ih =>
    intro t out_vec
    cases out_vec with
    | nil =>
      unfold addLinks_loop
      exact ⟨le_refl _, rfl, rfl, fun u hu => Or.inl hu⟩
    | cons o outs =>
      simp only [addLinks_loop]
      obtain ⟨h1, h2, h3, h4⟩ := ih (addVirtualNetwork t i o) outs
      refine ⟨?_, ?_, ?_, ?_⟩
      · have : (addVirtualNetwork t i o).m_vnets = t.m_vnets + 1 := rfl
        omega
      · rw [h2]; rfl
      · rw [h3]; rfl
      · intro u hu
        rcases h4 u hu with h5 | h5
        · simp only [addVirtualNetwork, List.mem_append, List.mem_singleton] at h5
          exact h5
        · exact Or.inr h5

theorem addLinks_ok {MessageSizeType_NUM : Nat} {g_PRINT_TOPOLOGY : Bool} {t t1 : Throttle}
    {in_vec out_vec : List MessageBuffer}
    (h : addLinks MessageSizeType_NUM g_PRINT_TOPOLOGY t in_vec out_vec = .ok t1) :
    t.m_vnets ≤ t1.m_vnets ∧ t1.m_wakeups_wo_switch = t.m_wakeups_wo_switch ∧
    t1.m_bash_counter = t.m_bash_counter ∧
    ∀ u ∈ t1.m_units_remaining, u ∈ t.m_units_remaining ∨ u = 0 := by
  unfold addLinks at h
  split at h
  · simp only [Except.ok.injEq] at h
    obtain ⟨h1, h2, h3, h4⟩ := addLinks_loop_fields in_vec t out_vec
    subst h
    cases g_PRINT_TOPOLOGY <;> exact ⟨h1, h2, h3, h4⟩
  · simp at h

theorem clear_loop_fields (fuel : Nat) :
    ∀ (counter : Int) (t t1 : Throttle), clear_loop fuel counter t = .ok t1 →
      t1.m_vnets = t.m_vnets ∧ t1.m_wakeups_wo_switch = t.m_wakeups_wo_switch ∧
      t1.m_bash_counter = t.m_bash_counter ∧
      t1.m_units_remaining = t.m_units_remaining := by
  induction fuel with
  | zero =>
    intro counter t t1 h
    simp only [clear_loop, Except.ok.injEq] at h
    subst h; exact ⟨rfl, rfl, rfl, rfl⟩
  | succ k ih =>
    intro counter t t1 h
    unfold clear_loop at h
    split at h
    · split at h
      · split at h
        · obtain ⟨a1, a2, a3, a4⟩ := ih _ _ _ h
          exact ⟨a1, a2, a3, a4⟩
        · simp at h
      · simp at h
    · simp only [Except.ok.injEq] at h
      subst h; exact ⟨rfl, rfl, rfl, rfl⟩

/-- The invariants of the reachable states. -/
theorem reachable_invariant {int_of : Nat → Int} {bw : Int} {threshold : ℚ} {n : Nat}
    {t : Throttle} (h : Reachable int_of bw threshold n t) :
    0 ≤ t.m_vnets ∧ t.m_wakeups_wo_switch = ((n % 129 : Nat) : Int) ∧
    (0 ≤ t.m_bash_counter ∧ t.m_bash_counter ≤ HIGH_RANGE) ∧
    ∀ u ∈ t.m_units_remaining, 0 ≤ u := by
  induction h with
  | construct sID node lat mult now t hc =>
    obtain ⟨h1, h2, h3, h4, _, _⟩ := construct_ok hc
    rw [h1, h2, h3, h4]
    simp [HIGH_RANGE]
  | addLinks n t t1 num pr ins outs _ ha ih =>
    obtain ⟨h1, h2, h3, h4⟩ := addLinks_ok ha
    obtain ⟨i1, i2, i3, i4⟩ := ih
    refine ⟨by omega, by rw [h2]; exact i2, by rw [h3]; exact i3, ?_⟩
    intro u hu
    rcases h4 u hu with h5 | h5
    · exact i4 u h5
    · omega
  | wakeup n t t1 now sched _ hw ih =>
    obtain ⟨i1, i2, i3, i4⟩ := ih
    obtain ⟨hbw, w, hfor, ht1, _⟩ := wakeup_ok hw
    have hsc := wakeup_for_sameControl _ hfor
    have hun := wakeup_for_units_nonneg _ hfor i4
    obtain ⟨c1, c2, c3, c4, c5, c6, c7, c8, c9, c10, c11, c12⟩ := hsc
    simp only at c3 c7 c10
    have hpl := bash_loop_accounted bw threshold now
      (bash_fuel now (accounted bw w)) w
    rw [← ht1] at hpl
    obtain ⟨p1, p2, p3, _⟩ := hpl
    refine ⟨by rw [p1, c3]; exact i1, ?_, ?_, ?_⟩
    · rw [p2, c10]
      simp only [priority, PRIORITY_SWITCH_LIMIT]
      split <;> simp only <;> omega
    · rw [ht1]
      apply bash_loop_range
      show 0 ≤ w.throttle.m_bash_counter ∧ w.throttle.m_bash_counter ≤ HIGH_RANGE
      rw [c7]; exact i3
    · rw [p3]; exact hun
  | clear n t t1 _ hc ih =>
    obtain ⟨h1, h2, h3, h4⟩ := clear_loop_fields _ _ _ _ hc
    rw [h1, h2, h3, h4]; exact ih
  | clearStats n t now _ ih => exact ih
  | buffers n t ins outs _ _ _ ih => exact ih

theorem move_message_error {int_of : Nat → Int} {link_latency now vnet : Int} {s : VnetSlot}
    {e : Fault} (h : move_message int_of link_latency now vnet s = .error e) :
    e ≠ .units_remaining_negative := by
  unfold move_message at h
  split at h
  · split at h
    · simp only [Except.error.injEq] at h
      subst h; decide
    · split at h
      · rename_i e1 he1
        unfold network_message_to_size at he1
        simp only at he1
        split at he1 <;> simp at he1
      · split at h
        · simp only [Except.error.injEq] at h
          subst h; decide
        · simp at h
  · simp at h

theorem wakeup_while_error (int_of : Nat → Int) (link_latency now vnet : Int) (fuel : Nat) :
    ∀ (s : VnetSlot) (e : Fault),
      wakeup_while int_of link_latency now vnet fuel s = .error e →
      e ≠ .units_remaining_negative := by
  induction fuel with
  | zero => intro s e h; simp [wakeup_while] at h
  | succ k ih =>
    intro s e h
    unfold wakeup_while at h
    split at h
    · split at h
      · rename_i e1 hb
        simp only [Except.error.injEq] at h
        subst h
        unfold while_body at hb
        split at hb
        · rename_i e2 hm
          simp only [Except.error.injEq] at hb
          subst hb
          exact move_message_error hm
        · simp at hb
      · exact ih _ _ h
    · simp at h

theorem wakeup_vnet_error {int_of : Nat → Int} {now : Int} {w : WakeupState} {vnet : Int}
    {e : Fault} (h : wakeup_vnet int_of now w vnet = .error e)
    (hu : ∀ u ∈ w.throttle.m_units_remaining, 0 ≤ u) :
    e ≠ .units_remaining_negative := by
  unfold wakeup_vnet at h
  simp only at h
  split at h
  · rename_i o i u ho hi hu1
    split at h
    · split at h
      · rename_i e1 hw
        simp only [Except.error.injEq] at h
        subst h
        exact wakeup_while_error _ _ _ _ _ _ _ hw
      · split at h
        · simp at h
        · simp only [Except.error.injEq] at h
          subst h; decide
    · rename_i hneg
      exfalso
      apply hneg
      exact hu u (List.getElem?_mem (vec_read_some hu1).2)
  · simp only [Except.error.injEq] at h
    subst h; decide

theorem wakeup_for_error {int_of : Nat → Int} {now : Int} (order : List Int) :
    ∀ {w : WakeupState} {e : Fault}, wakeup_for int_of now order w = .error e →
      (∀ u ∈ w.throttle.m_units_remaining, 0 ≤ u) → e ≠ .units_remaining_negative := by
  induction order with
  | nil => intro w e h; simp [wakeup_for] at h
  | cons v vs ih =>
    intro w e h hu
    unfold wakeup_for at h
    split at h
    · rename_i e1 h1
      simp only [Except.error.injEq] at h
      subst h
      exact wakeup_vnet_error h1 hu
    · rename_i w2 h2
      exact ih h (wakeup_vnet_units_nonneg h2 hu)

theorem wakeup_error {int_of : Nat → Int} {bw : Int} {threshold : ℚ} {now : Int}
    {t : Throttle} (hu : ∀ u ∈ t.m_units_remaining, 0 ≤ u) :
    wakeup int_of bw threshold now t ≠ .error .units_remaining_negative := by
  intro h
  unfold wakeup at h
  split at h
  · simp only at h
    split at h
    · rename_i e he
      simp only [Except.error.injEq] at h
      subst h
      exact wakeup_for_error _ he hu rfl
    · simp at h
  · simp at h

theorem for_vnets_descending (k : Nat) :
    ∀ fuel : Nat, k < fuel →
      for_vnets 1 0 fuel ((k : Int) - 1) = (List.range k).reverse.map Int.ofNat := by
  induction k with
  | zero =>
    intro fuel hf
    cases fuel with
    | zero => omega
    | succ f => simp [for_vnets]
  | succ k ih =>
    intro fuel hf
    cases fuel with
    | zero => omega
    | succ f =>
      unfold for_vnets
      rw [if_pos (by push_cast; omega)]
      have e : ((k + 1 : Nat) : Int) - 1 - 1 = (k : Int) - 1 := by push_cast; omega
      rw [e, ih f (by omega), List.range_succ]
      simp

theorem for_vnets_ascending (V : Nat) (d : Nat) :
    ∀ (j fuel : Nat), j + d = V → d < fuel →
      for_vnets (-1) ((V : Int) - 1) fuel (j : Int) = (List.range' j d).map Int.ofNat := by
  induction d with
  | zero =>
    intro j fuel hj hf
    cases fuel with
    | zero => omega
    | succ f =>
      unfold for_vnets
      rw [if_neg (by omega)]
      simp
  | succ d ih =>
    intro j fuel hj hf
    cases fuel with
    | zero => omega
    | succ f =>
      unfold for_vnets
      rw [if_pos (by omega)]
      have e : (j : Int) - (-1) = ((j + 1 : Nat) : Int) := by push_cast; omega
      rw [e, ih (j + 1) f (by omega) (by omega)]
      simp [List.range']

theorem vnet_order_eq (t : Throttle) (V : Nat) (hV : t.m_vnets = (V : Int)) :
    vnet_order t =
      if t.m_wakeups_wo_switch + 1 > PRIORITY_SWITCH_LIMIT
      then (List.range V).map Int.ofNat
      else (List.range V).reverse.map Int.ofNat := by
  unfold vnet_order priority
  simp only [hV, Int.toNat_ofNat]
  split
  · simp only
    have := for_vnets_ascending V V 0 (V + 1) (by omega) (by omega)
    rw [List.range_eq_range']
    exact this
  · simp only
    exact for_vnets_descending V (V + 1) (by omega)

theorem wakeup_wakeups_wo_switch {int_of : Nat → Int} {bw : Int} {threshold : ℚ} {now : Int}
    {t t1 : Throttle} {scheduled : Bool}
    (h : wakeup int_of bw threshold now t = .ok (t1, scheduled)) :
    t1.m_wakeups_wo_switch = (priority t).wakeups_wo_switch := by
  obtain ⟨_, w, hfor, ht1, _⟩ := wakeup_ok h
  have hsc := wakeup_for_sameControl _ hfor
  obtain ⟨_, _, _, _, _, _, _, _, _, c10, _, _⟩ := hsc
  simp only at c10
  have hpl := bash_loop_accounted bw threshold now
      (bash_fuel now (accounted bw w)) w
  rw [← ht1] at hpl
  rw [hpl.2.1]
  exact c10

theorem ascending_count (V v : Nat) (hv : v < V) :
    ((List.range V).map Int.ofNat).count (v : Int) = 1 := by
  apply List.count_eq_one_of_mem
  · exact List.Nodup.map (fun a b h => Int.ofNat.inj h) (List.nodup_range V)
  · exact List.mem_map.2 ⟨v, List.mem_range.2 hv, rfl⟩

theorem descending_count (V v : Nat) (hv : v < V) :
    ((List.range V).reverse.map Int.ofNat).count (v : Int) = 1 := by
  apply List.count_eq_one_of_mem
  · exact List.Nodup.map (fun a b h => Int.ofNat.inj h)
      (List.nodup_reverse.2 (List.nodup_range V))
  · exact List.mem_map.2 ⟨v, List.mem_reverse.2 (List.mem_range.2 hv), rfl⟩

theorem moved_refl (now arrival : Int) (i o : MessageBuffer) :
    Moved now arrival i o i o [] :=
  ⟨rfl, by simp, by simp, rfl, rfl⟩

theorem moved_trans {now arrival : Int} {i o i1 o1 i2 o2 : MessageBuffer}
    {m1 m2 : List MessageBufferNode}
    (h1 : Moved now arrival i o i1 o1 m1) (h2 : Moved now arrival i1 o1 i2 o2 m2) :
    Moved now arrival i o i2 o2 (m1 ++ m2) := by
  obtain ⟨a1, a2, a3, a4, a5⟩ := h1
  obtain ⟨b1, b2, b3, b4, b5⟩ := h2
  refine ⟨?_, ?_, ?_, b4.trans a4, b5.trans a5⟩
  · rw [a1, b1, List.append_assoc]
  · rw [b2, a2, List.map_append, List.append_assoc]
  · intro n hn
    rcases List.mem_append.1 hn with h | h
    · exact a3 n h
    · exact b3 n h

theorem move_message_moved {int_of : Nat → Int} {link_latency now vnet : Int}
    {s s1 : VnetSlot} (h : move_message int_of link_latency now vnet s = .ok s1) :
    ∃ moved, Moved now (now + link_latency) s.m_in s.m_out s1.m_in s1.m_out moved := by
  unfold move_message at h
  split at h
  · rename_i hc
    split at h
    · simp at h
    · rename_i msg hpeek
      split at h
      · simp at h
      · split at h
        · simp at h
        · simp only [Except.ok.injEq] at h
          subst h
          obtain ⟨_, hready⟩ := hc
          unfold MessageBuffer.isReady at hready
          unfold MessageBuffer.peekMsgPtr at hpeek
          split at hready
          · simp at hready
          · rename_i n rest hent
            rw [hent] at hpeek
            simp only [Option.some.injEq] at hpeek
            subst hpeek
            refine ⟨[n], ?_, ?_, ?_, rfl, rfl⟩
            · simp [MessageBuffer.pop, hent]
            · simp [MessageBuffer.enqueue]
            · intro m hm
              simp only [List.mem_singleton] at hm
              subst hm
              simpa using hready
  · simp only [Except.ok.injEq] at h
    subst h
    exact ⟨[], moved_refl _ _ _ _⟩

theorem while_body_moved {int_of : Nat → Int} {link_latency now vnet : Int}
    {s s1 : VnetSlot} (h : while_body int_of link_latency now vnet s = .ok s1) :
    ∃ moved, Moved now (now + link_latency) s.m_in s.m_out s1.m_in s1.m_out moved := by
  unfold while_body at h
  split at h
  · simp at h
  · rename_i s2 hm
    simp only [Except.ok.injEq] at h
    subst h
    obtain ⟨moved, hmv⟩ := move_message_moved hm
    exact ⟨moved, hmv⟩

theorem wakeup_while_moved (int_of : Nat → Int) (link_latency now vnet : Int) (fuel : Nat) :
    ∀ s s1 : VnetSlot, wakeup_while int_of link_latency now vnet fuel s = .ok s1 →
      ∃ moved, Moved now (now + link_latency) s.m_in s.m_out s1.m_in s1.m_out moved := by
  induction fuel with
  | zero =>
    intro s s1 h
    simp only [wakeup_while, Except.ok.injEq] at h
    subst h; exact ⟨[], moved_refl _ _ _ _⟩
  | succ k ih =>
    intro s s1 h
    unfold wakeup_while at h
    split at h
    · split at h
      · simp at h
      · rename_i s2 hb
        obtain ⟨m1, h1⟩ := while_body_moved hb
        obtain ⟨m2, h2⟩ := ih _ _ h
        exact ⟨m1 ++ m2, moved_trans h1 h2⟩
    · simp only [Except.ok.injEq] at h
      subst h; exact ⟨[], moved_refl _ _ _ _⟩

theorem movedAll_refl (now arrival : Int) (a : Throttle) : MovedAll now arrival a a :=
  ⟨rfl, rfl, fun _ i o hi ho => ⟨i, o, [], hi, ho, moved_refl _ _ _ _⟩⟩

theorem movedAll_trans {now arrival : Int} {a b c : Throttle}
    (h1 : MovedAll now arrival a b) (h2 : MovedAll now arrival b c) :
    MovedAll now arrival a c := by
  obtain ⟨a1, a2, a3⟩ := h1
  obtain ⟨b1, b2, b3⟩ := h2
  refine ⟨b1.trans a1, b2.trans a2, ?_⟩
  intro v i o hi ho
  obtain ⟨i1, o1, m1, hi1, ho1, hm1⟩ := a3 v i o hi ho
  obtain ⟨i2, o2, m2, hi2, ho2, hm2⟩ := b3 v i1 o1 hi1 ho1
  exact ⟨i2, o2, m1 ++ m2, hi2, ho2, moved_trans hm1 hm2⟩

theorem wakeup_vnet_movedAll {int_of : Nat → Int} {now : Int} {w w1 : WakeupState}
    {vnet : Int} (h : wakeup_vnet int_of now w vnet = .ok w1) :
    MovedAll now (now + w.throttle.m_link_latency) w.throttle w1.throttle := by
  obtain ⟨o, i, u, s, h0, ho, hi, hu, hu0, hs, ht, _, _⟩ := wakeup_vnet_ok h
  obtain ⟨moved, hm⟩ := wakeup_while_moved _ _ _ _ _ _ _ hs
  simp only at hm
  rw [ht]
  refine ⟨by simp, by simp, ?_⟩
  intro v i0 o0 hi0 ho0
  by_cases hv : v = vnet.toNat
  · subst hv
    rw [hi] at hi0
    rw [ho] at ho0
    simp only [Option.some.injEq] at hi0 ho0
    subst hi0 ho0
    have hli : vnet.toNat < w.throttle.m_in.length := by
      rcases Nat.lt_or_ge vnet.toNat w.throttle.m_in.length with h1 | h1
      · exact h1
      · rw [List.getElem?_eq_none h1] at hi; simp at hi
    have hlo : vnet.toNat < w.throttle.m_out.length := by
      rcases Nat.lt_or_ge vnet.toNat w.throttle.m_out.length with h1 | h1
      · exact h1
      · rw [List.getElem?_eq_none h1] at ho; simp at ho
    refine ⟨s.m_in, s.m_out, moved, ?_, ?_, hm⟩
    · simp [List.getElem?_set, hli]
    · simp [List.getElem?_set, hlo]
  · refine ⟨i0, o0, [], ?_, ?_, moved_refl _ _ _ _⟩
    · simp only
      rw [List.getElem?_set_ne (Ne.symm hv)]; exact hi0
    · simp only
      rw [List.getElem?_set_ne (Ne.symm hv)]; exact ho0

theorem wakeup_for_movedAll {int_of : Nat → Int} {now : Int} (order : List Int) :
    ∀ {w w1 : WakeupState}, wakeup_for int_of now order w = .ok w1 →
      MovedAll now (now + w.throttle.m_link_latency) w.throttle w1.throttle := by
  induction order with
  | nil =>
    intro w w1 h
    simp only [wakeup_for, Except.ok.injEq] at h
    subst h; exact movedAll_refl _ _ _
  | cons v vs ih =>
    intro w w1 h
    unfold wakeup_for at h
    split at h
    · simp at h
    · rename_i w2 h2
      have h3 := ih h
      have hl : w2.throttle.m_link_latency = w.throttle.m_link_latency :=
        (wakeup_vnet_sameControl h2).2.2.2.2.1
      rw [hl] at h3
      exact movedAll_trans (wakeup_vnet_movedAll h2) h3

theorem while_measure_le_fuel (s : VnetSlot) : while_measure s ≤ while_fuel s := by
  unfold while_measure while_fuel
  split <;> split <;> omega

theorem spend_bandwidth_measure (s : VnetSlot) :
    (if (spend_bandwidth s).m_units_remaining = 0 then 0 else 1)
      + (if (spend_bandwidth s).bw_remaining > 0 then 1 else 0) ≤ 1 := by
  simp only [spend_bandwidth]
  split <;> split <;> omega

theorem move_message_measure {int_of : Nat → Int} {link_latency now vnet : Int}
    {s s1 : VnetSlot} (h : move_message int_of link_latency now vnet s = .ok s1) :
    (s.m_units_remaining = 0 ∧ s.m_in.isReady now = true ∧
      s1.m_in.entries.length + 1 = s.m_in.entries.length) ∨
    (¬ (s.m_units_remaining = 0 ∧ s.m_in.isReady now = true) ∧ s1 = s) := by
  unfold move_message at h
  split at h
  · rename_i hcond
    split at h
    · simp at h
    · split at h
      · simp at h
      · split at h
        · simp at h
        · simp only [Except.ok.injEq] at h
          subst h
          left
          refine ⟨hcond.1, hcond.2, ?_⟩
          have hready := hcond.2
          unfold MessageBuffer.isReady at hready
          split at hready
          · simp at hready
          · rename_i hent
            simp [MessageBuffer.pop, hent]
  · rename_i hcond
    simp only [Except.ok.injEq] at h
    exact Or.inr ⟨hcond, h.symm⟩

theorem while_body_measure {int_of : Nat → Int} {link_latency now vnet : Int}
    {s s1 : VnetSlot} (hc : while_cond now s = true)
    (h : while_body int_of link_latency now vnet s = .ok s1) :
    while_measure s1 < while_measure s := by
  unfold while_body at h
  split at h
  · simp at h
  · rename_i s2 hm
    simp only [Except.ok.injEq] at h
    subst h
    have hsp := spend_bandwidth_measure s2
    have hmeas : while_measure (spend_bandwidth s2) ≤ 2 * s2.m_in.entries.length + 1 := by
      have hin : (spend_bandwidth s2).m_in = s2.m_in := rfl
      unfold while_measure
      rw [hin]
      omega
    unfold while_cond at hc
    simp only [Bool.and_eq_true, Bool.or_eq_true, decide_eq_true_eq] at hc
    obtain ⟨⟨hbw, hwork⟩, _⟩ := hc
    have hs : while_measure s =
        2 * s.m_in.entries.length + (if s.m_units_remaining = 0 then 0 else 1) + 1 := by
      unfold while_measure
      rw [if_pos hbw]
    rcases move_message_measure hm with ⟨hu0, _, hlen⟩ | ⟨hcond, he⟩
    · rw [hs, if_pos hu0]
      omega
    · subst he
      have hu : s2.m_units_remaining ≠ 0 := by
        intro hu0
        apply hcond
        refine ⟨hu0, ?_⟩
        rcases hwork with h1 | h1
        · exact h1
        · omega
      rw [hs, if_neg hu]
      omega

/-- The `while` loop stops because its condition fails, not for lack of fuel. -/
theorem wakeup_while_exit (int_of : Nat → Int) (link_latency now vnet : Int) (fuel : Nat) :
    ∀ s s1 : VnetSlot, while_measure s ≤ fuel →
      wakeup_while int_of link_latency now vnet fuel s = .ok s1 →
      while_cond now s1 = false := by
  induction fuel with
  | zero =>
    intro s s1 hm h
    simp only [wakeup_while, Except.ok.injEq] at h
    subst h
    unfold while_measure at hm
    have hbw : ¬ s.bw_remaining > 0 := by
      intro hb
      rw [if_pos hb] at hm
      omega
    unfold while_cond
    simp [hbw]
  | succ k ih =>
    intro s s1 hm h
    unfold wakeup_while at h
    split at h
    · rename_i hc
      split at h
      · simp at h
      · rename_i s2 hb
        have := while_body_measure hc hb
        exact ih _ _ (by omega) h
    · rename_i hc
      simp only [Except.ok.injEq] at h
      subst h
      simpa using hc

/-! ### A wakeup of a well-formed throttle completes -/

theorem count_message_total {NUM V : Nat} {counters : List (List Int)} {size : Nat}
    {vnet : Int} (hl : counters.length = NUM) (hr : ∀ row ∈ counters, row.length = V)
    (hs : size < NUM) (h0 : 0 ≤ vnet) (hv : vnet.toNat < V) :
    ∃ c1, count_message counters size vnet = some c1 ∧ c1.length = NUM ∧
      ∀ row ∈ c1, row.length = V := by
  unfold count_message
  have hsl : size < counters.length := by omega
  rw [List.getElem?_eq_getElem hsl]
  simp only
  have hrow : (counters[size]).length = V := hr _ (List.getElem_mem hsl)
  obtain ⟨c, hc⟩ := vec_read_isSome (counters[size]) vnet h0 (by omega)
  rw [hc]
  simp only
  rw [vec_write_eq_some _ _ _ h0 (by omega)]
  simp only
  refine ⟨_, rfl, by simp [hl], ?_⟩
  intro row hmem
  rcases List.mem_or_eq_of_mem_set hmem with h1 | h1
  · exact hr row h1
  · rw [h1]; simp [hrow]

theorem move_message_total (int_of : Nat → Int) (link_latency now : Int) {NUM V : Nat}
    {vnet : Int} {s : VnetSlot} (h : SlotOk NUM V vnet s) :
    ∃ s1, move_message int_of link_latency now vnet s = .ok s1 ∧ SlotOk NUM V vnet s1 := by
  obtain ⟨h0, hv, hl, hr, ht⟩ := h
  unfold move_message
  split
  · rename_i hc
    have hready := hc.2
    unfold MessageBuffer.isReady at hready
    split at hready
    · simp at hready
    · rename_i n rest hent
      have hpeek : s.m_in.peekMsgPtr = some n.m_msgptr := by
        unfold MessageBuffer.peekMsgPtr; rw [hent]
      rw [hpeek]
      simp only
      have hsz : ∃ size, network_message_to_size int_of (some n.m_msgptr) = .ok size := by
        unfold network_message_to_size
        simp only
        split <;> exact ⟨_, rfl⟩
      obtain ⟨size, hsize⟩ := hsz
      rw [hsize]
      simp only
      have htag : n.m_msgptr.m_MessageSize < NUM := ht n (by rw [hent]; simp)
      obtain ⟨c1, hc1, hl1, hr1⟩ := count_message_total hl hr htag h0 hv
      rw [hc1]
      simp only
      refine ⟨_, rfl, h0, hv, hl1, hr1, ?_⟩
      intro m hm
      apply ht
      simp only [MessageBuffer.pop, hent, List.tail_cons] at hm
      rw [hent]
      exact List.mem_cons_of_mem _ hm
  · exact ⟨s, rfl, h0, hv, hl, hr, ht⟩

theorem while_body_total (int_of : Nat → Int) (link_latency now : Int) {NUM V : Nat}
    {vnet : Int} {s : VnetSlot} (h : SlotOk NUM V vnet s) :
    ∃ s1, while_body int_of link_latency now vnet s = .ok s1 ∧ SlotOk NUM V vnet s1 := by
  obtain ⟨s1, h1, ok1⟩ := move_message_total int_of link_latency now h
  unfold while_body
  rw [h1]
  exact ⟨spend_bandwidth s1, rfl, ok1⟩

theorem wakeup_while_total (int_of : Nat → Int) (link_latency now : Int) (NUM V : Nat)
    (vnet : Int) (fuel : Nat) :
    ∀ s : VnetSlot, SlotOk NUM V vnet s →
      ∃ s1, wakeup_while int_of link_latency now vnet fuel s = .ok s1 ∧
        SlotOk NUM V vnet s1 := by
  induction fuel with
  | zero => intro s h; exact ⟨s, rfl, h⟩
  | succ k ih =>
    intro s h
    unfold wakeup_while
    split
    · obtain ⟨s1, h1, ok1⟩ := while_body_total int_of link_latency now h
      rw [h1]
      exact ih s1 ok1
    · exact ⟨s, rfl, h⟩

theorem wakeup_vnet_total (int_of : Nat → Int) (now : Int) {NUM : Nat} {w : WakeupState}
    {vnet : Int} (hw : WellFormed NUM w.throttle) (h0 : 0 ≤ vnet)
    (hv : vnet < w.throttle.m_vnets) :
    ∃ w1, wakeup_vnet int_of now w vnet = .ok w1 ∧ WellFormed NUM w1.throttle := by
  obtain ⟨hV, hin, hout, hun, hnn, hcl, hcr, htag⟩ := hw
  have hvn : vnet.toNat < w.throttle.m_vnets.toNat := by omega
  obtain ⟨o, ho⟩ := vec_read_isSome w.throttle.m_out vnet h0 (by omega)
  obtain ⟨i, hi⟩ := vec_read_isSome w.throttle.m_in vnet h0 (by omega)
  obtain ⟨u, hu⟩ := vec_read_isSome w.throttle.m_units_remaining vnet h0 (by omega)
  have hu0 : 0 ≤ u := hnn u (List.getElem?_mem (vec_read_some hu).2)
  have himem : i ∈ w.throttle.m_in := List.getElem?_mem (vec_read_some hi).2
  have hslot : SlotOk NUM w.throttle.m_vnets.toNat vnet
      ⟨i, o, u, w.throttle.m_message_counters, w.bw_remaining⟩ :=
    ⟨h0, hvn, hcl, hcr, htag i himem⟩
  obtain ⟨s, hs, hsok⟩ := wakeup_while_total int_of w.throttle.m_link_latency now NUM
    w.throttle.m_vnets.toNat vnet
    (while_fuel ⟨i, o, u, w.throttle.m_message_counters, w.bw_remaining⟩) _ hslot
  have hsu : 0 ≤ s.m_units_remaining :=
    wakeup_while_units_nonneg _ _ _ _ _ _ _ hs hu0
  unfold wakeup_vnet
  simp only [ho, hi, hu, ge_iff_le, hu0, if_true, hs]
  rw [vec_write_eq_some _ _ _ h0 (by omega), vec_write_eq_some _ _ _ h0 (by omega),
    vec_write_eq_some _ _ _ h0 (by omega)]
  simp only
  refine ⟨_, rfl, hV, by simp [hin], by simp [hout], by simp [hun], ?_, hsok.2.2.1,
    hsok.2.2.2.1, ?_⟩
  · intro x hx
    rcases List.mem_or_eq_of_mem_set hx with h1 | h1
    · exact hnn x h1
    · rw [h1]; exact hsu
  · intro b hb
    rcases List.mem_or_eq_of_mem_set hb with h1 | h1
    · exact htag b h1
    · rw [h1]; exact hsok.2.2.2.2

theorem wakeup_for_total (int_of : Nat → Int) (now : Int) {NUM : Nat} (order : List Int) :
    ∀ w : WakeupState, WellFormed NUM w.throttle →
      (∀ x ∈ order, 0 ≤ x ∧ x < w.throttle.m_vnets) →
      ∃ w1, wakeup_for int_of now order w = .ok w1 ∧ WellFormed NUM w1.throttle := by
  induction order with
  | nil => intro w hw _; exact ⟨w, rfl, hw⟩
  | cons v vs ih =>
    intro w hw ho
    obtain ⟨hv0, hv1⟩ := ho v (List.mem_cons_self _ _)
    obtain ⟨w1, h1, hw1⟩ := wakeup_vnet_total int_of now hw hv0 hv1
    unfold wakeup_for
    rw [h1]
    simp only
    apply ih w1 hw1
    intro x hx
    have hsame : w1.throttle.m_vnets = w.throttle.m_vnets :=
      (wakeup_vnet_sameControl h1).2.2.1
    rw [hsame]
    exact ho x (List.mem_cons_of_mem _ hx)

theorem vnet_order_in_range (t : Throttle) (ht : 0 ≤ t.m_vnets) :
    ∀ x ∈ vnet_order t, 0 ≤ x ∧ x < t.m_vnets := by
  intro x hx
  rw [vnet_order_eq t t.m_vnets.toNat (by omega)] at hx
  have key : ∀ a : Nat, a < t.m_vnets.toNat → 0 ≤ Int.ofNat a ∧ Int.ofNat a < t.m_vnets := by
    intro a ha
    refine ⟨Int.ofNat_nonneg a, ?_⟩
    have : (Int.ofNat a) = (a : Int) := rfl
    omega
  split at hx
  · obtain ⟨a, ha, rfl⟩ := List.mem_map.1 hx
    exact key a (List.mem_range.1 ha)
  · obtain ⟨a, ha, rfl⟩ := List.mem_map.1 hx
    exact key a (List.mem_range.1 (List.mem_reverse.1 ha))

/-- A wakeup of a well-formed throttle with a positive link bandwidth completes, and
the throttle is well-formed afterwards. -/
theorem wakeup_total (int_of : Nat → Int) (bw : Int) (threshold : ℚ) (now : Int)
    (NUM : Nat) (t : Throttle) (hw : WellFormed NUM t) (hbw : 0 < bw) :
    ∃ (t1 : Throttle) (scheduled : Bool),
      wakeup int_of bw threshold now t = .ok (t1, scheduled) ∧ WellFormed NUM t1 := by
  have hw1 : WellFormed NUM
      ({ throttle := { t with m_wakeups_wo_switch := (priority t).wakeups_wo_switch },
         bw_remaining := bw, schedule_wakeup := false } : WakeupState).throttle := hw
  obtain ⟨w, hfor, hwf⟩ := wakeup_for_total int_of now
    (vnet_order t) _ hw1 (vnet_order_in_range t hw.1)
  unfold wakeup
  rw [if_pos hbw]
  simp only [hfor]
  refine ⟨_, _, rfl, ?_⟩
  have hpl := bash_loop_accounted bw threshold now
      (bash_fuel now (accounted bw w)) w
  obtain ⟨p1, _, p3, p4, p5, p6, _, _⟩ := hpl
  unfold WellFormed
  rw [p1, p3, p4, p5, p6]
  exact hwf

theorem addLinks_loop_shape (in_vec : List MessageBuffer) :
    ∀ (t : Throttle) (out_vec : List MessageBuffer), in_vec.length = out_vec.length →
      (addLinks_loop t in_vec out_vec).m_in = t.m_in ++ in_vec ∧
      (addLinks_loop t in_vec out_vec).m_out = t.m_out ++ out_vec ∧
      (addLinks_loop t in_vec out_vec).m_units_remaining
        = t.m_units_remaining ++ List.replicate in_vec.length 0 ∧
      (addLinks_loop t in_vec out_vec).m_vnets = t.m_vnets + in_vec.length := by
  induction in_vec with
  | nil =>
    intro t out_vec hl
    cases out_vec with
    | nil => unfold addLinks_loop; simp
    | cons o outs => simp at hl
  | cons i ins ih =>
    intro t out_vec hl
    cases out_vec with
    | nil => simp at hl
    | cons o outs =>
      simp only [List.length_cons, Nat.add_right_cancel_iff] at hl
      obtain ⟨h1, h2, h3, h4⟩ := ih (addVirtualNetwork t i o) outs hl
      simp only [addLinks_loop]
      rw [h1, h2, h3, h4]
      simp only [addVirtualNetwork, List.append_assoc, List.singleton_append,
        List.length_cons, List.replicate_succ, Nat.cast_add, Nat.cast_one]
      exact ⟨trivial, trivial, trivial, by omega⟩

/-- A freshly constructed throttle is well-formed after `addLinks` when the messages
that wait in the input buffers carry size tags of the protocol. -/
theorem addLinks_wellFormed {sID node link_latency link_bandwidth_multiplier now : Int}
    {NUM : Nat} {g_PRINT_TOPOLOGY : Bool} {t0 t : Throttle}
    {in_vec out_vec : List MessageBuffer}
    (hc : construct sID node link_latency link_bandwidth_multiplier now = .ok t0)
    (ha : addLinks NUM g_PRINT_TOPOLOGY t0 in_vec out_vec = .ok t)
    (htag : ∀ b ∈ in_vec, ∀ n ∈ b.entries, n.m_msgptr.m_MessageSize < NUM) :
    WellFormed NUM t := by
  obtain ⟨c1, _, _, c4, c5, c6⟩ := construct_ok hc
  unfold addLinks at ha
  split at ha
  · rename_i hl
    obtain ⟨h1, h2, h3, h4⟩ := addLinks_loop_shape in_vec t0 out_vec hl
    rw [c5] at h1
    rw [c6] at h2
    rw [c4] at h3
    rw [c1] at h4
    simp only [List.nil_append, zero_add] at h1 h2 h3 h4
    simp only [Except.ok.injEq] at ha
    subst ha
    have key : WellFormed NUM
        { addLinks_loop t0 in_vec out_vec with
          m_message_counters := List.replicate NUM (List.replicate in_vec.length 0) } := by
      unfold WellFormed
      simp only [h1, h2, h3, h4, Int.toNat_ofNat, List.length_replicate]
      refine ⟨Int.ofNat_nonneg _, trivial, hl.symm, trivial, ?_, trivial, ?_, htag⟩
      · intro u hu
        rw [List.eq_of_mem_replicate hu]
      · intro row hrow
        rw [List.eq_of_mem_replicate hrow, List.length_replicate]
    cases g_PRINT_TOPOLOGY
    · exact key
    · exact key
  · simp at ha

/-! ### Pending work and rescheduling -/

/-- When its condition is false the `while` loop returns at once. -/
theorem wakeup_while_idle (int_of : Nat → Int) (link_latency now vnet : Int) (fuel : Nat)
    (s : VnetSlot) (h : while_cond now s = false) :
    wakeup_while int_of link_latency now vnet fuel s = .ok s := by
  cases fuel with
  | zero => rfl
  | succ k =>
    unfold wakeup_while
    rw [h]
    rfl

theorem spend_bandwidth_bw_nonneg (s : VnetSlot) :
    0 ≤ (spend_bandwidth s).bw_remaining := by
  simp only [spend_bandwidth]
  exact le_max_left _ _

theorem wakeup_while_bw_nonneg (int_of : Nat → Int) (link_latency now vnet : Int)
    (fuel : Nat) :
    ∀ s s1 : VnetSlot, wakeup_while int_of link_latency now vnet fuel s = .ok s1 →
      0 ≤ s.bw_remaining → 0 ≤ s1.bw_remaining := by
  induction fuel with
  | zero =>
    intro s s1 h hu
    simp only [wakeup_while, Except.ok.injEq] at h
    subst h; exact hu
  | succ k ih =>
    intro s s1 h hu
    unfold wakeup_while at h
    split at h
    · split at h
      · simp at h
      · rename_i s2 hb
        apply ih _ _ h
        unfold while_body at hb
        split at hb
        · simp at hb
        · simp only [Except.ok.injEq] at hb
          subst hb
          exact spend_bandwidth_bw_nonneg _
    · simp only [Except.ok.injEq] at h
      subst h; exact hu

theorem pending_of_reads {now : Int} {t : Throttle} {v : Nat} {i : MessageBuffer} {u : Int}
    (hi : t.m_in[v]? = some i) (hu : t.m_units_remaining[v]? = some u) :
    pending now t v = (i.isReady now || decide (u > 0)) := by
  unfold pending
  rw [hi, hu]

theorem blocked_of_reads {now : Int} {t : Throttle} {v : Nat} {i o : MessageBuffer}
    {u : Int} (hi : t.m_in[v]? = some i) (hu : t.m_units_remaining[v]? = some u)
    (ho : t.m_out[v]? = some o) :
    blocked now t v = ((i.isReady now || decide (u > 0)) && !o.areNSlotsAvailable 1) := by
  unfold blocked
  rw [pending_of_reads hi hu, ho]

theorem pending_congr {now : Int} {t t1 : Throttle} {v : Nat}
    (hi : t1.m_in[v]? = t.m_in[v]?)
    (hu : t1.m_units_remaining[v]? = t.m_units_remaining[v]?) :
    pending now t1 v = pending now t v := by
  unfold pending
  rw [hi, hu]

theorem blocked_congr {now : Int} {t t1 : Throttle} {v : Nat}
    (hi : t1.m_in[v]? = t.m_in[v]?)
    (hu : t1.m_units_remaining[v]? = t.m_units_remaining[v]?)
    (ho : t1.m_out[v]? = t.m_out[v]?) :
    blocked now t1 v = blocked now t v := by
  unfold blocked
  rw [pending_congr hi hu, ho]

/-- What the visit of one virtual network does to the pending work: the network visited
is left without bandwidth, without pending work, or blocked with the flag
`schedule_wakeup` set; what held of the other networks still holds; the flag is set
only for a blocked network; a blocked network stays blocked. -/
theorem wakeup_vnet_settled {int_of : Nat → Int} {now : Int} {w w1 : WakeupState}
    {vnet : Int} (h : wakeup_vnet int_of now w vnet = .ok w1)
    (hb : 0 ≤ w.bw_remaining) :
    0 ≤ w1.bw_remaining ∧
    (∀ v : Nat,
      (v = vnet.toNat ∨ w.bw_remaining ≤ 0 ∨ pending now w.throttle v = false ∨
        (blocked now w.throttle v = true ∧ w.schedule_wakeup = true)) →
      (w1.bw_remaining ≤ 0 ∨ pending now w1.throttle v = false ∨
        (blocked now w1.throttle v = true ∧ w1.schedule_wakeup = true))) ∧
    (w1.schedule_wakeup = true →
      w.schedule_wakeup = true ∨ blocked now w1.throttle vnet.toNat = true) ∧
    (∀ v : Nat, blocked now w.throttle v = true → blocked now w1.throttle v = true) := by
  obtain ⟨o, i, u, s, h0, ho, hi, hu, hu0, hs, ht, hbw, hsch⟩ := wakeup_vnet_ok h
  have hexit : while_cond now s = false :=
    wakeup_while_exit _ _ _ _ _ _ _ (while_measure_le_fuel _) hs
  have hin1 : ∀ m, w1.throttle.m_in[m]? =
      if vnet.toNat = m then some s.m_in else w.throttle.m_in[m]? := by
    intro m; rw [ht]; exact getElem?_set_of_some _ _ _ _ _ hi
  have hout1 : ∀ m, w1.throttle.m_out[m]? =
      if vnet.toNat = m then some s.m_out else w.throttle.m_out[m]? := by
    intro m; rw [ht]; exact getElem?_set_of_some _ _ _ _ _ ho
  have hun1 : ∀ m, w1.throttle.m_units_remaining[m]? =
      if vnet.toNat = m then some s.m_units_remaining
      else w.throttle.m_units_remaining[m]? := by
    intro m; rw [ht]; exact getElem?_set_of_some _ _ _ _ _ hu
  have hidle : while_cond now ⟨i, o, u, w.throttle.m_message_counters, w.bw_remaining⟩
      = false → s = ⟨i, o, u, w.throttle.m_message_counters, w.bw_remaining⟩ := by
    intro hc
    rw [wakeup_while_idle _ _ _ _ _ _ hc] at hs
    simp only [Except.ok.injEq] at hs
    exact hs.symm
  have hother : ∀ v : Nat, v ≠ vnet.toNat →
      pending now w1.throttle v = pending now w.throttle v ∧
      blocked now w1.throttle v = blocked now w.throttle v := by
    intro v hv
    have e1 := hin1 v
    have e2 := hun1 v
    have e3 := hout1 v
    rw [if_neg (fun hc => hv hc.symm)] at e1 e2 e3
    exact ⟨pending_congr e1 e2, blocked_congr e1 e2 e3⟩
  have hself_p : pending now w1.throttle vnet.toNat
      = (s.m_in.isReady now || decide (s.m_units_remaining > 0)) := by
    apply pending_of_reads
    · rw [hin1, if_pos rfl]
    · rw [hun1, if_pos rfl]
  have hself_b : blocked now w1.throttle vnet.toNat
      = ((s.m_in.isReady now || decide (s.m_units_remaining > 0))
          && !s.m_out.areNSlotsAvailable 1) := by
    apply blocked_of_reads
    · rw [hin1, if_pos rfl]
    · rw [hun1, if_pos rfl]
    · rw [hout1, if_pos rfl]
  have hvisited : w1.bw_remaining ≤ 0 ∨ pending now w1.throttle vnet.toNat = false ∨
      (blocked now w1.throttle vnet.toNat = true ∧ w1.schedule_wakeup = true) := by
    rw [hself_p, hself_b, hsch, hbw]
    by_cases hb1 : s.bw_remaining > 0
    · by_cases hp : (s.m_in.isReady now || decide (s.m_units_remaining > 0)) = true
      · right; right
        have hslot : s.m_out.areNSlotsAvailable 1 = false := by
          unfold while_cond at hexit
          rw [hp] at hexit
          simpa [hb1] using hexit
        simp [hp, hslot, hb1]
      · right; left
        simpa using hp
    · left; omega
  refine ⟨?_, ?_, ?_, ?_⟩
  · rw [hbw]
    exact wakeup_while_bw_nonneg _ _ _ _ _ _ _ hs hb
  · intro v hv
    by_cases hvn : v = vnet.toNat
    · subst hvn; exact hvisited
    · obtain ⟨ep, eb⟩ := hother v hvn
      rw [ep, eb]
      rcases hv with hv | hv | hv | ⟨hv1, hv2⟩
      · exact absurd hv hvn
      · left
        have hc : while_cond now ⟨i, o, u, w.throttle.m_message_counters, w.bw_remaining⟩
            = false := by
          unfold while_cond
          have : ¬ w.bw_remaining > 0 := by omega
          simp [this]
        rw [hbw, hidle hc]
        exact hv
      · right; left; exact hv
      · right; right
        refine ⟨hv1, ?_⟩
        rw [hsch, hv2]
        simp
  · intro h1
    rw [hsch] at h1
    split at h1
    · rename_i hc
      right
      rw [hself_b]
      simp only [Bool.and_eq_true] at hc ⊢
      exact ⟨hc.1.2, hc.2⟩
    · left; exact h1
  · intro v hv
    by_cases hvn : v = vnet.toNat
    · subst hvn
      rw [blocked_of_reads hi hu ho] at hv
      have hc : while_cond now ⟨i, o, u, w.throttle.m_message_counters, w.bw_remaining⟩
          = false := by
        unfold while_cond
        simp only [Bool.and_eq_true, Bool.not_eq_true'] at hv
        simp [hv.2]
      have hss := hidle hc
      rw [hself_b, hss]
      exact hv
    · rw [(hother v hvn).2]; exact hv

theorem wakeup_for_settled {int_of : Nat → Int} {now : Int} (order : List Int) :
    ∀ {w w1 : WakeupState}, wakeup_for int_of now order w = .ok w1 →
      0 ≤ w.bw_remaining →
      0 ≤ w1.bw_remaining ∧
      (∀ v : Nat,
        ((∃ x ∈ order, Int.toNat x = v) ∨ w.bw_remaining ≤ 0 ∨
          pending now w.throttle v = false ∨
          (blocked now w.throttle v = true ∧ w.schedule_wakeup = true)) →
        (w1.bw_remaining ≤ 0 ∨ pending now w1.throttle v = false ∨
          (blocked now w1.throttle v = true ∧ w1.schedule_wakeup = true))) ∧
      (w1.schedule_wakeup = true →
        w.schedule_wakeup = true ∨ ∃ v : Nat, blocked now w1.throttle v = true) ∧
      (∀ v : Nat, blocked now w.throttle v = true → blocked now w1.throttle v = true) := by
  induction order with
  | nil =>
    intro w w1 h hb
    simp only [wakeup_for, Except.ok.injEq] at h
    subst h
    refine ⟨hb, ?_, fun h1 => Or.inl h1, fun _ hv => hv⟩
    intro v hv
    rcases hv with ⟨x, hx, _⟩ | hv
    · simp at hx
    · exact hv
  | cons x xs ih =>
    intro w w1 h hb
    unfold wakeup_for at h
    split at h
    · simp at h
    · rename_i w2 h2
      obtain ⟨a1, a2, a3, a4⟩ := wakeup_vnet_settled h2 hb
      obtain ⟨b1, b2, b3, b4⟩ := ih h a1
      refine ⟨b1, ?_, ?_, fun v hv => b4 v (a4 v hv)⟩
      · intro v hv
        apply b2 v
        rcases hv with ⟨y, hy, hyv⟩ | hv
        · rcases List.mem_cons.1 hy with hy1 | hy1
          · right
            apply a2 v
            left; rw [← hyv, hy1]
          · left; exact ⟨y, hy1, hyv⟩
        · right
          exact a2 v (Or.inr hv)
      · intro h1
        rcases b3 h1 with h3 | h3
        · rcases a3 h3 with h4 | h4
          · left; exact h4
          · right; exact ⟨_, b4 _ h4⟩
        · right; exact h3

theorem mem_vnet_order (t : Throttle) (v : Nat) (hv : (v : Int) < t.m_vnets) :
    ∃ x ∈ vnet_order t, Int.toNat x = v := by
  have hV : t.m_vnets = ((t.m_vnets.toNat : Nat) : Int) := by omega
  have hvV : v < t.m_vnets.toNat := by omega
  refine ⟨Int.ofNat v, ?_, rfl⟩
  rw [vnet_order_eq t _ hV]
  split
  · exact List.mem_map.2 ⟨v, List.mem_range.2 hvV, rfl⟩
  · exact List.mem_map.2 ⟨v, List.mem_reverse.2 (List.mem_range.2 hvV), rfl⟩

/-- The end of a wakeup of a well-formed throttle: with `w` the locals after the loop
over the virtual networks, the throttle schedules itself exactly when `schedule_wakeup`
is set or no bandwidth is left; the flag is set only if a virtual network is blocked;
and a virtual network with pending work is blocked with the flag set, unless no
bandwidth is left. -/
theorem wakeup_rescheduling (int_of : Nat → Int) (bw : Int) (threshold : ℚ) (now : Int)
    (NUM : Nat) (t : Throttle) (hw : WellFormed NUM t) (hbw : 0 < bw) :
    ∃ (t1 : Throttle) (scheduled : Bool) (w : WakeupState),
      wakeup int_of bw threshold now t = .ok (t1, scheduled) ∧
      wakeup_locals int_of bw now t = .ok w ∧
      0 ≤ w.bw_remaining ∧
      (scheduled = true ↔ (w.schedule_wakeup = true ∨ w.bw_remaining = 0)) ∧
      (w.schedule_wakeup = true → ∃ v : Nat, blocked now t1 v = true) ∧
      (∀ v : Nat, pending now t1 v = true →
        w.bw_remaining = 0 ∨ (blocked now t1 v = true ∧ w.schedule_wakeup = true)) := by
  obtain ⟨t1, scheduled, h, hw1⟩ := wakeup_total int_of bw threshold now NUM t hw hbw
  obtain ⟨_, w, hfor, ht1, hsched⟩ := wakeup_ok h
  have hb0 : (0 : Int) ≤ bw := by omega
  obtain ⟨a1, a2, a3, _⟩ := wakeup_for_settled (vnet_order t) hfor hb0
  have hsc := wakeup_for_sameControl _ hfor
  have hpl := bash_loop_accounted bw threshold now
      (bash_fuel now (accounted bw w)) w
  rw [← ht1] at hpl
  obtain ⟨p1, _, p3, p4, p5, _, _, _⟩ := hpl
  have hpend : ∀ v, pending now t1 v = pending now w.throttle v := fun v =>
    pending_congr (by rw [p4]) (by rw [p3])
  have hblk : ∀ v, blocked now t1 v = blocked now w.throttle v := fun v =>
    blocked_congr (by rw [p4]) (by rw [p3]) (by rw [p5])
  have hV : t1.m_vnets = t.m_vnets := by
    rw [p1]; exact hsc.2.2.1
  refine ⟨t1, scheduled, w, h, hfor, a1, ?_, ?_, ?_⟩
  · rw [hsched]
    by_cases hs : w.schedule_wakeup = true
    · simp [hs]
    · have hs1 : w.schedule_wakeup = false := by simpa using hs
      by_cases hz : w.bw_remaining = 0
      · simp [hs1, hz]
      · have : w.bw_remaining > 0 := by omega
        simp [hs1, hz, this]
  · intro hs
    rcases a3 hs with h1 | ⟨v, hv⟩
    · simp at h1
    · exact ⟨v, by rw [hblk]; exact hv⟩
  · intro v hp
    by_cases hv : (v : Int) < t.m_vnets
    · have := a2 v (Or.inl (mem_vnet_order t v hv))
      rw [hpend] at hp
      rw [hblk]
      rcases this with h1 | h1 | h1
      · left; omega
      · rw [hp] at h1; simp at h1
      · right; exact h1
    · exfalso
      obtain ⟨_, hin, _⟩ := hw1
      have hnone : t1.m_in[v]? = none := by
        apply List.getElem?_eq_none
        rw [hin, hV]
        omega
      unfold pending at hp
      rw [hnone] at hp
      simp at hp

/-! ### Wakeups that find nothing to move -/

/-- The predictor loop writes only the counter and the two sample fields. -/
theorem bash_loop_frame (bw : Int) (threshold : ℚ) (now : Int) (fuel : Nat) :
    ∀ t : Throttle, bash_loop bw threshold now fuel t =
      { t with
        m_bash_counter := (bash_loop bw threshold now fuel t).m_bash_counter
        m_last_bandwidth_sample :=
          (bash_loop bw threshold now fuel t).m_last_bandwidth_sample
        m_bandwidth_since_sample :=
          (bash_loop bw threshold now fuel t).m_bandwidth_since_sample } := by
  induction fuel with
  | zero => intro t; rfl
  | succ k ih =>
    intro t
    unfold bash_loop
    split
    · have h := ih (bash_step bw threshold t)
      rw [h]
      simp only [bash_step]
    · rfl

theorem isReady_nil {b : MessageBuffer} (h : b.entries = []) (now : Int) :
    b.isReady now = false := by
  unfold MessageBuffer.isReady
  rw [h]

/-- With an empty input buffer the `while` loop only pays units. -/
theorem wakeup_while_empty (int_of : Nat → Int) (link_latency now vnet : Int)
    (fuel : Nat) :
    ∀ s s1 : VnetSlot, s.m_in.entries = [] →
      wakeup_while int_of link_latency now vnet fuel s = .ok s1 →
      s1.m_in = s.m_in ∧ s1.m_out = s.m_out ∧
      s1.m_message_counters = s.m_message_counters := by
  induction fuel with
  | zero =>
    intro s s1 _ h
    simp only [wakeup_while, Except.ok.injEq] at h
    subst h; exact ⟨rfl, rfl, rfl⟩
  | succ k ih =>
    intro s s1 he h
    unfold wakeup_while at h
    split at h
    · have hb : while_body int_of link_latency now vnet s = .ok (spend_bandwidth s) := by
        unfold while_body move_message
        rw [isReady_nil he]
        simp
      rw [hb] at h
      simp only at h
      obtain ⟨a1, a2, a3⟩ := ih (spend_bandwidth s) s1 he h
      exact ⟨a1, a2, a3⟩
    · simp only [Except.ok.injEq] at h
      subst h; exact ⟨rfl, rfl, rfl⟩

/-- A visit of a virtual network with an empty input buffer leaves the buffers and the
counters as they are; if in addition no units remain it changes nothing. -/
theorem wakeup_vnet_empty {int_of : Nat → Int} {now : Int} {w w1 : WakeupState}
    {vnet : Int} (h : wakeup_vnet int_of now w vnet = .ok w1)
    (hin : ∀ b ∈ w.throttle.m_in, b.entries = []) :
    w1.throttle.m_in = w.throttle.m_in ∧ w1.throttle.m_out = w.throttle.m_out ∧
    w1.throttle.m_message_counters = w.throttle.m_message_counters ∧
    ((∀ u ∈ w.throttle.m_units_remaining, u = 0) → w1 = w) := by
  obtain ⟨o, i, u, s, h0, ho, hi, hu, hu0, hs, ht, hbw, hsch⟩ := wakeup_vnet_ok h
  have hie : i.entries = [] := hin i (List.getElem?_mem hi)
  obtain ⟨e1, e2, e3⟩ := wakeup_while_empty _ _ _ _ _ _ _ hie hs
  simp only at e1 e2 e3
  refine ⟨?_, ?_, ?_, ?_⟩
  · rw [ht, e1]; exact set_getElem?_self _ _ _ hi
  · rw [ht, e2]; exact set_getElem?_self _ _ _ ho
  · rw [ht, e3]
  · intro hz
    have hu1 : u = 0 := hz u (List.getElem?_mem hu)
    have hc : while_cond now ⟨i, o, u, w.throttle.m_message_counters, w.bw_remaining⟩
        = false := by
      unfold while_cond
      simp [isReady_nil hie, hu1]
    rw [wakeup_while_idle _ _ _ _ _ _ hc] at hs
    simp only [Except.ok.injEq] at hs
    subst hs
    simp only at ht hbw hsch
    rw [set_getElem?_self _ _ _ hi, set_getElem?_self _ _ _ ho,
      set_getElem?_self _ _ _ hu] at ht
    have hsch1 : w1.schedule_wakeup = w.schedule_wakeup := by
      rw [hsch]
      simp [isReady_nil hie, hu1]
    cases w1
    cases w
    simp only at ht hbw hsch1
    simp only [WakeupState.mk.injEq]
    exact ⟨ht, hbw, hsch1⟩

theorem wakeup_for_empty {int_of : Nat → Int} {now : Int} (order : List Int) :
    ∀ {w w1 : WakeupState}, wakeup_for int_of now order w = .ok w1 →
      (∀ b ∈ w.throttle.m_in, b.entries = []) →
      w1.throttle.m_in = w.throttle.m_in ∧ w1.throttle.m_out = w.throttle.m_out ∧
      w1.throttle.m_message_counters = w.throttle.m_message_counters ∧
      ((∀ u ∈ w.throttle.m_units_remaining, u = 0) → w1 = w) := by
  induction order with
  | nil =>
    intro w w1 h _
    simp only [wakeup_for, Except.ok.injEq] at h
    subst h
    exact ⟨rfl, rfl, rfl, fun _ => rfl⟩
  | cons x xs ih =>
    intro w w1 h hin
    unfold wakeup_for at h
    split at h
    · simp at h
    · rename_i w2 h2
      obtain ⟨a1, a2, a3, a4⟩ := wakeup_vnet_empty h2 hin
      obtain ⟨b1, b2, b3, b4⟩ := ih h (by rw [a1]; exact hin)
      refine ⟨b1.trans a1, b2.trans a2, b3.trans a3, ?_⟩
      intro hz
      have hw2 := a4 hz
      rw [b4 (by rw [hw2]; exact hz), hw2]

/-! ### Evaluating a wakeup forwards -/

theorem network_message_to_size_some (int_of : Nat → Int) (m : NetworkMessage) :
    network_message_to_size int_of (some m)
      = .ok (wrap32 (int_of m.m_MessageSize * MESSAGE_SIZE_MULTIPLIER)) := by
  unfold network_message_to_size
  simp only [BROADCAST_SCALING]
  rw [if_neg (by intro h; exact absurd h.1 (by decide))]

/-- The products of `network_message_to_size` are products of `int`s: with a size table
that gives 3000000 the function returns `-1294967296`, where `3000000 * 1000` is
3000000000, which no `int` holds. -/
theorem network_message_to_size_overflows :
    network_message_to_size (fun _ => 3000000) (some (Examples.message 1 0))
      = .ok (-1294967296) ∧
    (3000000 : Int) * MESSAGE_SIZE_MULTIPLIER = 3000000000 ∧
    (2147483647 : Int) < 3000000000 := by
  decide

/-- One iteration of the `while` loop that starts the message at the head of the input
buffer, followed by the exit of the loop. -/
theorem wakeup_while_take (int_of : Nat → Int) (link_latency now vnet : Int) (fuel : Nat)
    (s : VnetSlot) (m : MessageBufferNode) (rest : List MessageBufferNode) (size : Int)
    (c1 : List (List Int))
    (hu : s.m_units_remaining = 0) (he : s.m_in.entries = m :: rest)
    (hm : m.m_time ≤ now) (hbw : 0 < s.bw_remaining)
    (hslot : s.m_out.areNSlotsAvailable 1 = true)
    (hsize : network_message_to_size int_of (some m.m_msgptr) = .ok size)
    (hc : count_message s.m_message_counters m.m_msgptr.m_MessageSize vnet = some c1)
    (hstop : while_cond now
      ⟨⟨rest, s.m_in.capacity⟩, s.m_out.enqueue m.m_msgptr link_latency now,
        max 0 (size - s.bw_remaining), c1, max 0 (s.bw_remaining - size)⟩ = false) :
    wakeup_while int_of link_latency now vnet (fuel + 1) s =
      .ok ⟨⟨rest, s.m_in.capacity⟩, s.m_out.enqueue m.m_msgptr link_latency now,
        max 0 (size - s.bw_remaining), c1, max 0 (s.bw_remaining - size)⟩ := by
  have hready : s.m_in.isReady now = true := by
    unfold MessageBuffer.isReady
    rw [he]
    simpa using hm
  have hcond : while_cond now s = true := by
    unfold while_cond
    simp [hbw, hready, hslot]
  have hpeek : s.m_in.peekMsgPtr = some m.m_msgptr := by
    unfold MessageBuffer.peekMsgPtr; rw [he]
  have hpop : s.m_in.pop = ⟨rest, s.m_in.capacity⟩ := by
    unfold MessageBuffer.pop; rw [he]; rfl
  have hbody : while_body int_of link_latency now vnet s =
      .ok ⟨⟨rest, s.m_in.capacity⟩, s.m_out.enqueue m.m_msgptr link_latency now,
        max 0 (size - s.bw_remaining), c1, max 0 (s.bw_remaining - size)⟩ := by
    unfold while_body move_message
    rw [if_pos ⟨hu, hready⟩, hpeek]
    simp only [hsize, hc, hpop, hu, spend_bandwidth]
    have e2 : -(size - s.bw_remaining) = s.bw_remaining - size := by omega
    simp only [zero_add, e2]
  unfold wakeup_while
  rw [if_pos hcond, hbody]
  exact wakeup_while_idle _ _ _ _ _ _ hstop

/-- One iteration of the `while` loop that pays units of the message under way,
followed by the exit of the loop. -/
theorem wakeup_while_pay (int_of : Nat → Int) (link_latency now vnet : Int) (fuel : Nat)
    (s : VnetSlot) (hu : 0 < s.m_units_remaining) (hbw : 0 < s.bw_remaining)
    (hslot : s.m_out.areNSlotsAvailable 1 = true)
    (hstop : while_cond now
      { s with m_units_remaining := max 0 (s.m_units_remaining - s.bw_remaining)
               bw_remaining := max 0 (s.bw_remaining - s.m_units_remaining) } = false) :
    wakeup_while int_of link_latency now vnet (fuel + 1) s =
      .ok { s with m_units_remaining := max 0 (s.m_units_remaining - s.bw_remaining)
                   bw_remaining := max 0 (s.bw_remaining - s.m_units_remaining) } := by
  have hcond : while_cond now s = true := by
    unfold while_cond
    simp [hbw, hu, hslot]
  have hbody : while_body int_of link_latency now vnet s =
      .ok { s with m_units_remaining := max 0 (s.m_units_remaining - s.bw_remaining)
                   bw_remaining := max 0 (s.bw_remaining - s.m_units_remaining) } := by
    unfold while_body move_message
    rw [if_neg (by intro h; omega)]
    simp only [spend_bandwidth]
    have e2 : -(s.m_units_remaining - s.bw_remaining)
        = s.bw_remaining - s.m_units_remaining := by omega
    rw [e2]
  unfold wakeup_while
  rw [if_pos hcond, hbody]
  exact wakeup_while_idle _ _ _ _ _ _ hstop

/-- The visit of virtual network `v`, given what its `while` loop returns. -/
theorem wakeup_vnet_eval (int_of : Nat → Int) (now : Int) (w : WakeupState) (v : Nat)
    (o i : MessageBuffer) (u : Int) (s : VnetSlot)
    (ho : w.throttle.m_out[v]? = some o) (hi : w.throttle.m_in[v]? = some i)
    (hu : w.throttle.m_units_remaining[v]? = some u) (hu0 : 0 ≤ u)
    (hs : wakeup_while int_of w.throttle.m_link_latency now (v : Int)
      (while_fuel ⟨i, o, u, w.throttle.m_message_counters, w.bw_remaining⟩)
      ⟨i, o, u, w.throttle.m_message_counters, w.bw_remaining⟩ = .ok s) :
    wakeup_vnet int_of now w (v : Int) =
      .ok ⟨{ w.throttle with
              m_in := w.throttle.m_in.set v s.m_in
              m_out := w.throttle.m_out.set v s.m_out
              m_units_remaining := w.throttle.m_units_remaining.set v s.m_units_remaining
              m_message_counters := s.m_message_counters },
            s.bw_remaining,
            if (decide (s.bw_remaining > 0)
                  && (s.m_in.isReady now || decide (s.m_units_remaining > 0))
                  && !s.m_out.areNSlotsAvailable 1) = true
            then true else w.schedule_wakeup⟩ := by
  have h0 : (0 : Int) ≤ (v : Int) := Int.ofNat_nonneg v
  have hlt : ∀ {α : Type} (l : List α) (a : α), l[v]? = some a →
      (v : Int) < (l.length : Int) := by
    intro α l a h
    by_contra hc
    rw [List.getElem?_eq_none (by omega)] at h
    simp at h
  have r1 : vec_read w.throttle.m_out (v : Int) = some o := by
    rw [vec_read_eq_getElem? _ _ h0]; simpa using ho
  have r2 : vec_read w.throttle.m_in (v : Int) = some i := by
    rw [vec_read_eq_getElem? _ _ h0]; simpa using hi
  have r3 : vec_read w.throttle.m_units_remaining (v : Int) = some u := by
    rw [vec_read_eq_getElem? _ _ h0]; simpa using hu
  unfold wakeup_vnet
  simp only [r1, r2, r3, ge_iff_le, hu0, if_true, hs]
  rw [vec_write_eq_some _ _ _ h0 (hlt _ _ hi), vec_write_eq_some _ _ _ h0 (hlt _ _ ho),
    vec_write_eq_some _ _ _ h0 (hlt _ _ hu)]
  simp only [Int.toNat_ofNat]

/-- A visit with no bandwidth left changes nothing. -/
theorem wakeup_vnet_no_bandwidth (int_of : Nat → Int) (now : Int) (w : WakeupState)
    (v : Nat) (o i : MessageBuffer) (u : Int)
    (ho : w.throttle.m_out[v]? = some o) (hi : w.throttle.m_in[v]? = some i)
    (hu : w.throttle.m_units_remaining[v]? = some u) (hu0 : 0 ≤ u)
    (hbw : w.bw_remaining ≤ 0) :
    wakeup_vnet int_of now w (v : Int) = .ok w := by
  have hc : while_cond now ⟨i, o, u, w.throttle.m_message_counters, w.bw_remaining⟩
      = false := by
    unfold while_cond
    have : ¬ w.bw_remaining > 0 := by omega
    simp [this]
  rw [wakeup_vnet_eval int_of now w v o i u _ ho hi hu hu0
    (wakeup_while_idle _ _ _ _ _ _ hc)]
  simp only
  rw [set_getElem?_self _ _ _ hi, set_getElem?_self _ _ _ ho, set_getElem?_self _ _ _ hu]
  have : ¬ w.bw_remaining > 0 := by omega
  simp [this]

/-- The wakeup, given the locals at the end of the loop over the virtual networks. -/
theorem wakeup_eval (int_of : Nat → Int) (bw : Int) (threshold : ℚ) (now : Int)
    (t : Throttle) (w : WakeupState) (hbw : 0 < bw)
    (hl : wakeup_locals int_of bw now t = .ok w) :
    wakeup int_of bw threshold now t =
      .ok (bash_loop bw threshold now
        (bash_fuel now (accounted bw w))
        (accounted bw w),
        !(decide (w.bw_remaining > 0) && !w.schedule_wakeup)) := by
  unfold wakeup_locals at hl
  unfold wakeup
  rw [if_pos hbw]
  simp only [hl]

/-- The visit of a virtual network whose head message takes all the bandwidth that is
left: the message moves, the rest of its units remain to be paid and no bandwidth is
left. -/
theorem wakeup_vnet_take_all (int_of : Nat → Int) (now : Int) (w : WakeupState) (v : Nat)
    (o i : MessageBuffer) (m : MessageBufferNode) (rest : List MessageBufferNode)
    (size : Int) (c1 : List (List Int))
    (ho : w.throttle.m_out[v]? = some o) (hi : w.throttle.m_in[v]? = some i)
    (hu : w.throttle.m_units_remaining[v]? = some 0)
    (he : i.entries = m :: rest) (hm : m.m_time ≤ now)
    (hbw : 0 < w.bw_remaining) (hslot : o.areNSlotsAvailable 1 = true)
    (hsize : network_message_to_size int_of (some m.m_msgptr) = .ok size)
    (hle : w.bw_remaining ≤ size)
    (hc : count_message w.throttle.m_message_counters m.m_msgptr.m_MessageSize (v : Int)
      = some c1) :
    wakeup_vnet int_of now w (v : Int) =
      .ok ⟨{ w.throttle with
              m_in := w.throttle.m_in.set v ⟨rest, i.capacity⟩
              m_out := w.throttle.m_out.set v
                (o.enqueue m.m_msgptr w.throttle.m_link_latency now)
              m_units_remaining := w.throttle.m_units_remaining.set v
                (size - w.bw_remaining)
              m_message_counters := c1 },
            0, w.schedule_wakeup⟩ := by
  have e1 : max 0 (size - w.bw_remaining) = size - w.bw_remaining :=
    max_eq_right (by omega)
  have e2 : max 0 (w.bw_remaining - size) = 0 := max_eq_left (by omega)
  have hstop : while_cond now
      ⟨⟨rest, i.capacity⟩, o.enqueue m.m_msgptr w.throttle.m_link_latency now,
        max 0 (size - w.bw_remaining), c1, max 0 (w.bw_remaining - size)⟩ = false := by
    unfold while_cond
    rw [e2]
    simp
  have hs := wakeup_while_take int_of w.throttle.m_link_latency now (v : Int)
    (2 * i.entries.length + 1)
    ⟨i, o, 0, w.throttle.m_message_counters, w.bw_remaining⟩ m rest size c1 rfl he hm hbw
    hslot hsize hc hstop
  rw [wakeup_vnet_eval int_of now w v o i 0 _ ho hi hu (le_refl 0) hs]
  simp only [e1, e2]
  simp

/-- The wakeup, given the locals at the end of the loop over the virtual networks:
whether it schedules itself, and the fields the predictor loop does not write. -/
theorem wakeup_of_locals (int_of : Nat → Int) (bw : Int) (threshold : ℚ) (now : Int)
    (t : Throttle) (w : WakeupState) (hbw : 0 < bw)
    (hl : wakeup_locals int_of bw now t = .ok w) :
    ∃ t1 : Throttle,
      wakeup int_of bw threshold now t =
        .ok (t1, !(decide (w.bw_remaining > 0) && !w.schedule_wakeup)) ∧
      t1.m_wakeups_wo_switch = w.throttle.m_wakeups_wo_switch ∧
      t1.m_in = w.throttle.m_in ∧ t1.m_out = w.throttle.m_out ∧
      t1.m_units_remaining = w.throttle.m_units_remaining ∧
      t1.m_message_counters = w.throttle.m_message_counters ∧
      t1.m_vnets = w.throttle.m_vnets ∧ t1.m_link_latency = w.throttle.m_link_latency := by
  refine ⟨_, wakeup_eval int_of bw threshold now t w hbw hl, ?_⟩
  obtain ⟨p1, p2, p3, p4, p5, p6, p7, _⟩ := bash_loop_accounted bw threshold now
      (bash_fuel now (accounted bw w)) w
  exact ⟨p2, p4, p5, p3, p6, p1, p7⟩

/-- The order in which a throttle with two virtual networks visits them. -/
theorem vnet_order_two (t : Throttle) (hV : t.m_vnets = 2) :
    vnet_order t =
      if t.m_wakeups_wo_switch + 1 > PRIORITY_SWITCH_LIMIT
      then [((0 : Nat) : Int), ((1 : Nat) : Int)]
      else [((1 : Nat) : Int), ((0 : Nat) : Int)] := by
  rw [vnet_order_eq t 2 (by rw [hV]; rfl)]
  rfl

/-- The visit of a virtual network that starts its head message and then stops, either
because the message takes all the bandwidth or because nothing else waits. -/
theorem wakeup_vnet_take (int_of : Nat → Int) (now : Int) (w : WakeupState) (v : Nat)
    (o i : MessageBuffer) (m : MessageBufferNode) (rest : List MessageBufferNode)
    (size : Int) (c1 : List (List Int))
    (ho : w.throttle.m_out[v]? = some o) (hi : w.throttle.m_in[v]? = some i)
    (hu : w.throttle.m_units_remaining[v]? = some 0)
    (he : i.entries = m :: rest) (hm : m.m_time ≤ now)
    (hbw : 0 < w.bw_remaining) (hslot : o.areNSlotsAvailable 1 = true)
    (hsize : network_message_to_size int_of (some m.m_msgptr) = .ok size)
    (hstop : w.bw_remaining ≤ size ∨ rest = [])
    (hc : count_message w.throttle.m_message_counters m.m_msgptr.m_MessageSize (v : Int)
      = some c1) :
    wakeup_vnet int_of now w (v : Int) =
      .ok ⟨{ w.throttle with
              m_in := w.throttle.m_in.set v ⟨rest, i.capacity⟩
              m_out := w.throttle.m_out.set v
                (o.enqueue m.m_msgptr w.throttle.m_link_latency now)
              m_units_remaining := w.throttle.m_units_remaining.set v
                (max 0 (size - w.bw_remaining))
              m_message_counters := c1 },
            max 0 (w.bw_remaining - size), w.schedule_wakeup⟩ := by
  have hflag : (decide (max 0 (w.bw_remaining - size) > 0)
      && (MessageBuffer.isReady ⟨rest, i.capacity⟩ now
          || decide (max 0 (size - w.bw_remaining) > 0))) = false := by
    rcases hstop with h1 | h1
    · have e2 : max 0 (w.bw_remaining - size) = 0 := max_eq_left (by omega)
      rw [e2]; simp
    · by_cases h2 : w.bw_remaining ≤ size
      · have e2 : max 0 (w.bw_remaining - size) = 0 := max_eq_left (by omega)
        rw [e2]; simp
      · have e1 : max 0 (size - w.bw_remaining) = 0 := max_eq_left (by omega)
        rw [e1, isReady_nil h1]
        simp
  have hstop1 : while_cond now
      ⟨⟨rest, i.capacity⟩, o.enqueue m.m_msgptr w.throttle.m_link_latency now,
        max 0 (size - w.bw_remaining), c1, max 0 (w.bw_remaining - size)⟩ = false := by
    unfold while_cond
    simp only
    rw [hflag]
    rfl
  have hs := wakeup_while_take int_of w.throttle.m_link_latency now (v : Int)
    (2 * i.entries.length + 1)
    ⟨i, o, 0, w.throttle.m_message_counters, w.bw_remaining⟩ m rest size c1 rfl he hm hbw
    hslot hsize hc hstop1
  rw [wakeup_vnet_eval int_of now w v o i 0 _ ho hi hu (le_refl 0) hs]
  simp only
  rw [hflag]
  rfl

/-- The visit of a virtual network that pays units of the message under way and then
stops, either because the units take all the bandwidth or because nothing else
waits. -/
theorem wakeup_vnet_pay (int_of : Nat → Int) (now : Int) (w : WakeupState) (v : Nat)
    (o i : MessageBuffer) (u : Int)
    (ho : w.throttle.m_out[v]? = some o) (hi : w.throttle.m_in[v]? = some i)
    (hu : w.throttle.m_units_remaining[v]? = some u) (hu0 : 0 < u)
    (hbw : 0 < w.bw_remaining) (hslot : o.areNSlotsAvailable 1 = true)
    (hstop : w.bw_remaining ≤ u ∨ i.entries = []) :
    wakeup_vnet int_of now w (v : Int) =
      .ok ⟨{ w.throttle with
              m_units_remaining := w.throttle.m_units_remaining.set v
                (max 0 (u - w.bw_remaining)) },
            max 0 (w.bw_remaining - u), w.schedule_wakeup⟩ := by
  have hflag : (decide (max 0 (w.bw_remaining - u) > 0)
      && (i.isReady now || decide (max 0 (u - w.bw_remaining) > 0))) = false := by
    rcases hstop with h1 | h1
    · have e2 : max 0 (w.bw_remaining - u) = 0 := max_eq_left (by omega)
      rw [e2]; simp
    · by_cases h2 : w.bw_remaining ≤ u
      · have e2 : max 0 (w.bw_remaining - u) = 0 := max_eq_left (by omega)
        rw [e2]; simp
      · have e1 : max 0 (u - w.bw_remaining) = 0 := max_eq_left (by omega)
        rw [e1, isReady_nil h1]
        simp
  have hstop1 : while_cond now
      { (⟨i, o, u, w.throttle.m_message_counters, w.bw_remaining⟩ : VnetSlot) with
        m_units_remaining := max 0 (u - w.bw_remaining)
        bw_remaining := max 0 (w.bw_remaining - u) } = false := by
    unfold while_cond
    simp only
    rw [hflag]
    rfl
  have hs := wakeup_while_pay int_of w.throttle.m_link_latency now (v : Int)
    (2 * i.entries.length + 1)
    ⟨i, o, u, w.throttle.m_message_counters, w.bw_remaining⟩ hu0 hbw hslot hstop1
  rw [wakeup_vnet_eval int_of now w v o i u _ ho hi hu (le_of_lt hu0) hs]
  simp only
  rw [hflag, set_getElem?_self _ _ _ hi, set_getElem?_self _ _ _ ho]
  rfl

/-- The order in which a throttle with one virtual network visits it. -/
theorem vnet_order_one (t : Throttle) (hV : t.m_vnets = 1) :
    vnet_order t = [((0 : Nat) : Int)] := by
  rw [vnet_order_eq t 1 (by rw [hV]; rfl)]
  split <;> rfl

/-! ### Wakeups of a throttle with one virtual network -/

/-- The state a wakeup returns is well-formed if the state it started from was. -/
theorem wakeup_wellFormed {int_of : Nat → Int} {bw : Int} {threshold : ℚ} {now : Int}
    {NUM : Nat} {t t1 : Throttle} {scheduled : Bool} (hw : WellFormed NUM t)
    (h : wakeup int_of bw threshold now t = .ok (t1, scheduled)) : WellFormed NUM t1 := by
  obtain ⟨hbw, _⟩ := wakeup_ok h
  obtain ⟨t2, s2, h2, hw2⟩ := wakeup_total int_of bw threshold now NUM t hw hbw
  rw [h] at h2
  simp only [Except.ok.injEq, Prod.mk.injEq] at h2
  rw [h2.1]
  exact hw2

/-- A wakeup that starts the head message of the only virtual network and then stops. -/
theorem wakeup_single_take (int_of : Nat → Int) (bw : Int) (threshold : ℚ) (now : Int)
    (NUM : Nat) (t : Throttle) (i o : MessageBuffer) (m : MessageBufferNode)
    (rest : List MessageBufferNode) (size : Int)
    (hw : WellFormed NUM t) (hbw : 0 < bw) (hV : t.m_vnets = 1)
    (hin : t.m_in = [i]) (hout : t.m_out = [o]) (hun : t.m_units_remaining = [0])
    (he : i.entries = m :: rest) (hm : m.m_time ≤ now)
    (hslot : o.areNSlotsAvailable 1 = true)
    (hsize : network_message_to_size int_of (some m.m_msgptr) = .ok size)
    (hstop : bw ≤ size ∨ rest = []) :
    ∃ t1 : Throttle,
      wakeup int_of bw threshold now t = .ok (t1, decide (bw ≤ size)) ∧
      WellFormed NUM t1 ∧ t1.m_vnets = 1 ∧ t1.m_link_latency = t.m_link_latency ∧
      t1.m_in = [⟨rest, i.capacity⟩] ∧
      t1.m_out = [o.enqueue m.m_msgptr t.m_link_latency now] ∧
      t1.m_units_remaining = [max 0 (size - bw)] := by
  obtain ⟨_, _, _, _, _, hcl, hcr, htag⟩ := hw
  have hV1 : t.m_vnets.toNat = 1 := by rw [hV]; rfl
  have htag0 : m.m_msgptr.m_MessageSize < NUM :=
    htag i (by rw [hin]; simp) m (by rw [he]; simp)
  obtain ⟨c1, hc1, _, _⟩ := @count_message_total NUM t.m_vnets.toNat
    t.m_message_counters m.m_msgptr.m_MessageSize ((0 : Nat) : Int) hcl hcr htag0
    (by decide) (by rw [hV1]; decide)
  have hv := wakeup_vnet_take int_of now
    ⟨{ t with m_wakeups_wo_switch := (priority t).wakeups_wo_switch }, bw, false⟩ 0
    o i m rest size c1 (by simp [hout]) (by simp [hin]) (by simp [hun]) he hm hbw hslot
    hsize hstop hc1
  simp only [hin, hout, hun, List.set_cons_zero] at hv
  have hl : wakeup_locals int_of bw now t = .ok
      ⟨{ t with
        m_wakeups_wo_switch := (priority t).wakeups_wo_switch
        m_in := [⟨rest, i.capacity⟩]
        m_out := [o.enqueue m.m_msgptr t.m_link_latency now]
        m_units_remaining := [max 0 (size - bw)]
        m_message_counters := c1 }, max 0 (bw - size), false⟩ := by
    unfold wakeup_locals
    rw [vnet_order_one t hV]
    simp only [wakeup_for, hin, hout, hun]
    rw [hv]
  obtain ⟨t1, hwk, _, q2, q3, q4, _, q6, q7⟩ :=
    wakeup_of_locals int_of bw threshold now t _ hbw hl
  simp only at hwk q2 q3 q4 q6 q7
  have hflag : (!(decide (max 0 (bw - size) > 0) && !false)) = decide (bw ≤ size) := by
    by_cases h2 : bw ≤ size
    · have e2 : max 0 (bw - size) = 0 := max_eq_left (by omega)
      rw [e2]; simp [h2]
    · have e2 : max 0 (bw - size) = bw - size := max_eq_right (by omega)
      have : bw - size > 0 := by omega
      rw [e2]; simp [h2, this]
  rw [hflag] at hwk
  exact ⟨t1, hwk, wakeup_wellFormed ⟨by assumption, by assumption, by assumption,
    by assumption, by assumption, hcl, hcr, htag⟩ hwk, q6.trans hV, q7, q2, q3, q4⟩

/-- A wakeup that pays units of the message under way on the only virtual network and
then stops. -/
theorem wakeup_single_pay (int_of : Nat → Int) (bw : Int) (threshold : ℚ) (now : Int)
    (NUM : Nat) (t : Throttle) (i o : MessageBuffer) (u : Int)
    (hw : WellFormed NUM t) (hbw : 0 < bw) (hV : t.m_vnets = 1)
    (hin : t.m_in = [i]) (hout : t.m_out = [o]) (hun : t.m_units_remaining = [u])
    (hu0 : 0 < u) (hslot : o.areNSlotsAvailable 1 = true)
    (hstop : bw ≤ u ∨ i.entries = []) :
    ∃ t1 : Throttle,
      wakeup int_of bw threshold now t = .ok (t1, decide (bw ≤ u)) ∧
      WellFormed NUM t1 ∧ t1.m_vnets = 1 ∧ t1.m_link_latency = t.m_link_latency ∧
      t1.m_in = [i] ∧ t1.m_out = [o] ∧
      t1.m_units_remaining = [max 0 (u - bw)] := by
  have hv := wakeup_vnet_pay int_of now
    ⟨{ t with m_wakeups_wo_switch := (priority t).wakeups_wo_switch }, bw, false⟩ 0
    o i u (by simp [hout]) (by simp [hin]) (by simp [hun]) hu0 hbw hslot hstop
  simp only [hun, List.set_cons_zero] at hv
  have hl : wakeup_locals int_of bw now t = .ok
      ⟨{ t with
        m_wakeups_wo_switch := (priority t).wakeups_wo_switch
        m_units_remaining := [max 0 (u - bw)] }, max 0 (bw - u), false⟩ := by
    unfold wakeup_locals
    rw [vnet_order_one t hV]
    simp only [wakeup_for, hun]
    rw [hv]
  obtain ⟨t1, hwk, _, q2, q3, q4, _, q6, q7⟩ :=
    wakeup_of_locals int_of bw threshold now t _ hbw hl
  simp only at hwk q2 q3 q4 q6 q7
  have hflag : (!(decide (max 0 (bw - u) > 0) && !false)) = decide (bw ≤ u) := by
    by_cases h2 : bw ≤ u
    · have e2 : max 0 (bw - u) = 0 := max_eq_left (by omega)
      rw [e2]; simp [h2]
    · have e2 : max 0 (bw - u) = bw - u := max_eq_right (by omega)
      have : bw - u > 0 := by omega
      rw [e2]; simp [h2, this]
  rw [hflag] at hwk
  exact ⟨t1, hwk, wakeup_wellFormed hw hwk, q6.trans hV, q7, q2.trans hin, q3.trans hout,
    q4⟩

/-- A wakeup that finds the only virtual network with nothing to do. -/
theorem wakeup_single_idle (int_of : Nat → Int) (bw : Int) (threshold : ℚ) (now : Int)
    (NUM : Nat) (t : Throttle) (i o : MessageBuffer)
    (hw : WellFormed NUM t) (hbw : 0 < bw) (hV : t.m_vnets = 1)
    (hin : t.m_in = [i]) (hout : t.m_out = [o]) (hun : t.m_units_remaining = [0])
    (he : i.entries = []) :
    ∃ t1 : Throttle,
      wakeup int_of bw threshold now t = .ok (t1, false) ∧
      WellFormed NUM t1 ∧ t1.m_vnets = 1 ∧ t1.m_link_latency = t.m_link_latency ∧
      t1.m_in = [i] ∧ t1.m_out = [o] ∧ t1.m_units_remaining = [0] := by
  obtain ⟨t1, scheduled, h, hw1⟩ := wakeup_total int_of bw threshold now NUM t hw hbw
  obtain ⟨_, w, hfor, _, _⟩ := wakeup_ok h
  have hempty : ∀ b ∈ t.m_in, b.entries = [] := by
    intro b hb
    rw [hin] at hb
    simp only [List.mem_singleton] at hb
    rw [hb]; exact he
  have hzero : ∀ u ∈ t.m_units_remaining, u = 0 := by
    intro u hu
    rw [hun] at hu
    simpa using hu
  have hw0 := (wakeup_for_empty (vnet_order t) hfor hempty).2.2.2 hzero
  subst hw0
  obtain ⟨t2, hwk, _, q2, q3, q4, _, q6, q7⟩ :=
    wakeup_of_locals int_of bw threshold now t _ hbw hfor
  simp only at hwk q2 q3 q4 q6 q7
  have hflag : (!(decide (bw > 0) && !false)) = false := by simp [hbw]
  rw [hflag] at hwk
  exact ⟨t2, hwk, wakeup_wellFormed hw hwk, q6.trans hV, q7, q2.trans hin, q3.trans hout,
    q4.trans hun⟩

/-- Successive wakeups of a throttle with one virtual network whose queued messages
all have the size of the link bandwidth: one message moves per wakeup. -/
theorem wakeups_unit_bandwidth (int_of : Nat → Int) (bw : Int) (threshold : ℚ)
    (NUM : Nat) (n : Nat) :
    ∀ (now : Int) (t : Throttle) (i o : MessageBuffer),
      WellFormed NUM t → 0 < bw → t.m_vnets = 1 →
      t.m_in = [i] → t.m_out = [o] → t.m_units_remaining = [0] →
      (∀ m ∈ i.entries, m.m_time ≤ now ∧
        network_message_to_size int_of (some m.m_msgptr) = .ok bw) →
      o.entries.length + min n i.entries.length ≤ o.capacity →
      ∃ (t1 : Throttle) (flags : List Bool),
        wakeups int_of bw threshold n now t = .ok (t1, flags) ∧
        t1.m_in = [⟨i.entries.drop n, i.capacity⟩] ∧
        t1.m_out = [⟨o.entries ++ delivered t.m_link_latency now (i.entries.take n),
          o.capacity⟩] ∧
        t1.m_units_remaining = [0] := by
  induction n with
  | zero =>
    intro now t i o _ _ _ hin hout hun _ _
    refine ⟨t, [], rfl, ?_, ?_, hun⟩
    · rw [hin]; rfl
    · rw [hout]; simp [delivered]
  | succ n ih =>
    intro now t i o hw hbw hV hin hout hun hmsg hcap
    cases he : i.entries with
    | nil =>
      obtain ⟨t1, hwk, hw1, hV1, hlat, hin1, hout1, hun1⟩ :=
        wakeup_single_idle int_of bw threshold now NUM t i o hw hbw hV hin hout hun he
      obtain ⟨t2, flags, h2, a1, a2, a3⟩ := ih (now + 1) t1 i o hw1 hbw hV1 hin1 hout1 hun1
        (by intro m hm; rw [he] at hm; simp at hm)
        (by rw [he] at hcap ⊢; simp only [List.length_nil] at hcap ⊢; omega)
      refine ⟨t2, false :: flags, ?_, ?_, ?_, a3⟩
      · unfold wakeups
        rw [hwk]
        simp only [h2]
      · rw [a1, he]; simp
      · rw [a2, he]; simp [delivered]
    | cons m rest =>
      have hm := hmsg m (by rw [he]; simp)
      have hslot : o.areNSlotsAvailable 1 = true := by
        unfold MessageBuffer.areNSlotsAvailable
        rw [he] at hcap
        simp only [List.length_cons] at hcap
        simp only [decide_eq_true_eq]
        omega
      obtain ⟨t1, hwk, hw1, hV1, hlat, hin1, hout1, hun1⟩ :=
        wakeup_single_take int_of bw threshold now NUM t i o m rest bw hw hbw hV hin hout
          hun he hm.1 hslot hm.2 (Or.inl (le_refl bw))
      have hun2 : t1.m_units_remaining = [0] := by
        rw [hun1]; simp
      obtain ⟨t2, flags, h2, a1, a2, a3⟩ := ih (now + 1) t1 ⟨rest, i.capacity⟩
        (o.enqueue m.m_msgptr t.m_link_latency now) hw1 hbw hV1 hin1 hout1 hun2
        (by
          intro x hx
          have := hmsg x (by rw [he]; exact List.mem_cons_of_mem _ hx)
          exact ⟨by omega, this.2⟩)
        (by
          rw [he] at hcap
          simp only [MessageBuffer.enqueue, List.length_append, List.length_cons,
            List.length_nil] at hcap ⊢
          omega)
      refine ⟨t2, decide (bw ≤ bw) :: flags, ?_, ?_, ?_, a3⟩
      · unfold wakeups
        rw [hwk]
        simp only [h2]
      · rw [a1]; simp
      · rw [a2, hlat]
        simp [MessageBuffer.enqueue, delivered]

theorem delivered_length (link_latency : Int) (l : List MessageBufferNode) :
    ∀ now : Int, (delivered link_latency now l).length = l.length := by
  induction l with
  | nil => intro now; rfl
  | cons n ns ih => intro now; simp [delivered, ih]

/-- Wakeups one after the other: first `a` of them, then `b` more. -/
theorem wakeups_append (int_of : Nat → Int) (bw : Int) (threshold : ℚ) (a b : Nat) :
    ∀ (now : Int) (t t1 t2 : Throttle) (f1 f2 : List Bool),
      wakeups int_of bw threshold a now t = .ok (t1, f1) →
      wakeups int_of bw threshold b (now + a) t1 = .ok (t2, f2) →
      wakeups int_of bw threshold (a + b) now t = .ok (t2, f1 ++ f2) := by
  induction a with
  | zero =>
    intro now t t1 t2 f1 f2 h1 h2
    simp only [wakeups, Except.ok.injEq, Prod.mk.injEq] at h1
    obtain ⟨rfl, rfl⟩ := h1
    simpa using h2
  | succ a ih =>
    intro now t t1 t2 f1 f2 h1 h2
    unfold wakeups at h1
    split at h1
    · simp at h1
    · rename_i t3 s3 h3
      split at h1
      · simp at h1
      · rename_i t4 f4 h4
        simp only [Except.ok.injEq, Prod.mk.injEq] at h1
        obtain ⟨rfl, rfl⟩ := h1
        have h5 := ih (now + 1) t3 t4 t2 f4 f2 h4
          (by
            have e : now + 1 + (a : Int) = now + ((a + 1 : Nat) : Int) := by
              push_cast; ring
            rw [e]; exact h2)
        have e2 : a + 1 + b = (a + b) + 1 := by omega
        rw [e2]
        unfold wakeups
        rw [h3]
        simp only [h5, List.cons_append]

/-- Successive wakeups that only pay units of the message under way: each takes `bw`
units and schedules the next. -/
theorem wakeups_pay (int_of : Nat → Int) (bw : Int) (threshold : ℚ) (NUM : Nat)
    (i o : MessageBuffer) (j : Nat) :
    ∀ (now : Int) (t : Throttle) (u : Int),
      WellFormed NUM t → 0 < bw → t.m_vnets = 1 →
      t.m_in = [i] → t.m_out = [o] → t.m_units_remaining = [u] →
      (j : Int) * bw < u → o.areNSlotsAvailable 1 = true →
      ∃ t1 : Throttle,
        wakeups int_of bw threshold j now t = .ok (t1, List.replicate j true) ∧
        WellFormed NUM t1 ∧ t1.m_vnets = 1 ∧ t1.m_link_latency = t.m_link_latency ∧
        t1.m_in = [i] ∧ t1.m_out = [o] ∧ t1.m_units_remaining = [u - (j : Int) * bw] := by
  induction j with
  | zero =>
    intro now t u hw _ hV hin hout hun _ _
    exact ⟨t, rfl, hw, hV, rfl, hin, hout, by rw [hun]; simp⟩
  | succ j ih =>
    intro now t u hw hbw hV hin hout hun hlt hslot
    have hj : (0 : Int) ≤ (j : Int) * bw :=
      mul_nonneg (Int.ofNat_nonneg j) (le_of_lt hbw)
    have hcast : ((j + 1 : Nat) : Int) * bw = (j : Int) * bw + bw := by
      push_cast; ring
    rw [hcast] at hlt
    obtain ⟨t1, hwk, hw1, hV1, hlat1, hin1, hout1, hun1⟩ :=
      wakeup_single_pay int_of bw threshold now NUM t i o u hw hbw hV hin hout hun
        (by omega) hslot (Or.inl (by omega))
    have e1 : max 0 (u - bw) = u - bw := max_eq_right (by omega)
    rw [e1] at hun1
    have hflag : decide (bw ≤ u) = true := by
      simp only [decide_eq_true_eq]; omega
    rw [hflag] at hwk
    obtain ⟨t2, h2, hw2, hV2, hlat2, hin2, hout2, hun2⟩ :=
      ih (now + 1) t1 (u - bw) hw1 hbw hV1 hin1 hout1 hun1 (by omega) hslot
    refine ⟨t2, ?_, hw2, hV2, hlat2.trans hlat1, hin2, hout2, ?_⟩
    · unfold wakeups
      rw [hwk]
      simp only [h2, List.replicate_succ]
    · rw [hun2, hcast]
      congr 1
      omega

/-- The first `j` wakeups of a throttle with one virtual network on a message of more
than `j * bw` units: the first starts the message, all of them use the whole bandwidth
and schedule the next, and the rest of the input buffer waits. -/
theorem wakeups_occupancy (int_of : Nat → Int) (bw : Int) (threshold : ℚ) (NUM : Nat)
    (j : Nat) (now : Int) (t : Throttle) (i o : MessageBuffer) (m : MessageBufferNode)
    (rest : List MessageBufferNode) (s : Int)
    (hw : WellFormed NUM t) (hbw : 0 < bw) (hV : t.m_vnets = 1)
    (hin : t.m_in = [i]) (hout : t.m_out = [o]) (hun : t.m_units_remaining = [0])
    (he : i.entries = m :: rest) (hm : m.m_time ≤ now)
    (hsize : network_message_to_size int_of (some m.m_msgptr) = .ok s)
    (hcap : o.entries.length + 2 ≤ o.capacity)
    (hj : 1 ≤ j) (hlt : (j : Int) * bw < s) :
    ∃ t1 : Throttle,
      wakeups int_of bw threshold j now t = .ok (t1, List.replicate j true) ∧
      WellFormed NUM t1 ∧ t1.m_vnets = 1 ∧ t1.m_link_latency = t.m_link_latency ∧
      t1.m_in = [⟨rest, i.capacity⟩] ∧
      t1.m_out = [o.enqueue m.m_msgptr t.m_link_latency now] ∧
      t1.m_units_remaining = [s - (j : Int) * bw] := by
  obtain ⟨j, rfl⟩ : ∃ j1, j = j1 + 1 := ⟨j - 1, by omega⟩
  have hj0 : (0 : Int) ≤ (j : Int) * bw :=
    mul_nonneg (Int.ofNat_nonneg j) (le_of_lt hbw)
  have hcast : ((j + 1 : Nat) : Int) * bw = (j : Int) * bw + bw := by
    push_cast; ring
  rw [hcast] at hlt
  have hslot : o.areNSlotsAvailable 1 = true := by
    unfold MessageBuffer.areNSlotsAvailable
    simp only [decide_eq_true_eq]
    omega
  have hslot1 : (o.enqueue m.m_msgptr t.m_link_latency now).areNSlotsAvailable 1 = true := by
    unfold MessageBuffer.areNSlotsAvailable MessageBuffer.enqueue
    simp only [List.length_append, List.length_cons, List.length_nil, decide_eq_true_eq]
    omega
  obtain ⟨t1, hwk, hw1, hV1, hlat1, hin1, hout1, hun1⟩ :=
    wakeup_single_take int_of bw threshold now NUM t i o m rest s hw hbw hV hin hout hun
      he hm hslot hsize (Or.inl (by omega))
  have e1 : max 0 (s - bw) = s - bw := max_eq_right (by omega)
  rw [e1] at hun1
  have hflag : decide (bw ≤ s) = true := by
    simp only [decide_eq_true_eq]; omega
  rw [hflag] at hwk
  obtain ⟨t2, h2, hw2, hV2, hlat2, hin2, hout2, hun2⟩ :=
    wakeups_pay int_of bw threshold NUM ⟨rest, i.capacity⟩
      (o.enqueue m.m_msgptr t.m_link_latency now) j (now + 1) t1 (s - bw) hw1 hbw hV1 hin1
      hout1 hun1 (by omega) hslot1
  refine ⟨t2, ?_, hw2, hV2, hlat2.trans hlat1, hin2, hout2, ?_⟩
  · unfold wakeups
    rw [hwk]
    simp only [h2, List.replicate_succ]
  · rw [hun2, hcast]
    congr 1
    omega

/-- The number `(s + bw - 1) / bw` is the least `k` with `s ≤ k * bw`. -/
theorem ceil_div_bounds (s bw : Int) (k : Nat) (hs : 0 < s) (hbw : 0 < bw)
    (hk : (k : Int) = (s + bw - 1) / bw) :
    1 ≤ k ∧ ((k : Int) - 1) * bw < s ∧ s ≤ (k : Int) * bw := by
  have h1 := Int.ediv_add_emod (s + bw - 1) bw
  have h2 := Int.emod_nonneg (s + bw - 1) (ne_of_gt hbw)
  have h3 := Int.emod_lt_of_pos (s + bw - 1) hbw
  rw [← hk] at h1
  have h4 : ((k : Int) - 1) * bw = bw * (k : Int) - bw := by ring
  have h5 : (k : Int) * bw = bw * (k : Int) := by ring
  refine ⟨?_, by rw [h4]; omega, by rw [h5]; omega⟩
  rcases Nat.eq_zero_or_pos k with h0 | h0
  · subst h0
    simp only [Nat.cast_zero, mul_zero, zero_add] at h1
    omega
  · exact h0

/-! ### The predictor loop -/

/-- The predictor loop is a number of iterations of its body: as many as there are
sample intervals to catch up with. -/
theorem bash_loop_iterate (bw : Int) (threshold : ℚ) (now : Int) (fuel : Nat) :
    ∀ t : Throttle, ∃ k : Nat, k ≤ fuel ∧
      bash_loop bw threshold now fuel t = Nat.iterate (bash_step bw threshold) k t ∧
      (∀ j : Nat, j < k →
        now - (t.m_last_bandwidth_sample + ADJUST_INTERVAL * (j : Int)) > ADJUST_INTERVAL) ∧
      (Nat.iterate (bash_step bw threshold) k t).m_last_bandwidth_sample
        = t.m_last_bandwidth_sample + ADJUST_INTERVAL * (k : Int) ∧
      (0 < k → (Nat.iterate (bash_step bw threshold) k t).m_bandwidth_since_sample = 0) := by
  induction fuel with
  | zero =>
    intro t
    exact ⟨0, le_refl 0, rfl, fun j hj => absurd hj (Nat.not_lt_zero j),
      by simp, fun h => absurd h (Nat.lt_irrefl 0)⟩
  | succ n ih =>
    intro t
    unfold bash_loop
    split
    · rename_i hc
      obtain ⟨k, hk, h1, h2, h3, h4⟩ := ih (bash_step bw threshold t)
      have hlast : (bash_step bw threshold t).m_last_bandwidth_sample
          = t.m_last_bandwidth_sample + ADJUST_INTERVAL := rfl
      refine ⟨k + 1, by omega, ?_, ?_, ?_, ?_⟩
      · rw [Function.iterate_succ_apply]; exact h1
      · intro j hj
        cases j with
        | zero => simpa using hc
        | succ j =>
          have := h2 j (by omega)
          rw [hlast] at this
          simp only [ADJUST_INTERVAL] at this ⊢
          push_cast
          omega
      · rw [Function.iterate_succ_apply, h3, hlast]
        simp only [ADJUST_INTERVAL]
        push_cast
        omega
      · intro _
        rw [Function.iterate_succ_apply]
        rcases Nat.eq_zero_or_pos k with h0 | h0
        · subst h0; rfl
        · exact h4 h0
    · exact ⟨0, Nat.zero_le _, rfl, fun j hj => absurd hj (Nat.not_lt_zero j),
        by simp, fun h => absurd h (Nat.lt_irrefl 0)⟩

/-- The predictor loop does nothing while no more than `ADJUST_INTERVAL` cycles have
passed since the last sample. -/
theorem bash_loop_none (bw : Int) (threshold : ℚ) (now : Int) (fuel : Nat) (t : Throttle)
    (h : now - t.m_last_bandwidth_sample ≤ ADJUST_INTERVAL) :
    bash_loop bw threshold now fuel t = t := by
  cases fuel with
  | zero => rfl
  | succ n =>
    unfold bash_loop
    rw [if_neg (by omega)]

/-- The predictor loop runs once when more than one and at most two intervals have
passed since the last sample. -/
theorem bash_loop_once (bw : Int) (threshold : ℚ) (now : Int) (t : Throttle)
    (h0 : now - t.m_last_bandwidth_sample > ADJUST_INTERVAL)
    (h1 : now - t.m_last_bandwidth_sample ≤ 2 * ADJUST_INTERVAL) :
    bash_loop bw threshold now (bash_fuel now t) t = bash_step bw threshold t := by
  have hf : bash_fuel now t = 0 + 1 ∨ bash_fuel now t = 1 + 1 := by
    unfold bash_fuel
    simp only [ADJUST_INTERVAL] at h0 h1 ⊢
    omega
  have hlast : (bash_step bw threshold t).m_last_bandwidth_sample
      = t.m_last_bandwidth_sample + ADJUST_INTERVAL := rfl
  rcases hf with hf | hf
  · rw [hf]
    unfold bash_loop
    rw [if_pos h0]
    rfl
  · rw [hf]
    unfold bash_loop
    rw [if_pos h0]
    exact bash_loop_none bw threshold now 1 _ (by rw [hlast]; omega)


/-- One iteration of the predictor loop on a counter inside its range. -/
theorem bash_step_eq (bw : Int) (threshold : ℚ) (t : Throttle)
    (h0 : 0 ≤ t.m_bash_counter) (h1 : t.m_bash_counter ≤ HIGH_RANGE) :
    bash_step bw threshold t =
      { t with
        m_bash_counter :=
          if utilization_exceeds t.m_bandwidth_since_sample bw threshold = true
          then min HIGH_RANGE (t.m_bash_counter + 1) else max 0 (t.m_bash_counter - 1)
        m_last_bandwidth_sample := t.m_last_bandwidth_sample + ADJUST_INTERVAL
        m_bandwidth_since_sample := 0 } := by
  unfold bash_step
  simp only [HIGH_RANGE] at h1 ⊢
  split
  · have e : max 0 (min 256 (t.m_bash_counter + 1)) = min 256 (t.m_bash_counter + 1) :=
      max_eq_right (by omega)
    rw [e]
  · have e : min 256 (t.m_bash_counter - 1) = t.m_bash_counter - 1 :=
      min_eq_right (by omega)
    rw [e]

/-- The sample of an interval in which every cycle used the whole bandwidth exceeds
the threshold one half, when the total of the interval fits an `int`. -/
theorem utilization_exceeds_full (bw : Int) (hbw : 0 < bw)
    (hfit : ADJUST_INTERVAL * bw < 2147483648) :
    utilization_exceeds (ADJUST_INTERVAL * bw) bw (1 / 2) = true := by
  have hd : sample_denominator bw = ADJUST_INTERVAL * bw := by
    unfold sample_denominator wrap32
    simp only [ADJUST_INTERVAL] at hfit ⊢
    omega
  have hne : ADJUST_INTERVAL * bw ≠ 0 := by
    simp only [ADJUST_INTERVAL]; omega
  unfold utilization_exceeds
  rw [hd, if_neg hne]
  have hq : ((ADJUST_INTERVAL * bw : Int) : ℚ) ≠ 0 := by exact_mod_cast hne
  rw [div_self hq, round_double_one]
  simp only [decide_eq_true_eq]
  norm_num

/-- The sample of an interval in which no bandwidth was used does not exceed a
threshold that is not negative. -/
theorem utilization_exceeds_idle (bw : Int) (threshold : ℚ) (ht : 0 ≤ threshold) :
    utilization_exceeds 0 bw threshold = false := by
  unfold utilization_exceeds
  split
  · simp
  · simp only [Int.cast_zero, zero_div, round_double_zero, gt_iff_lt,
      decide_eq_false_iff_not, not_lt]
    exact ht

/-! ### The sample of the predictor -/

/-- The test of the predictor loop compares the value `utilization`, rounded to a
`double`, with the threshold. -/
theorem utilization_exceeds_eq (bandwidth_since_sample bw : Int) (threshold : ℚ) :
    utilization_exceeds bandwidth_since_sample bw threshold =
      match utilization bandwidth_since_sample bw with
      | none => decide (0 < bandwidth_since_sample)
      | some u => decide (round_double u > threshold) := by
  unfold utilization_exceeds utilization
  split <;> rfl

/-- While the product `50000 * bw` fits an `int`, the denominator of the sample is
that product and the quotient the predictor rounds is the one of the specification. -/
theorem utilization_exact (bandwidth_since_sample bw : Int) (hbw : 0 < bw)
    (hfit : bw ≤ 42949) :
    sample_denominator bw = 50000 * bw ∧
    utilization bandwidth_since_sample bw
      = some ((bandwidth_since_sample : ℚ) / ((50000 * bw : Int) : ℚ)) := by
  have hd : sample_denominator bw = 50000 * bw := by
    unfold sample_denominator wrap32
    simp only [ADJUST_INTERVAL]
    omega
  refine ⟨hd, ?_⟩
  unfold utilization
  rw [hd, if_neg (by omega)]

/-! ### Conservation of bandwidth -/

theorem node_units_eq (int_of : Nat → Int) (n : MessageBufferNode) :
    network_message_to_size int_of (some n.m_msgptr) = .ok (node_units int_of n) := by
  unfold node_units
  rw [network_message_to_size_some]

theorem node_units_nonneg (int_of : Nat → Int) (h : SizesNonneg int_of)
    (n : MessageBufferNode) : 0 ≤ node_units int_of n :=
  h n.m_msgptr _ (node_units_eq int_of n)

/-- The accounting step takes `min(units_remaining, bw_remaining)` from both
quantities, which leaves one of them at 0. -/
theorem spend_bandwidth_min (s : VnetSlot) :
    (spend_bandwidth s).m_units_remaining
      = s.m_units_remaining - min s.m_units_remaining s.bw_remaining ∧
    (spend_bandwidth s).bw_remaining
      = s.bw_remaining - min s.m_units_remaining s.bw_remaining ∧
    ((spend_bandwidth s).m_units_remaining = 0 ∨ (spend_bandwidth s).bw_remaining = 0) := by
  simp only [spend_bandwidth]
  omega

/-- Starting a message moves its size from the input buffer to `units_remaining`. -/
theorem move_message_balance {int_of : Nat → Int} {link_latency now vnet : Int}
    {s s1 : VnetSlot} (h : move_message int_of link_latency now vnet s = .ok s1) :
    s1.bw_remaining = s.bw_remaining ∧
    s1.m_units_remaining + queued_units int_of s1.m_in
      = s.m_units_remaining + queued_units int_of s.m_in ∧
    (SizesNonneg int_of → 0 ≤ s.m_units_remaining → 0 ≤ s1.m_units_remaining) := by
  unfold move_message at h
  split at h
  · rename_i hcond
    have hready := hcond.2
    unfold MessageBuffer.isReady at hready
    split at hready
    · simp at hready
    · rename_i n rest hent
      have hpeek : s.m_in.peekMsgPtr = some n.m_msgptr := by
        unfold MessageBuffer.peekMsgPtr; rw [hent]
      rw [hpeek] at h
      simp only [node_units_eq] at h
      split at h
      · simp at h
      · simp only [Except.ok.injEq] at h
        subst h
        refine ⟨rfl, ?_, ?_⟩
        · simp only [queued_units, MessageBuffer.pop, hent, List.tail_cons, List.map_cons,
            List.sum_cons]
          omega
        · intro hn hu
          have := node_units_nonneg int_of hn n
          simp only
          omega
  · simp only [Except.ok.injEq] at h
    subst h
    exact ⟨rfl, rfl, fun _ hu => hu⟩

theorem while_body_balance {int_of : Nat → Int} {link_latency now vnet : Int}
    {s s1 : VnetSlot} (h : while_body int_of link_latency now vnet s = .ok s1) :
    s1.bw_remaining - s1.m_units_remaining - queued_units int_of s1.m_in
      = s.bw_remaining - s.m_units_remaining - queued_units int_of s.m_in ∧
    (SizesNonneg int_of → 0 ≤ s.m_units_remaining → 0 ≤ s.bw_remaining →
      0 ≤ s1.m_units_remaining ∧ 0 ≤ s1.bw_remaining ∧
      s1.bw_remaining ≤ s.bw_remaining) := by
  unfold while_body at h
  split at h
  · simp at h
  · rename_i s2 hm
    simp only [Except.ok.injEq] at h
    subst h
    obtain ⟨a1, a2, a3⟩ := move_message_balance hm
    obtain ⟨b1, b2, _⟩ := spend_bandwidth_min s2
    have hin : (spend_bandwidth s2).m_in = s2.m_in := rfl
    rw [hin, b1, b2]
    constructor
    · omega
    · intro hn hu hb
      have := a3 hn hu
      omega

theorem wakeup_while_balance (int_of : Nat → Int) (link_latency now vnet : Int)
    (fuel : Nat) :
    ∀ s s1 : VnetSlot, wakeup_while int_of link_latency now vnet fuel s = .ok s1 →
      s1.bw_remaining - s1.m_units_remaining - queued_units int_of s1.m_in
        = s.bw_remaining - s.m_units_remaining - queued_units int_of s.m_in ∧
      (SizesNonneg int_of → 0 ≤ s.m_units_remaining → 0 ≤ s.bw_remaining →
        0 ≤ s1.m_units_remaining ∧ 0 ≤ s1.bw_remaining ∧
        s1.bw_remaining ≤ s.bw_remaining) := by
  induction fuel with
  | zero =>
    intro s s1 h
    simp only [wakeup_while, Except.ok.injEq] at h
    subst h
    exact ⟨rfl, fun _ hu hb => ⟨hu, hb, le_refl _⟩⟩
  | succ k ih =>
    intro s s1 h
    unfold wakeup_while at h
    split at h
    · split at h
      · simp at h
      · rename_i s2 hb
        obtain ⟨a1, a2⟩ := while_body_balance hb
        obtain ⟨b1, b2⟩ := ih s2 s1 h
        constructor
        · omega
        · intro hn hu hbw
          obtain ⟨c1, c2, c3⟩ := a2 hn hu hbw
          obtain ⟨d1, d2, d3⟩ := b2 hn c1 c2
          exact ⟨d1, d2, by omega⟩
    · simp only [Except.ok.injEq] at h
      subst h
      exact ⟨rfl, fun _ hu hb => ⟨hu, hb, le_refl _⟩⟩

/-- The visit of a virtual network keeps the balance of the bandwidth left, the units
that remain and the sizes of the queued messages. -/
theorem wakeup_vnet_balance {int_of : Nat → Int} {now : Int} {w w1 : WakeupState}
    {vnet : Int} (h : wakeup_vnet int_of now w vnet = .ok w1) :
    w1.bw_remaining - w1.throttle.m_units_remaining.sum
        - (w1.throttle.m_in.map (queued_units int_of)).sum
      = w.bw_remaining - w.throttle.m_units_remaining.sum
        - (w.throttle.m_in.map (queued_units int_of)).sum ∧
    (SizesNonneg int_of → 0 ≤ w.bw_remaining →
      0 ≤ w1.bw_remaining ∧ w1.bw_remaining ≤ w.bw_remaining) := by
  obtain ⟨o, i, u, s, _, _, hi, hu, hu0, hs, ht, hbw, _⟩ := wakeup_vnet_ok h
  obtain ⟨a1, a2⟩ := wakeup_while_balance _ _ _ _ _ _ _ hs
  simp only at a1 a2
  rw [ht, hbw]
  simp only
  rw [sum_set _ hu, sum_map_set (queued_units int_of) _ _ _ _ hi]
  constructor
  · omega
  · intro hn hb
    obtain ⟨_, c2, c3⟩ := a2 hn hu0 hb
    exact ⟨c2, c3⟩

theorem wakeup_for_balance {int_of : Nat → Int} {now : Int} (order : List Int) :
    ∀ {w w1 : WakeupState}, wakeup_for int_of now order w = .ok w1 →
      w1.bw_remaining - w1.throttle.m_units_remaining.sum
          - (w1.throttle.m_in.map (queued_units int_of)).sum
        = w.bw_remaining - w.throttle.m_units_remaining.sum
          - (w.throttle.m_in.map (queued_units int_of)).sum ∧
      (SizesNonneg int_of → 0 ≤ w.bw_remaining →
        0 ≤ w1.bw_remaining ∧ w1.bw_remaining ≤ w.bw_remaining) := by
  induction order with
  | nil =>
    intro w w1 h
    simp only [wakeup_for, Except.ok.injEq] at h
    subst h
    exact ⟨rfl, fun _ hb => ⟨hb, le_refl _⟩⟩
  | cons x xs ih =>
    intro w w1 h
    unfold wakeup_for at h
    split at h
    · simp at h
    · rename_i w2 h2
      obtain ⟨a1, a2⟩ := wakeup_vnet_balance h2
      obtain ⟨b1, b2⟩ := ih h
      constructor
      · omega
      · intro hn hb
        obtain ⟨c1, c2⟩ := a2 hn hb
        obtain ⟨d1, d2⟩ := b2 hn c1
        exact ⟨d1, by omega⟩

/-- The total size of the messages that left `in[v]` is the difference of what was
queued before and what is queued after. -/
theorem units_moved_eq (int_of : Nat → Int) {now arrival : Int} {t t1 : Throttle}
    (hm : MovedAll now arrival t t1) (hlen : t.m_out.length = t.m_in.length) (v : Nat) :
    units_moved int_of t t1 v
      = (t.m_in.map (queued_units int_of)).getD v 0
        - (t1.m_in.map (queued_units int_of)).getD v 0 := by
  obtain ⟨hl1, _, hall⟩ := hm
  unfold units_moved
  cases hi : t.m_in[v]? with
  | none =>
    have hv : t.m_in.length ≤ v := by
      by_contra hc
      rw [List.getElem?_eq_getElem (by omega)] at hi
      simp at hi
    have hi1 : t1.m_in[v]? = none := List.getElem?_eq_none (by omega)
    simp [List.getD_eq_getElem?_getD, List.getElem?_map, hi, hi1]
  | some i =>
    have hv : v < t.m_in.length := by
      by_contra hc
      rw [List.getElem?_eq_none (by omega)] at hi
      simp at hi
    have ho : t.m_out[v]? = some (t.m_out[v]) := List.getElem?_eq_getElem (by omega)
    obtain ⟨i1, o1, moved, hi1, _, hmv, _, _, _, _⟩ := hall v i _ hi ho
    rw [hi1]
    simp only [List.getD_eq_getElem?_getD, List.getElem?_map, hi, hi1, Option.map_some',
      Option.getD_some]
    have htake : moved_nodes i i1 = moved := by
      unfold moved_nodes
      rw [hmv]
      simp
    rw [htake]
    unfold queued_units
    rw [hmv]
    simp only [List.map_append, List.sum_append]
    omega

/-- Conservation of bandwidth in a wakeup of a well-formed throttle. -/
theorem wakeup_conservation (int_of : Nat → Int) (bw : Int) (threshold : ℚ) (now : Int)
    (NUM : Nat) (t : Throttle) (hw : WellFormed NUM t) (hbw : 0 < bw)
    (hn : SizesNonneg int_of) :
    ∃ (t1 : Throttle) (scheduled : Bool) (w : WakeupState),
      wakeup int_of bw threshold now t = .ok (t1, scheduled) ∧
      wakeup_locals int_of bw now t = .ok w ∧
      0 ≤ w.bw_remaining ∧ w.bw_remaining ≤ bw ∧
      bw - w.bw_remaining
        = ((List.range t.m_vnets.toNat).map (units_paid int_of t t1)).sum := by
  obtain ⟨t1, scheduled, h, hw1⟩ := wakeup_total int_of bw threshold now NUM t hw hbw
  obtain ⟨_, w, hfor, _, _⟩ := wakeup_ok h
  obtain ⟨t2, hwk, _, q2, _, q4, _, q6, _⟩ :=
    wakeup_of_locals int_of bw threshold now t w hbw hfor
  rw [h] at hwk
  simp only [Except.ok.injEq, Prod.mk.injEq] at hwk
  obtain ⟨ht12, _⟩ := hwk
  subst ht12
  obtain ⟨a1, a2⟩ := @wakeup_for_balance int_of now (vnet_order t) _ _ hfor
  obtain ⟨b1, b2⟩ := a2 hn (le_of_lt hbw)
  simp only at a1 b2
  rw [← q2, ← q4] at a1
  have hmoved := wakeup_for_movedAll (vnet_order t) hfor
  obtain ⟨_, hin, hout, hun, _, _, _, _⟩ := hw
  obtain ⟨_, hin1, _, hun1, _, _, _, _⟩ := hw1
  have hV : t1.m_vnets = t.m_vnets := q6.trans (wakeup_for_sameControl _ hfor).2.2.1
  rw [hV] at hin1 hun1
  have hum : ∀ v, units_moved int_of t t1 v
      = (t.m_in.map (queued_units int_of)).getD v 0
        - (t1.m_in.map (queued_units int_of)).getD v 0 := by
    intro v
    have := units_moved_eq int_of hmoved (hout.trans hin.symm) v
    unfold units_moved at this ⊢
    simp only at this
    rw [q2]
    exact this
  have hfun : units_paid int_of t t1 = fun v =>
      t.m_units_remaining.getD v 0
        + ((t.m_in.map (queued_units int_of)).getD v 0
            - (t1.m_in.map (queued_units int_of)).getD v 0)
        - t1.m_units_remaining.getD v 0 := by
    funext v
    unfold units_paid
    rw [hum v]
  have s1 := sum_range_getD t.m_units_remaining
  have s2 := sum_range_getD (t.m_in.map (queued_units int_of))
  have s3 := sum_range_getD (t1.m_in.map (queued_units int_of))
  have s4 := sum_range_getD t1.m_units_remaining
  rw [List.length_map, hin] at s2
  rw [List.length_map, hin1] at s3
  rw [hun] at s1
  rw [hun1] at s4
  refine ⟨t1, scheduled, w, h, hfor, b1, b2, ?_⟩
  rw [hfun, sum_map_balance, s1, s2, s3, s4]
  omega

/-- What a wakeup of a well-formed throttle adds to the accounts of the predictor: the
bandwidth used, which is the sum of the units paid off, goes to
`m_bandwidth_since_sample` before the predictor loop runs. -/
theorem wakeup_accounting (int_of : Nat → Int) (bw : Int) (threshold : ℚ) (now : Int)
    (NUM : Nat) (t : Throttle) (hw : WellFormed NUM t) (hbw : 0 < bw)
    (hn : SizesNonneg int_of) :
    ∃ (t1 t2 : Throttle) (scheduled : Bool),
      wakeup int_of bw threshold now t = .ok (t1, scheduled) ∧
      t1 = bash_loop bw threshold now (bash_fuel now t2) t2 ∧
      t2.m_bandwidth_since_sample = add_int t.m_bandwidth_since_sample
        ((List.range t.m_vnets.toNat).map (units_paid int_of t t1)).sum ∧
      t2.m_bash_counter = t.m_bash_counter ∧
      t2.m_last_bandwidth_sample = t.m_last_bandwidth_sample := by
  obtain ⟨t1, scheduled, w, h, hl, _, _, hsum⟩ :=
    wakeup_conservation int_of bw threshold now NUM t hw hbw hn
  obtain ⟨_, w2, hfor, ht1, _⟩ := wakeup_ok h
  have hww : w2 = w := by
    have : wakeup_locals int_of bw now t = .ok w2 := hfor
    rw [hl] at this
    simp only [Except.ok.injEq] at this
    exact this.symm
  subst hww
  have hsc := wakeup_for_sameControl _ hfor
  obtain ⟨_, _, _, _, _, _, c7, c8, c9, _, _, _⟩ := hsc
  simp only at c7 c8 c9
  refine ⟨t1, accounted bw w2, scheduled, h, ht1, ?_, c7, c9⟩
  rw [← hsum, ← c8]
  rfl

/-- The size table of the examples gives no negative size. -/
theorem examples_sizes_nonneg : SizesNonneg Examples.int_of := by
  intro m size h
  rw [network_message_to_size_some] at h
  simp only [Except.ok.injEq] at h
  subst h
  unfold Examples.int_of
  split <;> decide

/-! ### A link used in full for a whole sample interval -/

/-- A size table that gives every message 42949 units has no negative size. -/
theorem stream_sizes_nonneg : SizesNonneg (fun _ => 42949) := by
  intro m size h
  rw [network_message_to_size_some] at h
  simp only [Except.ok.injEq] at h
  subst h
  decide

/-- A wakeup of a throttle with one virtual network on a stream of messages of
`42949000` units, with a link bandwidth of 42949: whether it starts the message that
waits or pays for the one under way, it uses the whole bandwidth. -/
theorem wakeup_saturated (threshold : ℚ) (now : Int) (t : Throttle) (c : Nat)
    (hw : WellFormed 2 t) (hV : t.m_vnets = 1)
    (hin : t.m_in = [⟨[⟨0, Examples.message 1 0⟩], 10⟩]) (hout : t.m_out = [⟨[], 10⟩])
    (hun : t.m_units_remaining = [42949 * (c : Int)]) (hc : c < 1000) (hnow : 0 ≤ now) :
    ∃ (t1 t2 : Throttle) (c1 : Nat),
      wakeup (fun _ => 42949) 42949 threshold now t = .ok (t1, true) ∧
      t1 = bash_loop 42949 threshold now (bash_fuel now t2) t2 ∧
      t2.m_bandwidth_since_sample = add_int t.m_bandwidth_since_sample 42949 ∧
      t2.m_bash_counter = t.m_bash_counter ∧
      t2.m_last_bandwidth_sample = t.m_last_bandwidth_sample ∧
      WellFormed 2 t1 ∧ t1.m_vnets = 1 ∧ t1.m_in.length = 1 ∧ t1.m_out.length = 1 ∧
      t1.m_units_remaining = [42949 * (c1 : Int)] ∧ c1 < 1000 := by
  obtain ⟨t1, t2, scheduled, h, ht1, hbss, hcnt, hlast⟩ :=
    wakeup_accounting (fun _ => 42949) 42949 threshold now 2 t hw (by decide)
      stream_sizes_nonneg
  have hV1 : t.m_vnets.toNat = 1 := by rw [hV]; rfl
  rcases Nat.eq_zero_or_pos c with h0 | h0
  · subst h0
    obtain ⟨t3, h3, hw3, hV3, _, hin3, hout3, hun3⟩ :=
      wakeup_single_take (fun _ => 42949) 42949 threshold now 2 t
        ⟨[⟨0, Examples.message 1 0⟩], 10⟩ ⟨[], 10⟩ ⟨0, Examples.message 1 0⟩ [] 42949000
        hw (by decide) hV hin hout (by rw [hun]; rfl) rfl hnow (by decide) (by decide)
        (Or.inl (by decide))
    rw [h] at h3
    simp only [Except.ok.injEq, Prod.mk.injEq] at h3
    obtain ⟨e1, e2⟩ := h3
    subst e1
    have hs : scheduled = true := by rw [e2]; decide
    subst hs
    have hpaid : ((List.range t.m_vnets.toNat).map
        (units_paid (fun _ => 42949) t t1)).sum = 42949 := by
      rw [hV1]
      simp only [List.range_succ, List.range_zero, List.nil_append, List.map_cons,
        List.map_nil, List.sum_cons, List.sum_nil, add_zero]
      unfold units_paid units_moved
      rw [hun, hun3, hin, hin3]
      decide
    rw [hpaid] at hbss
    refine ⟨t1, t2, 999, h, ht1, hbss, hcnt, hlast, hw3, hV3, by rw [hin3]; rfl,
      by rw [hout3]; rfl, ?_, by decide⟩
    rw [hun3]
    decide
  · obtain ⟨t3, h3, hw3, hV3, _, hin3, hout3, hun3⟩ :=
      wakeup_single_pay (fun _ => 42949) 42949 threshold now 2 t
        ⟨[⟨0, Examples.message 1 0⟩], 10⟩ ⟨[], 10⟩ (42949 * (c : Int))
        hw (by decide) hV hin hout hun (by omega) (by decide) (Or.inl (by omega))
    rw [h] at h3
    simp only [Except.ok.injEq, Prod.mk.injEq] at h3
    obtain ⟨e1, e2⟩ := h3
    subst e1
    have hs : scheduled = true := by
      rw [e2]; simp only [decide_eq_true_eq]; omega
    subst hs
    have e3 : max 0 (42949 * (c : Int) - 42949) = 42949 * ((c - 1 : Nat) : Int) := by
      rw [max_eq_right (by omega)]
      omega
    rw [e3] at hun3
    have hpaid : ((List.range t.m_vnets.toNat).map
        (units_paid (fun _ => 42949) t t1)).sum = 42949 := by
      rw [hV1]
      simp only [List.range_succ, List.range_zero, List.nil_append, List.map_cons,
        List.map_nil, List.sum_cons, List.sum_nil, add_zero]
      unfold units_paid units_moved
      rw [hun, hun3, hin, hin3]
      simp only [List.getD_cons_zero, List.getElem?_cons_zero, moved_nodes,
        List.length_cons, List.length_nil, Nat.sub_self, List.take_zero, List.map_nil,
        List.sum_nil]
      omega
    rw [hpaid] at hbss
    exact ⟨t1, t2, c - 1, h, ht1, hbss, hcnt, hlast, hw3, hV3, by rw [hin3]; rfl,
      by rw [hout3]; rfl, hun3, by omega⟩

/-- After `j ≤ 50000` wakeups that each used a link bandwidth of 42949 in full, a
throttle constructed at cycle 0 has accumulated `42949 * j` units and has not sampled
yet. -/
theorem saturated_run_reachable (threshold : ℚ) (j : Nat) (hj : j ≤ 50000) :
    ∃ t : Throttle,
      Reachable (fun _ => 42949) 42949 threshold j t ∧ WellFormed 2 t ∧
      t.m_vnets = 1 ∧ t.m_in.length = 1 ∧ t.m_out.length = 1 ∧
      (∃ c : Nat, t.m_units_remaining = [42949 * (c : Int)] ∧ c < 1000) ∧
      t.m_bandwidth_since_sample = 42949 * (j : Int) ∧
      t.m_bash_counter = 256 ∧ t.m_last_bandwidth_sample = 0 := by
  induction j with
  | zero =>
    refine ⟨Examples.single ⟨[], 10⟩ ⟨[], 10⟩, ?_, by decide, rfl, rfl, rfl,
      ⟨0, rfl, by decide⟩, rfl, rfl, rfl⟩
    exact Reachable.addLinks 0 Examples.fresh _ 2 false [⟨[], 10⟩] [⟨[], 10⟩]
      (Reachable.construct 0 0 1 1 0 Examples.fresh (by decide!)) (by decide!)
  | succ j ih =>
    obtain ⟨t, hr, hw, hV, hil, hol, ⟨c, hun, hc⟩, hbss, hcnt, hlast⟩ := ih (by omega)
    have hr1 := Reachable.buffers j t [⟨[⟨0, Examples.message 1 0⟩], 10⟩] [⟨[], 10⟩] hr
      (by rw [hil]; rfl) (by rw [hol]; rfl)
    have hw1 : WellFormed 2
        { t with m_in := [⟨[⟨0, Examples.message 1 0⟩], 10⟩], m_out := [⟨[], 10⟩] } := by
      obtain ⟨w1, w2, w3, w4, w5, w6, w7, _⟩ := hw
      refine ⟨w1, by rw [← w2, hil]; rfl, by rw [← w3, hol]; rfl, w4, w5, w6, w7, ?_⟩
      intro b hb n hn
      simp only [List.mem_singleton] at hb
      subst hb
      simp only [List.mem_singleton] at hn
      subst hn
      decide
    obtain ⟨t1, t2, c1, h, ht1, b1, b2, b3, hw2, hV2, hil2, hol2, hun2, hc2⟩ :=
      wakeup_saturated threshold ((j : Int) + 1) _ c hw1 hV rfl rfl hun hc (by omega)
    simp only at b1 b2 b3
    have hnone : t1 = t2 := by
      rw [ht1]
      apply bash_loop_none
      rw [b3, hlast]
      simp only [ADJUST_INTERVAL]
      omega
    subst hnone
    refine ⟨t1, Reachable.wakeup j _ t1 ((j : Int) + 1) true hr1 h, hw2, hV2, hil2, hol2,
      ⟨c1, hun2, hc2⟩, ?_, by rw [b2, hcnt], by rw [b3, hlast]⟩
    rw [b1, hbss, add_int_eq _ _ (by omega) (by omega), wrap32_eq _ (by omega) (by omega)]
    push_cast
    ring

/-- A throttle constructed at cycle 0 with the counter of the predictor at 256 whose
link of bandwidth 42949 is used in full by each of 50001 wakeups: the sample of the
interval is taken at the last of them, after the sum of the bandwidth used has left
the range of an `int`, and takes the counter down to 255. -/
theorem saturated_interval_sample :
    ∃ t t1 : Throttle,
      Reachable (fun _ => 42949) 42949 (1 / 2) 50000 t ∧
      t.m_bash_counter = 256 ∧ t.m_bandwidth_since_sample = 50000 * 42949 ∧
      t.m_last_bandwidth_sample = 0 ∧
      wakeup (fun _ => 42949) 42949 (1 / 2) 50001 t = .ok (t1, true) ∧
      t1.m_bash_counter = 255 ∧ t1.m_bandwidth_since_sample = 0 ∧
      t1.m_last_bandwidth_sample = 50000 := by
  obtain ⟨t, hr, hw, hV, hil, hol, ⟨c, hun, hc⟩, hbss, hcnt, hlast⟩ :=
    saturated_run_reachable (1 / 2) 50000 (le_refl _)
  have hr1 := Reachable.buffers 50000 t [⟨[⟨0, Examples.message 1 0⟩], 10⟩] [⟨[], 10⟩] hr
    (by rw [hil]; rfl) (by rw [hol]; rfl)
  have hw1 : WellFormed 2
      { t with m_in := [⟨[⟨0, Examples.message 1 0⟩], 10⟩], m_out := [⟨[], 10⟩] } := by
    obtain ⟨w1, w2, w3, w4, w5, w6, w7, _⟩ := hw
    refine ⟨w1, by rw [← w2, hil]; rfl, by rw [← w3, hol]; rfl, w4, w5, w6, w7, ?_⟩
    intro b hb n hn
    simp only [List.mem_singleton] at hb
    subst hb
    simp only [List.mem_singleton] at hn
    subst hn
    decide
  obtain ⟨t1, t2, c1, h, ht1, b1, b2, b3, _⟩ :=
    wakeup_saturated (1 / 2) 50001 _ c hw1 hV rfl rfl hun hc (by decide)
  simp only at b1 b2 b3
  rw [hbss] at b1
  rw [hcnt] at b2
  rw [hlast] at b3
  have hsum : t2.m_bandwidth_since_sample = -2147474347 := by
    rw [b1]; decide
  have hstep : t1 = bash_step 42949 (1 / 2) t2 := by
    rw [ht1]
    apply bash_loop_once
    · rw [b3]; decide
    · rw [b3]; decide
  have hex : utilization_exceeds (-2147474347) 42949 (1 / 2) = false := by decide!
  refine ⟨_, t1, hr1, hcnt, by rw [hbss]; rfl, hlast, h, ?_, ?_, ?_⟩
  · rw [hstep]
    unfold bash_step
    simp only [hsum, hex, b2]
    decide
  · rw [hstep]; rfl
  · rw [hstep]
    unfold bash_step
    simp only [b3]
    decide

end Throttle

/-! ## Garnet network: allocation and link making -/

namespace GarnetNetwork

theorem checkNetworkAllocation_ok (net : GarnetNetwork) (id : Int) (ordered : Bool)
    (network_num : Int) (hi : Constructed net)
    (h1 : id < net.m_nodes) (h2 : 0 ≤ network_num)
    (h3 : network_num < net.m_virtual_networks) :
    checkNetworkAllocation net id ordered network_num
      = ⟨allocated net ordered network_num, .ok, some ()⟩ := by
  obtain ⟨_, _, _, _, _, _, hu, ho⟩ := hi
  unfold checkNetworkAllocation allocated
  rw [if_pos h1, if_pos h3]
  cases ordered
  · simp only [Bool.false_eq_true, if_false]
    rw [vec_write_eq_some _ _ _ h2 (by omega)]
  · simp only [if_true]
    rw [vec_write_eq_some _ _ _ h2 (by omega)]
    simp only
    rw [vec_write_eq_some _ _ _ h2 (by omega)]

theorem queue_at_isSome (queues : List (List MessageBuffer)) (n v : Int) (N V : Int)
    (hl : (queues.length : Int) = N) (hr : ∀ row ∈ queues, (row.length : Int) = V)
    (h0 : 0 ≤ n) (h1 : n < N) (h2 : 0 ≤ v) (h3 : v < V) :
    ∃ b, queue_at queues n v = some b ∧
      queues[n.toNat]?.bind (fun row => row[v.toNat]?) = some b := by
  unfold queue_at
  obtain ⟨row, hrow⟩ := vec_read_isSome queues n h0 (by omega)
  have hmem : row ∈ queues := by
    rw [vec_read_eq_getElem? _ _ h0] at hrow
    exact List.getElem?_mem hrow
  obtain ⟨b, hb⟩ := vec_read_isSome row v h2 (by rw [hr row hmem]; exact h3)
  refine ⟨b, ?_, ?_⟩
  · rw [hrow]; exact hb
  · rw [vec_read_eq_getElem? _ _ h0] at hrow
    rw [vec_read_eq_getElem? _ _ h2] at hb
    rw [hrow]; exact hb

theorem flagsKept_refl (a : GarnetNetwork) : FlagsKept a a := fun _ => ⟨id, id⟩

theorem flagsKept_trans {a b c : GarnetNetwork} (h1 : FlagsKept a b) (h2 : FlagsKept b c) :
    FlagsKept a c :=
  fun j => ⟨fun h => (h2 j).1 ((h1 j).1 h), fun h => (h2 j).2 ((h1 j).2 h)⟩

theorem checkNetworkAllocation_keeps (net : GarnetNetwork) (id : Int) (ordered : Bool)
    (network_num : Int) :
    FlagsKept net (checkNetworkAllocation net id ordered network_num).net := by
  unfold checkNetworkAllocation
  split
  · split
    · split
      · exact flagsKept_refl net
      · rename_i ord hord
        have hk : ∀ j : Nat, net.m_ordered[j]? = some true → ord[j]? = some true := by
          intro j hj
          cases ordered
          · simp at hord; subst hord; exact hj
          · simp at hord; exact vec_write_true_mono _ _ _ _ hord hj
        dsimp only
        split
        · intro j; exact ⟨fun hj => hj, hk j⟩
        · rename_i used hused
          intro j
          exact ⟨fun hj => vec_write_true_mono _ _ _ _ hused hj, hk j⟩
    · exact flagsKept_refl net
  · exact flagsKept_refl net

theorem getToNetQueue_net (net : GarnetNetwork) (id : Int) (ordered : Bool)
    (network_num : Int) :
    (getToNetQueue net id ordered network_num).net
      = (checkNetworkAllocation net id ordered network_num).net := by
  unfold getToNetQueue
  simp only
  split
  · split <;> rfl
  · rfl

theorem getFromNetQueue_net (net : GarnetNetwork) (id : Int) (ordered : Bool)
    (network_num : Int) :
    (getFromNetQueue net id ordered network_num).net
      = (checkNetworkAllocation net id ordered network_num).net := by
  unfold getFromNetQueue
  simp only
  split
  · split <;> rfl
  · rfl

theorem QueueCall.run_keeps (net : GarnetNetwork) (c : QueueCall) :
    FlagsKept net (c.run net).net := by
  cases c with
  | to_net id o v =>
    show FlagsKept net (getToNetQueue net id o v).net
    rw [getToNetQueue_net]; exact checkNetworkAllocation_keeps net id o v
  | from_net id o v =>
    show FlagsKept net (getFromNetQueue net id o v).net
    rw [getFromNetQueue_net]; exact checkNetworkAllocation_keeps net id o v

theorem run_queue_calls_keeps (calls : List QueueCall) :
    ∀ net : GarnetNetwork, FlagsKept net (run_queue_calls net calls) := by
  induction calls with
  | nil => intro net; exact flagsKept_refl net
  | cons c cs ih =>
    intro net
    unfold run_queue_calls
    split
    · exact flagsKept_trans (QueueCall.run_keeps net c) (ih _)
    · exact QueueCall.run_keeps net c

theorem run_queue_calls_append_keeps (cs1 cs2 : List QueueCall) :
    ∀ net : GarnetNetwork,
      FlagsKept (run_queue_calls net cs1) (run_queue_calls net (cs1 ++ cs2)) := by
  induction cs1 with
  | nil => intro net; exact run_queue_calls_keeps cs2 net
  | cons c cs ih =>
    intro net
    simp only [List.cons_append]
    unfold run_queue_calls
    split
    · exact ih _
    · exact flagsKept_refl _

/-- What a queue request with indices inside the vectors does. -/
theorem queue_request_effect (net : GarnetNetwork) (id : Int) (ordered : Bool)
    (network_num : Int) (hi : Constructed net)
    (h0 : 0 ≤ id) (h1 : id < net.m_nodes)
    (h2 : 0 ≤ network_num) (h3 : network_num < net.m_virtual_networks) :
    (∃ b, getToNetQueue net id ordered network_num
            = ⟨allocated net ordered network_num, .ok, some b⟩ ∧
          net.m_toNetQueues[id.toNat]?.bind (fun row => row[network_num.toNat]?) = some b) ∧
    (∃ b, getFromNetQueue net id ordered network_num
            = ⟨allocated net ordered network_num, .ok, some b⟩ ∧
          net.m_fromNetQueues[id.toNat]?.bind (fun row => row[network_num.toNat]?) = some b) ∧
    (allocated net ordered network_num).m_in_use[network_num.toNat]? = some true ∧
    (∃ old, net.m_ordered[network_num.toNat]? = some old ∧
      (allocated net ordered network_num).m_ordered[network_num.toNat]?
        = some (old || ordered)) ∧
    (∀ j : Nat, j ≠ network_num.toNat →
      (allocated net ordered network_num).m_in_use[j]? = net.m_in_use[j]? ∧
      (allocated net ordered network_num).m_ordered[j]? = net.m_ordered[j]?) ∧
    (allocated net ordered network_num).m_toNetQueues = net.m_toNetQueues ∧
    (allocated net ordered network_num).m_fromNetQueues = net.m_fromNetQueues := by
  have hc := checkNetworkAllocation_ok net id ordered network_num hi h1 h2 h3
  obtain ⟨_, _, hto, hfrom, hrto, hrfrom, hu, ho⟩ := hi
  have hvu : network_num.toNat < net.m_in_use.length := by omega
  have hvo : network_num.toNat < net.m_ordered.length := by omega
  refine ⟨?_, ?_, ?_, ?_, ?_, rfl, rfl⟩
  · obtain ⟨b, hb, hb2⟩ := queue_at_isSome net.m_toNetQueues id network_num _ _
      hto hrto h0 h1 h2 h3
    refine ⟨b, ?_, hb2⟩
    simp only [getToNetQueue, hc]
    have : (allocated net ordered network_num).m_toNetQueues = net.m_toNetQueues := rfl
    rw [this, hb]
  · obtain ⟨b, hb, hb2⟩ := queue_at_isSome net.m_fromNetQueues id network_num _ _
      hfrom hrfrom h0 h1 h2 h3
    refine ⟨b, ?_, hb2⟩
    simp only [getFromNetQueue, hc]
    have : (allocated net ordered network_num).m_fromNetQueues = net.m_fromNetQueues := rfl
    rw [this, hb]
  · simp [allocated, List.getElem?_set, hvu]
  · refine ⟨net.m_ordered[network_num.toNat], List.getElem?_eq_getElem hvo, ?_⟩
    cases ordered
    · simp [allocated]
    · simp [allocated, List.getElem?_set, hvo]
  · intro j hj
    constructor
    · simp only [allocated]
      rw [List.getElem?_set_ne (Ne.symm hj)]
    · simp only [allocated]
      cases ordered
      · simp
      · simp only [if_true]
        rw [List.getElem?_set_ne (Ne.symm hj)]

theorem allocated_constructed (net : GarnetNetwork) (o : Bool) (v : Int)
    (hi : Constructed net) : Constructed (allocated net o v) := by
  obtain ⟨a, b, c, d, e, f, g, h⟩ := hi
  refine ⟨a, b, c, d, e, f, ?_, ?_⟩
  · simp only [allocated, List.length_set]; exact g
  · simp only [allocated]
    cases o
    · simpa using h
    · simpa using h

theorem QueueCall.run_in_range (net : GarnetNetwork) (c : QueueCall)
    (hi : Constructed net) (hc : c.in_range net) :
    (c.run net).status = .ok ∧ (c.run net).net = allocated net c.ordered c.network_num := by
  obtain ⟨h0, h1, h2, h3⟩ := hc
  cases c with
  | to_net id o v =>
    obtain ⟨b, hb, _⟩ := (queue_request_effect net id o v hi h0 h1 h2 h3).1
    show (getToNetQueue net id o v).status = .ok ∧ (getToNetQueue net id o v).net = _
    rw [hb]; exact ⟨rfl, rfl⟩
  | from_net id o v =>
    obtain ⟨b, hb, _⟩ := (queue_request_effect net id o v hi h0 h1 h2 h3).2.1
    show (getFromNetQueue net id o v).status = .ok ∧ (getFromNetQueue net id o v).net = _
    rw [hb]; exact ⟨rfl, rfl⟩

theorem run_queue_calls_in_range (calls : List QueueCall) :
    ∀ net : GarnetNetwork, Constructed net → (∀ c ∈ calls, c.in_range net) →
      run_queue_calls net calls
        = calls.foldl (fun n c => allocated n c.ordered c.network_num) net := by
  induction calls with
  | nil => intro net _ _; rfl
  | cons c cs ih =>
    intro net hi hc
    obtain ⟨hs, hn⟩ := QueueCall.run_in_range net c hi (hc c (List.mem_cons_self _ _))
    unfold run_queue_calls
    rw [hs]
    simp only [List.foldl_cons]
    rw [hn]
    apply ih _ (allocated_constructed net _ _ hi)
    intro c1 hc1
    exact hc c1 (List.mem_cons_of_mem _ hc1)

theorem sameShape_initialised {a b : GarnetNetwork} (h : SameShape a b)
    (hi : Initialised a) : Initialised b := by
  obtain ⟨h1, h2, h3, h4, h5, h6, h7, h8⟩ := h
  unfold Initialised Constructed at *
  rw [h1, h2, h3, h4, h5, h6, h8]
  exact hi

theorem sameShape_in_range {a b : GarnetNetwork} (h : SameShape a b) (c : LinkCall)
    (hc : c.in_range a) : c.in_range b := by
  obtain ⟨h1, h2, h3, h4, h5, h6, h7, h8⟩ := h
  unfold LinkCall.in_range at *
  rw [h1, h7]
  exact hc

theorem LinkCall.run_reconfiguration (net : GarnetNetwork) (c : LinkCall)
    (hc : c.in_range net) :
    c.run net true = ⟨net, .fatal_reconfiguration, none⟩ := by
  unfold LinkCall.in_range at hc
  unfold LinkCall.run
  cases hk : c.kind <;> rw [hk] at hc <;> simp only at hc ⊢
  · unfold makeInLink
    rw [if_pos hc.2.1]; rfl
  · unfold makeOutLink
    rw [if_pos hc.2.2.2, if_pos ⟨hc.1, hc.2.1⟩]; rfl
  · unfold makeInternalLink
    rfl

theorem LinkCall.run_ok (net : GarnetNetwork) (c : LinkCall)
    (hi : Initialised net) (hc : c.in_range net) :
    (c.run net false).status = .ok ∧
    (c.run net false).net.m_link_ptr_vector = net.m_link_ptr_vector ++ [c.network_link] ∧
    SameShape net (c.run net false).net := by
  have hni : (net.m_ni_ptr_vector.length : Int) = net.m_nodes := hi.2
  unfold LinkCall.in_range at hc
  unfold LinkCall.run
  cases hk : c.kind <;> rw [hk] at hc <;> simp only at hc ⊢
  · obtain ⟨h0, h1, h2, h3⟩ := hc
    obtain ⟨r, hr⟩ := vec_read_isSome net.m_router_ptr_vector c.dest h2 h3
    obtain ⟨ni, hn⟩ := vec_read_isSome net.m_ni_ptr_vector c.src h0 (by omega)
    unfold makeInLink
    rw [if_pos h1]
    simp only [Bool.not_false, if_true, hr, hn]
    simp [SameShape, LinkCall.network_link]
  · obtain ⟨h0, h1, h2, h3⟩ := hc
    obtain ⟨r, hr⟩ := vec_read_isSome net.m_router_ptr_vector c.src h0 h1
    obtain ⟨ni, hn⟩ := vec_read_isSome net.m_ni_ptr_vector c.dest h2 (by omega)
    unfold makeOutLink
    rw [if_pos h3, if_pos ⟨h0, h1⟩]
    simp only [Bool.not_false, if_true, hr, hn]
    simp [SameShape, LinkCall.network_link]
  · obtain ⟨h0, h1, h2, h3⟩ := hc
    obtain ⟨r, hr⟩ := vec_read_isSome net.m_router_ptr_vector c.dest h2 h3
    obtain ⟨r1, hr1⟩ := vec_read_isSome
      (net.m_router_ptr_vector.set c.dest.toNat
        (r.addInPort (c.link.m_network_links c.direction).init_net_ptr)) c.src h0
      (by rw [List.length_set]; exact h1)
    unfold makeInternalLink
    simp only [Bool.not_false, if_true, hr, hr1]
    simp [SameShape, LinkCall.network_link]

theorem createLinks_in_range (calls : List LinkCall) :
    ∀ net : GarnetNetwork, Initialised net → (∀ c ∈ calls, c.in_range net) →
      (createLinks net false calls).status = .ok ∧
      (createLinks net false calls).net.m_link_ptr_vector
        = net.m_link_ptr_vector ++ calls.map LinkCall.network_link ∧
      SameShape net (createLinks net false calls).net := by
  induction calls with
  | nil =>
    intro net _ _
    exact ⟨rfl, by simp [createLinks], rfl, rfl, rfl, rfl, rfl, rfl, rfl, rfl⟩
  | cons c cs ih =>
    intro net hi hc
    obtain ⟨hs, hl, hsh⟩ := LinkCall.run_ok net c hi (hc c (List.mem_cons_self _ _))
    obtain ⟨is, il, ish⟩ := ih (c.run net false).net (sameShape_initialised hsh hi)
      (fun c1 hc1 => sameShape_in_range hsh c1 (hc c1 (List.mem_cons_of_mem _ hc1)))
    unfold createLinks
    rw [hs]
    simp only
    refine ⟨is, ?_, ?_⟩
    · rw [il, hl]; simp
    · obtain ⟨a1, a2, a3, a4, a5, a6, a7, a8⟩ := hsh
      obtain ⟨b1, b2, b3, b4, b5, b6, b7, b8⟩ := ish
      exact ⟨b1.trans a1, b2.trans a2, b3.trans a3, b4.trans a4, b5.trans a5, b6.trans a6,
        b7.trans a7, b8.trans a8⟩

/-! ### The constructor and `init` establish the sizes -/

/-- The constructor gives the queues and the bitmaps their sizes. -/
theorem construct_constructed (nodes virtual_networks : Nat) (routers : List Router)
    (capacity : Nat) : Constructed (construct nodes virtual_networks routers capacity) := by
  unfold Constructed construct
  simp only [List.length_replicate]
  refine ⟨Int.ofNat_nonneg _, Int.ofNat_nonneg _, trivial, trivial, ?_, ?_, trivial, trivial⟩
  · intro row hrow
    rw [List.eq_of_mem_replicate hrow, List.length_replicate]
  · intro row hrow
    rw [List.eq_of_mem_replicate hrow, List.length_replicate]

theorem init_interfaces_ok (fuel : Nat) :
    ∀ (i : Nat) (net : GarnetNetwork),
      (net.m_toNetQueues.length : Int) = net.m_nodes →
      (net.m_fromNetQueues.length : Int) = net.m_nodes →
      ((i + fuel : Nat) : Int) = net.m_nodes →
      ∃ nis : List NetworkInterface, nis.length = fuel ∧
        init_interfaces net fuel (i : Int)
          = some { net with m_ni_ptr_vector := net.m_ni_ptr_vector ++ nis } := by
  induction fuel with
  | zero =>
    intro i net _ _ _
    exact ⟨[], rfl, by simp [init_interfaces]⟩
  | succ k ih =>
    intro i net hto hfrom hn
    have h0 : (0 : Int) ≤ (i : Int) := Int.ofNat_nonneg i
    obtain ⟨tq, htq⟩ := vec_read_isSome net.m_toNetQueues (i : Int) h0 (by omega)
    obtain ⟨fq, hfq⟩ := vec_read_isSome net.m_fromNetQueues (i : Int) h0 (by omega)
    unfold init_interfaces
    rw [if_pos (by omega)]
    simp only [htq, hfq]
    obtain ⟨nis, hlen, hrun⟩ := ih (i + 1)
      { net with
        m_ni_ptr_vector := net.m_ni_ptr_vector ++
          [(NetworkInterface.construct (i : Int) net.m_virtual_networks).addNode tq fq] }
      hto hfrom (by simp only; omega)
    have e : ((i + 1 : Nat) : Int) = (i : Int) + 1 := by push_cast; rfl
    rw [e] at hrun
    rw [hrun]
    refine ⟨(NetworkInterface.construct (i : Int) net.m_virtual_networks).addNode tq fq
      :: nis, by simp [hlen], ?_⟩
    simp

/-- After the constructor, `init` with a topology whose calls are in range completes
and leaves an initialised network whose link registry lists the links of the topology
in call order. -/
theorem init_initialised (net : GarnetNetwork) (topology : List LinkCall)
    (hc : Constructed net) (hni : net.m_ni_ptr_vector = [])
    (hr : ∀ c ∈ topology, c.in_range net) :
    (init net topology).status = .ok ∧ Initialised (init net topology).net ∧
    (init net topology).net.m_link_ptr_vector
      = net.m_link_ptr_vector ++ topology.map LinkCall.network_link := by
  obtain ⟨c1, c2, c3, c4, c5, c6, c7, c8⟩ := hc
  obtain ⟨nis, hlen, hrun⟩ := init_interfaces_ok net.m_nodes.toNat 0
    { net with m_router_ptr_vector := net.m_router_ptr_vector.map Router.init_net_ptr }
    c3 c4 (by simp only; omega)
  have hinit : Initialised
      { net with
        m_router_ptr_vector := net.m_router_ptr_vector.map Router.init_net_ptr
        m_ni_ptr_vector := net.m_ni_ptr_vector ++ nis } := by
    refine ⟨⟨c1, c2, c3, c4, c5, c6, c7, c8⟩, ?_⟩
    simp only [hni, List.nil_append, hlen]
    omega
  have hrange : ∀ c ∈ topology, c.in_range
      { net with
        m_router_ptr_vector := net.m_router_ptr_vector.map Router.init_net_ptr
        m_ni_ptr_vector := net.m_ni_ptr_vector ++ nis } := by
    intro c hmem
    have := hr c hmem
    unfold LinkCall.in_range at this ⊢
    simp only [List.length_map]
    exact this
  obtain ⟨hs, hl, hsh⟩ := createLinks_in_range topology _ hinit hrange
  unfold init
  simp only [Nat.cast_zero] at hrun
  simp only [hrun]
  exact ⟨hs, sameShape_initialised hsh hinit, hl⟩

/-! ### What `reset` does -/

theorem map_upto_length {α : Type} (f : α → α) :
    ∀ (n : Nat) (l : List α), (map_upto f n l).length = l.length := by
  intro n
  induction n with
  | zero => intro l; rfl
  | succ k ih =>
    intro l
    cases l with
    | nil => rfl
    | cons a l => simp [map_upto, ih]

theorem map_upto_getElem? {α : Type} (f : α → α) :
    ∀ (n : Nat) (l : List α), (map_upto f n l)[n]? = l[n]? := by
  intro n
  induction n with
  | zero => intro l; rfl
  | succ k ih =>
    intro l
    cases l with
    | nil => rfl
    | cons a l => simp [map_upto, ih]

theorem map_upto_set {α : Type} (f : α → α) :
    ∀ (n : Nat) (l : List α) (a : α), l[n]? = some a →
      (map_upto f n l).set n (f a) = map_upto f (n + 1) l := by
  intro n
  induction n with
  | zero =>
    intro l a h
    cases l with
    | nil => simp at h
    | cons b l =>
      simp only [List.getElem?_cons_zero, Option.some.injEq] at h
      subst h
      simp [map_upto]
  | succ k ih =>
    intro l a h
    cases l with
    | nil => simp at h
    | cons b l =>
      simp only [List.getElem?_cons_succ] at h
      simp only [map_upto, List.set_cons_succ]
      rw [ih l a h]

theorem map_upto_all {α : Type} (f : α → α) :
    ∀ (n : Nat) (l : List α), l.length ≤ n → map_upto f n l = l.map f := by
  intro n
  induction n with
  | zero =>
    intro l h
    cases l with
    | nil => rfl
    | cons a l => simp at h
  | succ k ih =>
    intro l h
    cases l with
    | nil => rfl
    | cons a l =>
      simp only [List.length_cons, Nat.add_le_add_iff_right] at h
      simp [map_upto, ih l h]

theorem queue_at_set (T : List (List MessageBuffer)) (n j : Nat) (X : List MessageBuffer)
    (hn : n < T.length) :
    queue_at (T.set n X) (n : Int) (j : Int) = X[j]? := by
  unfold queue_at
  rw [vec_read_eq_getElem? _ _ (Int.ofNat_nonneg n)]
  simp only [Int.toNat_ofNat, List.getElem?_set, hn, if_true]
  rw [vec_read_eq_getElem? _ _ (Int.ofNat_nonneg j)]
  simp

theorem queue_set_set (T : List (List MessageBuffer)) (n j : Nat) (X : List MessageBuffer)
    (b : MessageBuffer) (hn : n < T.length) (hj : j < X.length) :
    queue_set (T.set n X) (n : Int) (j : Int) b = some (T.set n (X.set j b)) := by
  unfold queue_set
  rw [vec_read_eq_getElem? _ _ (Int.ofNat_nonneg n)]
  simp only [Int.toNat_ofNat, List.getElem?_set, hn, if_true]
  rw [vec_write_eq_some _ _ _ (Int.ofNat_nonneg j) (by exact_mod_cast hj)]
  simp only
  rw [vec_write_eq_some _ _ _ (Int.ofNat_nonneg n) (by simp; exact hn)]
  simp

theorem reset_vnets_ok (base : GarnetNetwork) (n : Nat) (T F : List (List MessageBuffer))
    (RT RF : List MessageBuffer) (hT : n < T.length) (hF : n < F.length)
    (hVT : (RT.length : Int) = base.m_virtual_networks)
    (hVF : (RF.length : Int) = base.m_virtual_networks) (fuel : Nat) :
    ∀ j : Nat, j + fuel = RT.length →
      reset_vnets (n : Int) fuel (j : Int)
        { base with
          m_toNetQueues := T.set n (map_upto MessageBuffer.clear j RT)
          m_fromNetQueues := F.set n (map_upto MessageBuffer.clear j RF) }
      = ⟨{ base with
            m_toNetQueues := T.set n (RT.map MessageBuffer.clear)
            m_fromNetQueues := F.set n (RF.map MessageBuffer.clear) }, .ok, some ()⟩ := by
  induction fuel with
  | zero =>
    intro j hj
    have hlen : RF.length = RT.length := by omega
    simp only [reset_vnets]
    rw [map_upto_all _ j RT (by omega), map_upto_all _ j RF (by omega)]
  | succ k ih =>
    intro j hj
    have hlen : RF.length = RT.length := by omega
    have hjT : j < RT.length := by omega
    have hjF : j < RF.length := by omega
    unfold reset_vnets
    have hcond : (j : Int) < base.m_virtual_networks := by omega
    simp only [hcond, if_true]
    rw [queue_at_set T n j _ hT, map_upto_getElem?, List.getElem?_eq_getElem hjT]
    simp only
    rw [queue_set_set T n j _ _ hT (by rw [map_upto_length]; exact hjT)]
    simp only
    rw [queue_at_set F n j _ hF, map_upto_getElem?, List.getElem?_eq_getElem hjF]
    simp only
    rw [queue_set_set F n j _ _ hF (by rw [map_upto_length]; exact hjF)]
    simp only
    rw [map_upto_set _ j RT _ (List.getElem?_eq_getElem hjT),
      map_upto_set _ j RF _ (List.getElem?_eq_getElem hjF)]
    have e : (j : Int) + 1 = ((j + 1 : Nat) : Int) := by push_cast; rfl
    rw [e]
    exact ih (j + 1) (by omega)

theorem reset_nodes_ok (base : GarnetNetwork) (T0 F0 : List (List MessageBuffer))
    (hV : 0 ≤ base.m_virtual_networks)
    (hT : (T0.length : Int) = base.m_nodes) (hF : (F0.length : Int) = base.m_nodes)
    (hrT : ∀ row ∈ T0, (row.length : Int) = base.m_virtual_networks)
    (hrF : ∀ row ∈ F0, (row.length : Int) = base.m_virtual_networks) (fuel : Nat) :
    ∀ i : Nat, i + fuel = T0.length →
      reset_nodes fuel (i : Int)
        { base with
          m_toNetQueues := map_upto (fun row => row.map MessageBuffer.clear) i T0
          m_fromNetQueues := map_upto (fun row => row.map MessageBuffer.clear) i F0 }
      = ⟨{ base with
            m_toNetQueues := T0.map (fun row => row.map MessageBuffer.clear)
            m_fromNetQueues := F0.map (fun row => row.map MessageBuffer.clear) },
          .ok, some ()⟩ := by
  induction fuel with
  | zero =>
    intro i hi
    have hlen : F0.length = T0.length := by omega
    simp only [reset_nodes]
    rw [map_upto_all _ i T0 (by omega), map_upto_all _ i F0 (by omega)]
  | succ k ih =>
    intro i hi
    have hlen : F0.length = T0.length := by omega
    have hiT : i < T0.length := by omega
    have hiF : i < F0.length := by omega
    have hRT := hrT _ (List.getElem_mem hiT)
    have hRF := hrF _ (List.getElem_mem hiF)
    have hinner := reset_vnets_ok base i
      (map_upto (fun row => row.map MessageBuffer.clear) i T0)
      (map_upto (fun row => row.map MessageBuffer.clear) i F0)
      T0[i] F0[i] (by rw [map_upto_length]; exact hiT) (by rw [map_upto_length]; exact hiF)
      hRT hRF T0[i].length 0 (by omega)
    have eT : (map_upto (fun row => row.map MessageBuffer.clear) i T0).set i
        (map_upto MessageBuffer.clear 0 T0[i])
        = map_upto (fun row => row.map MessageBuffer.clear) i T0 :=
      set_getElem?_self _ _ _ (by
        rw [map_upto_getElem?, List.getElem?_eq_getElem hiT]; rfl)
    have eF : (map_upto (fun row => row.map MessageBuffer.clear) i F0).set i
        (map_upto MessageBuffer.clear 0 F0[i])
        = map_upto (fun row => row.map MessageBuffer.clear) i F0 :=
      set_getElem?_self _ _ _ (by
        rw [map_upto_getElem?, List.getElem?_eq_getElem hiF]; rfl)
    rw [eT, eF] at hinner
    have hfuel : base.m_virtual_networks.toNat = T0[i].length := by omega
    unfold reset_nodes
    have hcond : (i : Int) < base.m_nodes := by omega
    simp only [hcond, if_true, hfuel, Nat.cast_zero] at hinner ⊢
    rw [hinner]
    simp only
    rw [map_upto_set _ i T0 _ (List.getElem?_eq_getElem hiT),
      map_upto_set _ i F0 _ (List.getElem?_eq_getElem hiF)]
    have e : (i : Int) + 1 = ((i + 1 : Nat) : Int) := by push_cast; rfl
    rw [e]
    exact ih (i + 1) (by omega)

/-- On a constructed network `reset` completes and empties every buffer of the two
queue tables, leaving everything else as it was. -/
theorem reset_constructed (net : GarnetNetwork) (hc : Constructed net) :
    reset net = ⟨cleared net, .ok, some ()⟩ := by
  obtain ⟨c1, c2, c3, c4, c5, c6, _, _⟩ := hc
  have h := reset_nodes_ok net net.m_toNetQueues net.m_fromNetQueues c2 c3 c4 c5 c6
    net.m_toNetQueues.length 0 (by omega)
  have hfuel : net.m_nodes.toNat = net.m_toNetQueues.length := by omega
  unfold reset cleared
  rw [hfuel]
  exact h

theorem cleared_constructed (net : GarnetNetwork) (hc : Constructed net) :
    Constructed (cleared net) := by
  obtain ⟨c1, c2, c3, c4, c5, c6, c7, c8⟩ := hc
  refine ⟨c1, c2, ?_, ?_, ?_, ?_, c7, c8⟩
  · simp only [cleared, List.length_map]; exact c3
  · simp only [cleared, List.length_map]; exact c4
  · intro row hrow
    simp only [cleared, List.mem_map] at hrow
    obtain ⟨r, hr, rfl⟩ := hrow
    simp only [List.length_map]
    exact c5 r hr
  · intro row hrow
    simp only [cleared, List.mem_map] at hrow
    obtain ⟨r, hr, rfl⟩ := hrow
    simp only [List.length_map]
    exact c6 r hr

theorem cleared_cleared (net : GarnetNetwork) : cleared (cleared net) = cleared net := by
  simp only [cleared, List.map_map]
  congr 2 <;>
  · funext row
    simp only [Function.comp, List.map_map]
    apply List.map_congr_left
    intro b _
    rfl

theorem resets_constructed (k : Nat) :
    ∀ net : GarnetNetwork, Constructed net → resets (k + 1) net = cleared net := by
  induction k with
  | zero =>
    intro net hc
    simp only [resets, reset_constructed net hc]
  | succ k ih =>
    intro net hc
    unfold resets
    rw [reset_constructed net hc]
    simp only
    rw [ih (cleared net) (cleared_constructed net hc), cleared_cleared]

theorem queue_at_cleared (T : List (List MessageBuffer)) (node vnet : Int) :
    queue_at (T.map (fun row => row.map MessageBuffer.clear)) node vnet
      = (queue_at T node vnet).map MessageBuffer.clear := by
  unfold queue_at vec_read
  by_cases h : node < 0
  · simp [h]
  · simp only [h, if_false, List.getElem?_map]
    cases T[node.toNat]? with
    | none => rfl
    | some row =>
      simp only [Option.map_some']
      by_cases h1 : vnet < 0
      · simp [h1]
      · simp only [h1, if_false, List.getElem?_map]

end GarnetNetwork

/-! ## Throttle: the claims -/

namespace Throttle

/-- The example throttle `linked` is reached by a construction and `addLinks`. -/
theorem linked_reachable :
    Reachable Examples.int_of 5000 (1 / 2) 0 Examples.linked :=
  Reachable.addLinks 0 Examples.fresh Examples.linked 2 false
    Examples.in_vec Examples.out_vec
    (Reachable.construct 0 0 1 1 0 Examples.fresh (by decide!)) (by decide!)

/-- The example throttle `woken` is reached from `linked` by one wakeup at cycle 0 with
a link bandwidth of 5000. -/
theorem woken_reachable :
    Reachable Examples.int_of 5000 (1 / 2) 1 Examples.woken :=
  Reachable.wakeup 0 Examples.linked Examples.woken 0 true linked_reachable (by decide!)

/-- C1: a wakeup of a well-formed throttle with a positive link bandwidth completes,
and a wakeup that completes moves, on every virtual network `v`, a prefix `moved` of
the ready messages at the head of `in[v]` to the tail of `out[v]`: what is left in
`in[v]` is the old content without `moved`, `out[v]` is its old content followed by the
messages of `moved` in the same order, each once, with arrival time
`now + link_latency`; nothing is dropped, duplicated or reordered and nothing moves
between virtual networks. -/
theorem wakeup_moves_ready_messages (int_of : Nat → Int) (bw : Int) (threshold : ℚ)
    (now : Int) (t : Throttle) :
    (∀ NUM : Nat, WellFormed NUM t → 0 < bw →
      ∃ (t1 : Throttle) (scheduled : Bool),
        wakeup int_of bw threshold now t = .ok (t1, scheduled)) ∧
    ∀ (t1 : Throttle) (scheduled : Bool),
      wakeup int_of bw threshold now t = .ok (t1, scheduled) →
      t1.m_in.length = t.m_in.length ∧ t1.m_out.length = t.m_out.length ∧
      ∀ (v : Nat) (i o : MessageBuffer), t.m_in[v]? = some i → t.m_out[v]? = some o →
        ∃ (i1 o1 : MessageBuffer) (moved : List MessageBufferNode),
          t1.m_in[v]? = some i1 ∧ t1.m_out[v]? = some o1 ∧
          i.entries = moved ++ i1.entries ∧
          o1.entries = o.entries
            ++ moved.map (fun n => ⟨now + t.m_link_latency, n.m_msgptr⟩) ∧
          moved <+: i.entries.takeWhile (fun n => decide (n.m_time ≤ now)) ∧
          i1.capacity = i.capacity ∧ o1.capacity = o.capacity := by
  constructor
  · intro NUM hw hbw
    obtain ⟨t1, scheduled, h, _⟩ := wakeup_total int_of bw threshold now NUM t hw hbw
    exact ⟨t1, scheduled, h⟩
  intro t1 scheduled h
  obtain ⟨_, w, hfor, ht1, _⟩ := wakeup_ok h
  have hm := wakeup_for_movedAll _ hfor
  simp only at hm
  have hpl := bash_loop_accounted bw threshold now
      (bash_fuel now (accounted bw w)) w
  rw [← ht1] at hpl
  obtain ⟨_, _, _, p4, p5, _⟩ := hpl
  obtain ⟨l1, l2, hall⟩ := hm
  simp only at l1 l2 hall
  rw [p4, p5]
  refine ⟨l1, l2, ?_⟩
  intro v i o hi ho
  obtain ⟨i1, o1, moved, hi1, ho1, e1, e2, e3, e4, e5⟩ := hall v i o hi ho
  refine ⟨i1, o1, moved, hi1, ho1, e1, e2, ?_, e4, e5⟩
  rw [e1, List.takeWhile_append_of_pos (by simpa using e3)]
  exact List.prefix_append _ _

/-- C1 at the example: the wakeup of `linked` moves message 1 on virtual network 0 and
message 4 on virtual network 1. -/
theorem wakeup_moves_ready_messages_witness :
    WellFormed 2 Examples.linked ∧
    (∃ (t1 : Throttle) (scheduled : Bool),
      wakeup Examples.int_of 5000 (1 / 2) 0 Examples.linked = .ok (t1, scheduled)) ∧
    wakeup Examples.int_of 5000 (1 / 2) 0 Examples.linked = .ok (Examples.woken, true) ∧
    ∃ (i1 o1 : MessageBuffer) (moved : List MessageBufferNode),
      Examples.woken.m_in[0]? = some i1 ∧ Examples.woken.m_out[0]? = some o1 ∧
      (⟨[⟨0, Examples.message 1 0⟩, ⟨0, Examples.message 2 0⟩,
          ⟨5, Examples.message 3 1⟩], 10⟩ : MessageBuffer).entries = moved ++ i1.entries ∧
      o1.entries = (⟨[], 10⟩ : MessageBuffer).entries
        ++ moved.map (fun n => ⟨0 + Examples.linked.m_link_latency, n.m_msgptr⟩) ∧
      moved <+: (⟨[⟨0, Examples.message 1 0⟩, ⟨0, Examples.message 2 0⟩,
          ⟨5, Examples.message 3 1⟩], 10⟩ : MessageBuffer).entries.takeWhile
            (fun n => decide (n.m_time ≤ 0)) ∧
      i1.capacity = 10 ∧ o1.capacity = 10 :=
  ⟨by decide!,
   (wakeup_moves_ready_messages Examples.int_of 5000 (1 / 2) 0 Examples.linked).1 2
      (by decide!) (by decide),
   by decide!,
   ((wakeup_moves_ready_messages Examples.int_of 5000 (1 / 2) 0 Examples.linked).2
      Examples.woken true (by decide!)).2.2 0 _ _ rfl rfl⟩

/-- C6: in every reachable state of a throttle, for any link bandwidth and threshold,
`0 ≤ m_bash_counter ≤ HIGH_RANGE = 256`. -/
theorem bash_counter_in_range (int_of : Nat → Int) (bw : Int) (threshold : ℚ) (n : Nat)
    (t : Throttle) (h : Reachable int_of bw threshold n t) :
    0 ≤ t.m_bash_counter ∧ t.m_bash_counter ≤ HIGH_RANGE ∧ HIGH_RANGE = 256 :=
  ⟨(reachable_invariant h).2.2.1.1, (reachable_invariant h).2.2.1.2, rfl⟩

/-- C6 at the example throttle after its first wakeup. -/
theorem bash_counter_in_range_witness :
    Reachable Examples.int_of 5000 (1 / 2) 1 Examples.woken ∧
    0 ≤ Examples.woken.m_bash_counter ∧ Examples.woken.m_bash_counter ≤ HIGH_RANGE ∧
    HIGH_RANGE = 256 :=
  ⟨woken_reachable,
   bash_counter_in_range Examples.int_of 5000 (1 / 2) 1 Examples.woken woken_reachable⟩

/-- C7: in every reachable state every `m_units_remaining[v]` is non-negative, so the
assertion `m_units_remaining[vnet] >= 0` of a wakeup never fires, and at the end of every
wakeup every `m_units_remaining[v]` is non-negative again.  This holds for every size
table, in particular for positive sizes. -/
theorem units_remaining_nonneg (int_of : Nat → Int) (bw : Int) (threshold : ℚ) (n : Nat)
    (t : Throttle) (h : Reachable int_of bw threshold n t) :
    (∀ (v : Nat) (u : Int), t.m_units_remaining[v]? = some u → 0 ≤ u) ∧
    (∀ now : Int, wakeup int_of bw threshold now t ≠ .error .units_remaining_negative) ∧
    (∀ (now : Int) (t1 : Throttle) (scheduled : Bool),
      wakeup int_of bw threshold now t = .ok (t1, scheduled) →
      ∀ (v : Nat) (u : Int), t1.m_units_remaining[v]? = some u → 0 ≤ u) := by
  have hu := (reachable_invariant h).2.2.2
  refine ⟨fun v u hv => hu u (List.getElem?_mem hv), fun now => wakeup_error hu, ?_⟩
  intro now t1 scheduled hw v u hv
  exact (reachable_invariant (Reachable.wakeup n t t1 now scheduled h hw)).2.2.2 u
    (List.getElem?_mem hv)

/-- C7 at the example throttle before and after its first wakeup. -/
theorem units_remaining_nonneg_witness :
    Reachable Examples.int_of 5000 (1 / 2) 0 Examples.linked ∧
    wakeup Examples.int_of 5000 (1 / 2) 0 Examples.linked = .ok (Examples.woken, true) ∧
    Examples.woken.m_units_remaining = [0, 0] ∧
    (∀ (v : Nat) (u : Int), Examples.linked.m_units_remaining[v]? = some u → 0 ≤ u) ∧
    (∀ (v : Nat) (u : Int), Examples.woken.m_units_remaining[v]? = some u → 0 ≤ u) :=
  ⟨linked_reachable, by decide!, rfl,
   (units_remaining_nonneg Examples.int_of 5000 (1 / 2) 0 Examples.linked
      linked_reachable).1,
   (units_remaining_nonneg Examples.int_of 5000 (1 / 2) 0 Examples.linked
      linked_reachable).2.2 0 Examples.woken true (by decide!)⟩

/-- C8, as stated, fails: with `m_bash_counter = 0` and `rand = -65` the remainder
`-65 % 128` is `-65`, the bound `64 + -65` is negative and the broadcast is refused. -/
theorem broadcast_refused_at_zero_for_negative_rand :
    ({ blank with m_bash_counter := 0 } : Throttle).m_bash_counter = 0 ∧
    broadcastBandwidthAvailable { blank with m_bash_counter := 0 } (-65) = false := by
  decide

/-- C8, amended: when `m_bash_counter = 0`, `broadcastBandwidthAvailable(rand)` returns
true for every `rand ≥ 0`; for an arbitrary `rand` it returns true exactly when the
truncated remainder `rand % 128` is at least `-64`. -/
theorem broadcast_admitted_at_zero (t : Throttle) (rand : Int) (h : t.m_bash_counter = 0) :
    (0 ≤ rand → t.broadcastBandwidthAvailable rand = true) ∧
    (t.broadcastBandwidthAvailable rand = true ↔ -64 ≤ Int.tmod rand 128) := by
  have e2 : Int.tdiv HIGH_RANGE 2 = 128 := by decide
  have e4 : Int.tdiv HIGH_RANGE 4 = 64 := by decide
  have iff : t.broadcastBandwidthAvailable rand = true ↔ -64 ≤ Int.tmod rand 128 := by
    rw [broadcastBandwidthAvailable, h, e2, e4]
    simp
    omega
  refine ⟨fun h0 => iff.2 ?_, iff⟩
  have := tmod_128_nonneg rand h0
  omega

/-- C8, amended, at `rand = 200`. -/
theorem broadcast_admitted_at_zero_witness :
    ({ blank with m_bash_counter := 0 } : Throttle).m_bash_counter = 0 ∧ (0 : Int) ≤ 200 ∧
    broadcastBandwidthAvailable { blank with m_bash_counter := 0 } 200 = true :=
  ⟨by decide, by decide,
   (broadcast_admitted_at_zero { blank with m_bash_counter := 0 } 200 (by decide)).1
     (by decide)⟩

/-- C9: when `m_bash_counter = HIGH_RANGE` (256), `broadcastBandwidthAvailable(rand)`
returns false for every integer `rand`; a freshly constructed throttle has
`m_bash_counter = HIGH_RANGE` and so refuses every broadcast. -/
theorem broadcast_refused_at_high_range :
    (∀ (t : Throttle) (rand : Int), t.m_bash_counter = HIGH_RANGE →
        t.broadcastBandwidthAvailable rand = false) ∧
    (∀ (sID node link_latency link_bandwidth_multiplier now : Int) (t : Throttle),
        construct sID node link_latency link_bandwidth_multiplier now = .ok t →
        t.m_bash_counter = HIGH_RANGE ∧
        ∀ rand : Int, t.broadcastBandwidthAvailable rand = false) := by
  have key : ∀ (t : Throttle) (rand : Int), t.m_bash_counter = HIGH_RANGE →
      t.broadcastBandwidthAvailable rand = false := by
    intro t rand h
    have hb := tmod_128_bounds rand
    have e2 : Int.tdiv HIGH_RANGE 2 = 128 := by decide
    have e4 : Int.tdiv HIGH_RANGE 4 = 64 := by decide
    rw [broadcastBandwidthAvailable, h, e2, e4]
    simp [HIGH_RANGE]
    omega
  refine ⟨key, ?_⟩
  intro sID node lat mult now t h
  have hc : t.m_bash_counter = HIGH_RANGE := by
    unfold construct init at h
    split at h
    · simp at h
    · rename_i t0 h0
      split at h0
      · simp at h0
        simp at h
        subst h0
        subst h
        simp [clearStats]
      · simp at h0
  exact ⟨hc, fun rand => key t rand hc⟩

/-- C9 at a negative `rand` and at the freshly constructed example throttle. -/
theorem broadcast_refused_at_high_range_witness :
    Examples.fresh.m_bash_counter = HIGH_RANGE ∧
    broadcastBandwidthAvailable Examples.fresh (-65) = false ∧
    construct 0 0 1 1 0 = .ok Examples.fresh ∧
    ∀ rand : Int, Examples.fresh.broadcastBandwidthAvailable rand = false :=
  ⟨by decide, broadcast_refused_at_high_range.1 Examples.fresh (-65) (by decide),
   by decide!,
   (broadcast_refused_at_high_range.2 0 0 1 1 0 Examples.fresh (by decide!)).2⟩

/-- C10: let `w` be `m_wakeups_wo_switch` on entry.  If `w + 1 ≤ 128` the wakeup visits
the virtual networks in the order `V-1, ..., 0` and leaves the counter at `w + 1`; if
`w + 1 > 128` it visits them in the order `0, ..., V-1` and leaves the counter at 0.
Either way every index below `V` is visited exactly once and nothing else is, and
the wakeup of a well-formed throttle completes.  After
`n` wakeups of a constructed throttle the counter is `n mod 129`, so wakeup `n + 1` is
ascending exactly when `129` divides `n + 1`. -/
theorem priority_inversion_schedule :
    (∀ (t : Throttle) (V : Nat), t.m_vnets = (V : Int) →
      (t.m_wakeups_wo_switch + 1 ≤ 128 →
        vnet_order t = (List.range V).reverse.map Int.ofNat ∧
        ∀ (int_of : Nat → Int) (bw : Int) (threshold : ℚ) (now : Int) (t1 : Throttle)
          (scheduled : Bool),
          wakeup int_of bw threshold now t = .ok (t1, scheduled) →
          t1.m_wakeups_wo_switch = t.m_wakeups_wo_switch + 1) ∧
      (t.m_wakeups_wo_switch + 1 > 128 →
        vnet_order t = (List.range V).map Int.ofNat ∧
        ∀ (int_of : Nat → Int) (bw : Int) (threshold : ℚ) (now : Int) (t1 : Throttle)
          (scheduled : Bool),
          wakeup int_of bw threshold now t = .ok (t1, scheduled) →
          t1.m_wakeups_wo_switch = 0) ∧
      (∀ v : Nat, v < V → (vnet_order t).count (v : Int) = 1) ∧
      (∀ x ∈ vnet_order t, 0 ≤ x ∧ x < (V : Int)) ∧
      (V = 0 → vnet_order t = []) ∧
      (∀ (int_of : Nat → Int) (bw : Int) (threshold : ℚ) (now : Int) (NUM : Nat),
        WellFormed NUM t → 0 < bw →
        ∃ (t1 : Throttle) (scheduled : Bool),
          wakeup int_of bw threshold now t = .ok (t1, scheduled) ∧
          t1.m_wakeups_wo_switch =
            if t.m_wakeups_wo_switch + 1 ≤ 128 then t.m_wakeups_wo_switch + 1 else 0)) ∧
    (∀ (int_of : Nat → Int) (bw : Int) (threshold : ℚ) (n : Nat) (t : Throttle),
      Reachable int_of bw threshold n t →
      t.m_wakeups_wo_switch = ((n % 129 : Nat) : Int) ∧
      vnet_order t =
        if (n + 1) % 129 = 0 then (List.range t.m_vnets.toNat).map Int.ofNat
        else (List.range t.m_vnets.toNat).reverse.map Int.ofNat) := by
  constructor
  · intro t V hV
    have ho := vnet_order_eq t V hV
    simp only [PRIORITY_SWITCH_LIMIT] at ho
    refine ⟨?_, ?_, ?_, ?_, ?_, ?_⟩
    · intro hw
      rw [if_neg (by omega)] at ho
      refine ⟨ho, ?_⟩
      intro int_of bw threshold now t1 scheduled h
      rw [wakeup_wakeups_wo_switch h]
      simp only [priority, PRIORITY_SWITCH_LIMIT]
      rw [if_neg (by omega)]
    · intro hw
      rw [if_pos hw] at ho
      refine ⟨ho, ?_⟩
      intro int_of bw threshold now t1 scheduled h
      rw [wakeup_wakeups_wo_switch h]
      simp only [priority, PRIORITY_SWITCH_LIMIT]
      rw [if_pos hw]
    · intro v hv
      rw [ho]
      split
      · exact ascending_count V v hv
      · exact descending_count V v hv
    · intro x hx
      rw [ho] at hx
      split at hx
      · obtain ⟨a, ha, rfl⟩ := List.mem_map.1 hx
        have := List.mem_range.1 ha
        exact ⟨Int.ofNat_nonneg a, Int.ofNat_lt.2 this⟩
      · obtain ⟨a, ha, rfl⟩ := List.mem_map.1 hx
        have := List.mem_range.1 (List.mem_reverse.1 ha)
        exact ⟨Int.ofNat_nonneg a, Int.ofNat_lt.2 this⟩
    · intro h0
      rw [ho, h0]
      simp
    · intro int_of bw threshold now NUM hwf hbw
      obtain ⟨t1, scheduled, h, _⟩ := wakeup_total int_of bw threshold now NUM t hwf hbw
      refine ⟨t1, scheduled, h, ?_⟩
      rw [wakeup_wakeups_wo_switch h]
      simp only [priority, PRIORITY_SWITCH_LIMIT]
      split <;> split <;> first | rfl | omega
  · intro int_of bw threshold n t hr
    obtain ⟨i1, i2, _, _⟩ := (reachable_invariant hr)
    refine ⟨i2, ?_⟩
    rw [vnet_order_eq t t.m_vnets.toNat (by omega), i2]
    simp only [PRIORITY_SWITCH_LIMIT]
    by_cases hn : (n + 1) % 129 = 0
    · rw [if_pos hn, if_pos (by omega)]
    · rw [if_neg hn, if_neg (by omega)]

/-- C10 at the example throttle: its first wakeup is descending, and with the counter at
128 the wakeup is ascending and resets the counter. -/
theorem priority_inversion_schedule_witness :
    vnet_order Examples.linked = [1, 0] ∧
    vnet_order { Examples.linked with m_wakeups_wo_switch := 128 } = [0, 1] ∧
    Examples.woken.m_wakeups_wo_switch = Examples.linked.m_wakeups_wo_switch + 1 ∧
    vnet_order Examples.woken =
      (if (1 + 1) % 129 = 0 then (List.range Examples.woken.m_vnets.toNat).map Int.ofNat
       else (List.range Examples.woken.m_vnets.toNat).reverse.map Int.ofNat) :=
  ⟨((priority_inversion_schedule.1 Examples.linked 2 rfl).1 (by decide)).1,
   ((priority_inversion_schedule.1 { Examples.linked with m_wakeups_wo_switch := 128 } 2
      rfl).2.1 (by decide)).1,
   ((priority_inversion_schedule.1 Examples.linked 2 rfl).1 (by decide)).2
      Examples.int_of 5000 (1 / 2) 0 Examples.woken true (by decide!),
   (priority_inversion_schedule.2 Examples.int_of 5000 (1 / 2) 1 Examples.woken
      woken_reachable).2⟩

/-- C15: `network_message_to_size` returns `int_of(size) * MESSAGE_SIZE_MULTIPLIER`
(1000), multiplied further by `BROADCAST_SCALING` exactly when `BROADCAST_SCALING > 1`
and the destination is a broadcast.  The products are the `int` products of the code;
they are the exact products whenever these fit an `int`.  With the shipped
`BROADCAST_SCALING = 1` the result is `int_of(size) * 1000` whatever the destination,
and a null message ends in the failed assertion. -/
theorem network_message_to_size_value (int_of : Nat → Int) (m : NetworkMessage) :
    (∀ scaling : Int,
      network_message_to_size_scaled scaling int_of (some m) =
        .ok (if scaling > 1 ∧ m.m_Destination.isBroadcast = true
             then wrap32 (wrap32 (int_of m.m_MessageSize * 1000) * scaling)
             else wrap32 (int_of m.m_MessageSize * 1000))) ∧
    (∀ scaling : Int,
      -2147483648 ≤ int_of m.m_MessageSize * 1000 →
      int_of m.m_MessageSize * 1000 < 2147483648 →
      (scaling > 1 ∧ m.m_Destination.isBroadcast = true →
        -2147483648 ≤ int_of m.m_MessageSize * 1000 * scaling ∧
        int_of m.m_MessageSize * 1000 * scaling < 2147483648) →
      network_message_to_size_scaled scaling int_of (some m) =
        .ok (if scaling > 1 ∧ m.m_Destination.isBroadcast = true
             then int_of m.m_MessageSize * 1000 * scaling
             else int_of m.m_MessageSize * 1000)) ∧
    (∀ p : Option NetworkMessage,
      network_message_to_size int_of p
        = network_message_to_size_scaled BROADCAST_SCALING int_of p) ∧
    BROADCAST_SCALING = 1 ∧ MESSAGE_SIZE_MULTIPLIER = 1000 ∧
    network_message_to_size int_of (some m)
      = .ok (wrap32 (int_of m.m_MessageSize * 1000)) ∧
    (-2147483648 ≤ int_of m.m_MessageSize * 1000 →
      int_of m.m_MessageSize * 1000 < 2147483648 →
      network_message_to_size int_of (some m) = .ok (int_of m.m_MessageSize * 1000)) ∧
    network_message_to_size int_of none = .error .null_message := by
  have hscaled : ∀ scaling : Int,
      network_message_to_size_scaled scaling int_of (some m) =
        .ok (if scaling > 1 ∧ m.m_Destination.isBroadcast = true
             then wrap32 (wrap32 (int_of m.m_MessageSize * 1000) * scaling)
             else wrap32 (int_of m.m_MessageSize * 1000)) := by
    intro scaling
    unfold network_message_to_size_scaled
    simp only [MESSAGE_SIZE_MULTIPLIER]
    split <;> rfl
  refine ⟨hscaled, ?_, fun p => rfl, rfl, rfl, ?_, ?_, rfl⟩
  · intro scaling hlo hhi hfit
    rw [hscaled scaling, wrap32_eq _ hlo hhi]
    by_cases hc : scaling > 1 ∧ m.m_Destination.isBroadcast = true
    · rw [if_pos hc, if_pos hc, wrap32_eq _ (hfit hc).1 (hfit hc).2]
    · rw [if_neg hc, if_neg hc]
  · rw [network_message_to_size_some]
    simp only [MESSAGE_SIZE_MULTIPLIER]
  · intro hlo hhi
    rw [network_message_to_size_some]
    simp only [MESSAGE_SIZE_MULTIPLIER]
    rw [wrap32_eq _ hlo hhi]

/-- C15 at a broadcast message of four units: 4000 with the shipped constant, 8000 if
`BROADCAST_SCALING` were 2. -/
theorem network_message_to_size_value_witness :
    (-2147483648 : Int) ≤ Examples.int_of 1 * 1000 ∧
    Examples.int_of 1 * 1000 < 2147483648 ∧
    network_message_to_size Examples.int_of (some ⟨7, 1, ⟨[0, 1], true⟩⟩) = .ok 4000 ∧
    network_message_to_size_scaled 2 Examples.int_of (some ⟨7, 1, ⟨[0, 1], true⟩⟩)
      = .ok 8000 :=
  ⟨by decide, by decide,
   (network_message_to_size_value Examples.int_of ⟨7, 1, ⟨[0, 1], true⟩⟩).2.2.2.2.2.2.1
      (by decide) (by decide),
   (network_message_to_size_value Examples.int_of ⟨7, 1, ⟨[0, 1], true⟩⟩).2.1 2
      (by decide) (by decide) (fun _ => ⟨by decide, by decide⟩)⟩

/-- C11 does not hold as stated: a throttle with one virtual network, link bandwidth
1000 and a single ready message of 1000 units moves the message and is left with no
pending work (empty input buffer, `units_remaining = 0`) and `schedule_wakeup` unset,
but `bw_remaining = 0`, and it schedules itself for the next cycle all the same. -/
theorem rescheduling_without_pending_work :
    (wakeup Examples.int_of 1000 (1 / 2) 0
        (Examples.single ⟨[⟨0, Examples.message 1 0⟩], 10⟩ ⟨[], 10⟩)).map
      (fun r => (r.2, r.1.m_in, r.1.m_out, r.1.m_units_remaining, pending 0 r.1 0))
      = .ok (true, [⟨[], 10⟩], [⟨[⟨1, Examples.message 1 0⟩], 10⟩], [0], false) ∧
    (wakeup_locals Examples.int_of 1000 0
        (Examples.single ⟨[⟨0, Examples.message 1 0⟩], 10⟩ ⟨[], 10⟩)).map
      (fun w => (w.bw_remaining, w.schedule_wakeup)) = .ok (0, false) := by
  decide!

/-- C11, amended: a wakeup of a well-formed throttle with a positive link bandwidth
completes, and with `w` the locals at the end of the loop over the virtual networks it
schedules itself for the next cycle if and only if `schedule_wakeup` is set or
`bw_remaining = 0`, whether or not work is pending; `schedule_wakeup` is set only if
some virtual network has pending work and no free slot in its output buffer; and when
the throttle does not schedule itself no virtual network has pending work. -/
theorem rescheduling_rule (int_of : Nat → Int) (bw : Int) (threshold : ℚ) (now : Int)
    (NUM : Nat) (t : Throttle) (hw : WellFormed NUM t) (hbw : 0 < bw) :
    ∃ (t1 : Throttle) (scheduled : Bool) (w : WakeupState),
      wakeup int_of bw threshold now t = .ok (t1, scheduled) ∧
      wakeup_locals int_of bw now t = .ok w ∧
      0 ≤ w.bw_remaining ∧
      (scheduled = true ↔ (w.schedule_wakeup = true ∨ w.bw_remaining = 0)) ∧
      (w.schedule_wakeup = true → ∃ v : Nat, blocked now t1 v = true) ∧
      (scheduled = false → ∀ v : Nat, pending now t1 v = false) := by
  obtain ⟨t1, scheduled, w, h, hl, h0, hiff, hflag, hpend⟩ :=
    wakeup_rescheduling int_of bw threshold now NUM t hw hbw
  refine ⟨t1, scheduled, w, h, hl, h0, hiff, hflag, ?_⟩
  intro hs v
  by_contra hp
  have hp1 : pending now t1 v = true := by simpa using hp
  have : scheduled = true := by
    rcases hpend v hp1 with h1 | h1
    · exact hiff.2 (Or.inr h1)
    · exact hiff.2 (Or.inl h1.2)
  rw [hs] at this
  exact absurd this (by decide)

/-- C11, amended, at the example throttle with two virtual networks and a link
bandwidth of 5000. -/
theorem rescheduling_rule_witness :
    WellFormed 2 Examples.linked ∧ (0 : Int) < 5000 ∧
    ∃ (t1 : Throttle) (scheduled : Bool) (w : WakeupState),
      wakeup Examples.int_of 5000 (1 / 2) 0 Examples.linked = .ok (t1, scheduled) ∧
      wakeup_locals Examples.int_of 5000 0 Examples.linked = .ok w ∧
      0 ≤ w.bw_remaining ∧
      (scheduled = true ↔ (w.schedule_wakeup = true ∨ w.bw_remaining = 0)) ∧
      (w.schedule_wakeup = true → ∃ v : Nat, blocked 0 t1 v = true) ∧
      (scheduled = false → ∀ v : Nat, pending 0 t1 v = false) :=
  ⟨by decide, by decide,
   rescheduling_rule Examples.int_of 5000 (1 / 2) 0 2 Examples.linked (by decide)
     (by decide)⟩

/-- C12: a wakeup of a well-formed throttle with a positive link bandwidth completes,
and if a virtual network `v` has pending work at its end (a ready message at the head
of `in[v]` or `units_remaining[v] > 0`) then the throttle has scheduled itself for the
next cycle: either no link bandwidth is left, or `out[v]` has no free slot and
`schedule_wakeup` was set. -/
theorem pending_work_is_rescheduled (int_of : Nat → Int) (bw : Int) (threshold : ℚ)
    (now : Int) (NUM : Nat) (t : Throttle) (hw : WellFormed NUM t) (hbw : 0 < bw) :
    ∃ (t1 : Throttle) (scheduled : Bool) (w : WakeupState),
      wakeup int_of bw threshold now t = .ok (t1, scheduled) ∧
      wakeup_locals int_of bw now t = .ok w ∧
      ∀ v : Nat, pending now t1 v = true →
        scheduled = true ∧
        (w.bw_remaining = 0 ∨ (blocked now t1 v = true ∧ w.schedule_wakeup = true)) := by
  obtain ⟨t1, scheduled, w, h, hl, _, hiff, _, hpend⟩ :=
    wakeup_rescheduling int_of bw threshold now NUM t hw hbw
  refine ⟨t1, scheduled, w, h, hl, ?_⟩
  intro v hp
  refine ⟨?_, hpend v hp⟩
  rcases hpend v hp with h1 | h1
  · exact hiff.2 (Or.inr h1)
  · exact hiff.2 (Or.inl h1.2)

/-- C12 at a throttle whose only output buffer is full: the message stays in the input
buffer and the throttle schedules itself. -/
theorem pending_work_is_rescheduled_witness :
    WellFormed 2 (Examples.single ⟨[⟨0, Examples.message 1 0⟩], 10⟩
      ⟨[⟨0, Examples.message 9 0⟩], 1⟩) ∧
    (0 : Int) < 5000 ∧
    (wakeup Examples.int_of 5000 (1 / 2) 0
        (Examples.single ⟨[⟨0, Examples.message 1 0⟩], 10⟩
          ⟨[⟨0, Examples.message 9 0⟩], 1⟩)).map
      (fun r => (r.2, pending 0 r.1 0)) = .ok (true, true) ∧
    ∃ (t1 : Throttle) (scheduled : Bool) (w : WakeupState),
      wakeup Examples.int_of 5000 (1 / 2) 0
        (Examples.single ⟨[⟨0, Examples.message 1 0⟩], 10⟩
          ⟨[⟨0, Examples.message 9 0⟩], 1⟩) = .ok (t1, scheduled) ∧
      wakeup_locals Examples.int_of 5000 0
        (Examples.single ⟨[⟨0, Examples.message 1 0⟩], 10⟩
          ⟨[⟨0, Examples.message 9 0⟩], 1⟩) = .ok w ∧
      ∀ v : Nat, pending 0 t1 v = true →
        scheduled = true ∧
        (w.bw_remaining = 0 ∨ (blocked 0 t1 v = true ∧ w.schedule_wakeup = true)) :=
  ⟨by decide, by decide, by decide!,
   pending_work_is_rescheduled Examples.int_of 5000 (1 / 2) 0 2 _ (by decide)
     (by decide)⟩

/-- C18: a wakeup of a well-formed throttle whose input buffers are all empty completes
and leaves every input buffer, every output buffer and every message counter as it
was.  If in addition every `units_remaining[v]` is 0, the loop over the virtual
networks changes nothing (`bw_remaining` is still `bw`, `schedule_wakeup` is unset),
the throttle does not schedule itself, and the state afterwards is the old one with
the new `m_wakeups_wo_switch` run through the predictor loop: only
`m_wakeups_wo_switch`, `m_bash_counter`, `m_last_bandwidth_sample` and
`m_bandwidth_since_sample` can differ. -/
theorem wakeup_on_empty_inputs (int_of : Nat → Int) (bw : Int) (threshold : ℚ)
    (now : Int) (NUM : Nat) (t : Throttle) (hw : WellFormed NUM t) (hbw : 0 < bw)
    (hin : ∀ b ∈ t.m_in, b.entries = []) :
    ∃ (t1 : Throttle) (scheduled : Bool),
      wakeup int_of bw threshold now t = .ok (t1, scheduled) ∧
      t1.m_in = t.m_in ∧ t1.m_out = t.m_out ∧
      t1.m_message_counters = t.m_message_counters ∧
      ((∀ u ∈ t.m_units_remaining, u = 0) →
        wakeup_locals int_of bw now t =
          .ok ⟨{ t with m_wakeups_wo_switch := (priority t).wakeups_wo_switch }, bw, false⟩ ∧
        scheduled = false ∧
        t1 = bash_loop bw threshold now (bash_fuel now t)
          { t with m_wakeups_wo_switch := (priority t).wakeups_wo_switch } ∧
        t1 = { t with
          m_wakeups_wo_switch := (priority t).wakeups_wo_switch
          m_bash_counter := t1.m_bash_counter
          m_last_bandwidth_sample := t1.m_last_bandwidth_sample
          m_bandwidth_since_sample := t1.m_bandwidth_since_sample }) := by
  obtain ⟨t1, scheduled, h, _⟩ := wakeup_total int_of bw threshold now NUM t hw hbw
  obtain ⟨_, w, hfor, ht1, hsched⟩ := wakeup_ok h
  obtain ⟨a1, a2, a3, a4⟩ := wakeup_for_empty (vnet_order t) hfor hin
  simp only at a1 a2 a3 a4
  have hpl := bash_loop_accounted bw threshold now
      (bash_fuel now (accounted bw w)) w
  rw [← ht1] at hpl
  obtain ⟨_, _, _, p4, p5, p6, _, _⟩ := hpl
  refine ⟨t1, scheduled, h, p4.trans a1, p5.trans a2, p6.trans a3, ?_⟩
  intro hz
  have hw0 := a4 hz
  subst hw0
  have hstate : accounted bw
      ⟨{ t with m_wakeups_wo_switch := (priority t).wakeups_wo_switch }, bw, false⟩
      = { t with m_wakeups_wo_switch := (priority t).wakeups_wo_switch } :=
    accounted_idle bw _ false hbw
  simp only at hsched
  rw [hstate] at ht1
  have hfuel : bash_fuel now
      { t with m_wakeups_wo_switch := (priority t).wakeups_wo_switch } = bash_fuel now t :=
    rfl
  rw [hfuel] at ht1
  refine ⟨hfor, ?_, ht1, ?_⟩
  · rw [hsched]
    simp [hbw]
  · have hframe := bash_loop_frame bw threshold now (bash_fuel now t)
      { t with m_wakeups_wo_switch := (priority t).wakeups_wo_switch }
    rw [← ht1] at hframe
    exact hframe

/-- C18 at a throttle whose only input buffer is empty while a message waits in its
output buffer: a wakeup at cycle 7 changes `m_wakeups_wo_switch` only and the throttle
does not schedule itself. -/
theorem wakeup_on_empty_inputs_witness :
    WellFormed 2 (Examples.single ⟨[], 10⟩ ⟨[⟨1, Examples.message 1 0⟩], 10⟩) ∧
    (0 : Int) < 1000 ∧
    wakeup Examples.int_of 1000 (1 / 2) 7
        (Examples.single ⟨[], 10⟩ ⟨[⟨1, Examples.message 1 0⟩], 10⟩)
      = .ok ({ Examples.single ⟨[], 10⟩ ⟨[⟨1, Examples.message 1 0⟩], 10⟩ with
                m_wakeups_wo_switch := 1 }, false) ∧
    ∃ (t1 : Throttle) (scheduled : Bool),
      wakeup Examples.int_of 1000 (1 / 2) 7
        (Examples.single ⟨[], 10⟩ ⟨[⟨1, Examples.message 1 0⟩], 10⟩)
        = .ok (t1, scheduled) ∧
      t1.m_in = [⟨[], 10⟩] ∧ t1.m_out = [⟨[⟨1, Examples.message 1 0⟩], 10⟩] ∧
      t1.m_message_counters = [[0], [0]] :=
  ⟨by decide, by decide, by decide!,
   (wakeup_on_empty_inputs Examples.int_of 1000 (1 / 2) 7 2
      (Examples.single ⟨[], 10⟩ ⟨[⟨1, Examples.message 1 0⟩], 10⟩) (by decide)
      (by decide) (by decide)).imp
     fun _ h1 => h1.imp fun _ h2 => ⟨h2.1, h2.2.1, h2.2.2.1, h2.2.2.2.1⟩⟩

/-- C19: in a well-formed throttle with two virtual networks that both have
`units_remaining = 0`, a ready head message of at least `bw` units and a free output
slot, a wakeup completes, serves exactly one virtual network and schedules itself: in
a normal wakeup the head message of VN 1 moves to `out[1]`, `units_remaining[1]` is
its size less `bw`, and `in[0]`, `out[0]` and `units_remaining[0]` are untouched; in
the inversion wakeup (`m_wakeups_wo_switch + 1 > 128`, after which the counter is 0)
the roles of VN 0 and VN 1 are exchanged.  In both cases `bw_remaining = 0` at the end
of the loop over the virtual networks. -/
theorem head_of_line_service (int_of : Nat → Int) (bw : Int) (threshold : ℚ) (now : Int)
    (NUM : Nat) (t : Throttle) (i0 i1 o0 o1 : MessageBuffer) (m0 m1 : MessageBufferNode)
    (r0 r1 : List MessageBufferNode) (s0 s1 : Int)
    (hw : WellFormed NUM t) (hbw : 0 < bw) (hV : t.m_vnets = 2)
    (hin : t.m_in = [i0, i1]) (hout : t.m_out = [o0, o1])
    (hun : t.m_units_remaining = [0, 0])
    (he0 : i0.entries = m0 :: r0) (he1 : i1.entries = m1 :: r1)
    (ht0 : m0.m_time ≤ now) (ht1 : m1.m_time ≤ now)
    (hz0 : network_message_to_size int_of (some m0.m_msgptr) = .ok s0)
    (hz1 : network_message_to_size int_of (some m1.m_msgptr) = .ok s1)
    (hs0 : bw ≤ s0) (hs1 : bw ≤ s1)
    (hf0 : o0.areNSlotsAvailable 1 = true) (hf1 : o1.areNSlotsAvailable 1 = true) :
    ∃ (t1 : Throttle) (w : WakeupState),
      wakeup int_of bw threshold now t = .ok (t1, true) ∧
      wakeup_locals int_of bw now t = .ok w ∧ w.bw_remaining = 0 ∧
      (t.m_wakeups_wo_switch + 1 ≤ PRIORITY_SWITCH_LIMIT →
        t1.m_wakeups_wo_switch = t.m_wakeups_wo_switch + 1 ∧
        t1.m_in = [i0, ⟨r1, i1.capacity⟩] ∧
        t1.m_out = [o0, o1.enqueue m1.m_msgptr t.m_link_latency now] ∧
        t1.m_units_remaining = [0, s1 - bw] ∧
        count_message t.m_message_counters m1.m_msgptr.m_MessageSize 1
          = some t1.m_message_counters) ∧
      (t.m_wakeups_wo_switch + 1 > PRIORITY_SWITCH_LIMIT →
        t1.m_wakeups_wo_switch = 0 ∧
        t1.m_in = [⟨r0, i0.capacity⟩, i1] ∧
        t1.m_out = [o0.enqueue m0.m_msgptr t.m_link_latency now, o1] ∧
        t1.m_units_remaining = [s0 - bw, 0] ∧
        count_message t.m_message_counters m0.m_msgptr.m_MessageSize 0
          = some t1.m_message_counters) := by
  obtain ⟨hV0, hlin, hlout, hlun, hnn, hcl, hcr, htag⟩ := hw
  have hV2 : t.m_vnets.toNat = 2 := by rw [hV]; rfl
  have htag0 : m0.m_msgptr.m_MessageSize < NUM :=
    htag i0 (by rw [hin]; simp) m0 (by rw [he0]; simp)
  have htag1 : m1.m_msgptr.m_MessageSize < NUM :=
    htag i1 (by rw [hin]; simp) m1 (by rw [he1]; simp)
  obtain ⟨c0, hc0, _, _⟩ := @count_message_total NUM t.m_vnets.toNat
    t.m_message_counters m0.m_msgptr.m_MessageSize ((0 : Nat) : Int) hcl hcr htag0
    (by decide) (by rw [hV2]; decide)
  obtain ⟨c1, hc1, _, _⟩ := @count_message_total NUM t.m_vnets.toNat
    t.m_message_counters m1.m_msgptr.m_MessageSize ((1 : Nat) : Int) hcl hcr htag1
    (by decide) (by rw [hV2]; decide)
  by_cases hp : t.m_wakeups_wo_switch + 1 > PRIORITY_SWITCH_LIMIT
  · -- the inversion wakeup: VN 0 first
    have hprio : (priority t).wakeups_wo_switch = 0 := by
      unfold priority; simp only; rw [if_pos hp]
    have hv0 := wakeup_vnet_take_all int_of now
      ⟨{ t with m_wakeups_wo_switch := (priority t).wakeups_wo_switch }, bw, false⟩ 0
      o0 i0 m0 r0 s0 c0 (by simp [hout]) (by simp [hin]) (by simp [hun]) he0 ht0 hbw hf0
      hz0 hs0 hc0
    simp only [hin, hout, hun, List.set_cons_zero] at hv0
    have hv1 := wakeup_vnet_no_bandwidth int_of now
      ⟨{ t with
          m_wakeups_wo_switch := (priority t).wakeups_wo_switch
          m_in := [⟨r0, i0.capacity⟩, i1]
          m_out := [o0.enqueue m0.m_msgptr t.m_link_latency now, o1]
          m_units_remaining := [s0 - bw, 0]
          m_message_counters := c0 }, 0, false⟩ 1 o1 i1 0 rfl rfl rfl (le_refl 0)
      (le_refl 0)
    have hl : wakeup_locals int_of bw now t = .ok
        ⟨{ t with
          m_wakeups_wo_switch := (priority t).wakeups_wo_switch
          m_in := [⟨r0, i0.capacity⟩, i1]
          m_out := [o0.enqueue m0.m_msgptr t.m_link_latency now, o1]
          m_units_remaining := [s0 - bw, 0]
          m_message_counters := c0 }, 0, false⟩ := by
      unfold wakeup_locals
      rw [vnet_order_two t hV, if_pos hp]
      simp only [wakeup_for, hin, hout, hun]
      rw [hv0]
      simp only
      rw [hv1]
    obtain ⟨t1, hwk, q1, q2, q3, q4, q5, _, _⟩ :=
      wakeup_of_locals int_of bw threshold now t _ hbw hl
    simp only at hwk q1 q2 q3 q4 q5
    refine ⟨t1, _, hwk, hl, rfl, fun hn => absurd hp (by omega), fun _ => ?_⟩
    rw [q1, q2, q3, q4, q5]
    exact ⟨hprio, rfl, rfl, rfl, hc0⟩
  · -- a normal wakeup: VN 1 first
    have hprio : (priority t).wakeups_wo_switch = t.m_wakeups_wo_switch + 1 := by
      unfold priority; simp only; rw [if_neg hp]
    have hv1 := wakeup_vnet_take_all int_of now
      ⟨{ t with m_wakeups_wo_switch := (priority t).wakeups_wo_switch }, bw, false⟩ 1
      o1 i1 m1 r1 s1 c1 (by simp [hout]) (by simp [hin]) (by simp [hun]) he1 ht1 hbw hf1
      hz1 hs1 hc1
    simp only [hin, hout, hun, List.set_cons_succ, List.set_cons_zero] at hv1
    have hv0 := wakeup_vnet_no_bandwidth int_of now
      ⟨{ t with
          m_wakeups_wo_switch := (priority t).wakeups_wo_switch
          m_in := [i0, ⟨r1, i1.capacity⟩]
          m_out := [o0, o1.enqueue m1.m_msgptr t.m_link_latency now]
          m_units_remaining := [0, s1 - bw]
          m_message_counters := c1 }, 0, false⟩ 0 o0 i0 0 rfl rfl rfl (le_refl 0)
      (le_refl 0)
    have hl : wakeup_locals int_of bw now t = .ok
        ⟨{ t with
          m_wakeups_wo_switch := (priority t).wakeups_wo_switch
          m_in := [i0, ⟨r1, i1.capacity⟩]
          m_out := [o0, o1.enqueue m1.m_msgptr t.m_link_latency now]
          m_units_remaining := [0, s1 - bw]
          m_message_counters := c1 }, 0, false⟩ := by
      unfold wakeup_locals
      rw [vnet_order_two t hV, if_neg hp]
      simp only [wakeup_for, hin, hout, hun]
      rw [hv1]
      simp only
      rw [hv0]
    obtain ⟨t1, hwk, q1, q2, q3, q4, q5, _, _⟩ :=
      wakeup_of_locals int_of bw threshold now t _ hbw hl
    simp only at hwk q1 q2 q3 q4 q5
    refine ⟨t1, _, hwk, hl, rfl, fun _ => ?_, fun hn => absurd hn hp⟩
    rw [q1, q2, q3, q4, q5]
    exact ⟨hprio, rfl, rfl, rfl, hc1⟩

/-- C19 at the example throttle with two saturated virtual networks and a link
bandwidth of 1000: with `m_wakeups_wo_switch = 0` the wakeup moves message 3 of VN 1,
with `m_wakeups_wo_switch = 128` (the inversion wakeup) message 1 of VN 0; the other
virtual network keeps its two messages. -/
theorem head_of_line_service_witness :
    WellFormed 2 (Examples.saturated 128) ∧
    (wakeup Examples.int_of 1000 (1 / 2) 0 (Examples.saturated 0)).map
      (fun r => (r.2, r.1.m_in, r.1.m_out, r.1.m_units_remaining,
        r.1.m_wakeups_wo_switch))
      = .ok (true,
          [⟨[⟨0, Examples.message 1 1⟩, ⟨0, Examples.message 2 1⟩], 10⟩,
           ⟨[⟨0, Examples.message 4 1⟩], 10⟩],
          [⟨[], 10⟩, ⟨[⟨1, Examples.message 3 1⟩], 10⟩], [0, 3000], 1) ∧
    ∃ (t1 : Throttle) (w : WakeupState),
      wakeup Examples.int_of 1000 (1 / 2) 0 (Examples.saturated 128) = .ok (t1, true) ∧
      w.bw_remaining = 0 ∧
      t1.m_wakeups_wo_switch = 0 ∧
      t1.m_in = [⟨[⟨0, Examples.message 2 1⟩], 10⟩,
                 ⟨[⟨0, Examples.message 3 1⟩, ⟨0, Examples.message 4 1⟩], 10⟩] ∧
      t1.m_out = [⟨[⟨1, Examples.message 1 1⟩], 10⟩, ⟨[], 10⟩] ∧
      t1.m_units_remaining = [3000, 0] :=
  ⟨by decide, by decide!,
   (head_of_line_service Examples.int_of 1000 (1 / 2) 0 2 (Examples.saturated 128)
      ⟨[⟨0, Examples.message 1 1⟩, ⟨0, Examples.message 2 1⟩], 10⟩
      ⟨[⟨0, Examples.message 3 1⟩, ⟨0, Examples.message 4 1⟩], 10⟩
      ⟨[], 10⟩ ⟨[], 10⟩ ⟨0, Examples.message 1 1⟩ ⟨0, Examples.message 3 1⟩
      [⟨0, Examples.message 2 1⟩] [⟨0, Examples.message 4 1⟩] 4000 4000
      (by decide) (by decide) rfl rfl rfl rfl rfl rfl (by decide) (by decide)
      (by decide) (by decide) (by decide) (by decide) (by decide) (by decide)).imp
     fun _ h1 => h1.imp fun _ h2 =>
       ⟨h2.1, h2.2.2.1, (h2.2.2.2.2 (by decide)).1, (h2.2.2.2.2 (by decide)).2.1,
        (h2.2.2.2.2 (by decide)).2.2.1, (h2.2.2.2.2 (by decide)).2.2.2.1⟩⟩

/-- C13: take a well-formed throttle with a single virtual network,
`units_remaining = 0`, a positive link bandwidth `bw`, an input buffer whose `k`
messages are all ready and all of `bw` units, and an output buffer with `min(n, k)`
free slots.  Then `n` successive wakeups complete and move exactly the first `min(n, k)`
messages, one per wakeup: `in[0]` is left with the others, `out[0]` holds in addition
the moved messages in order, the `j`-th of them stamped with the cycle of the `j`-th
wakeup plus the link latency, and `units_remaining` is 0 again. -/
theorem one_message_per_cycle (int_of : Nat → Int) (bw : Int) (threshold : ℚ)
    (NUM : Nat) (n : Nat) (now : Int) (t : Throttle) (i o : MessageBuffer)
    (hw : WellFormed NUM t) (hbw : 0 < bw) (hV : t.m_vnets = 1)
    (hin : t.m_in = [i]) (hout : t.m_out = [o]) (hun : t.m_units_remaining = [0])
    (hmsg : ∀ m ∈ i.entries, m.m_time ≤ now ∧
      network_message_to_size int_of (some m.m_msgptr) = .ok bw)
    (hcap : o.entries.length + min n i.entries.length ≤ o.capacity) :
    ∃ (t1 : Throttle) (flags : List Bool),
      wakeups int_of bw threshold n now t = .ok (t1, flags) ∧
      t1.m_in = [⟨i.entries.drop n, i.capacity⟩] ∧
      t1.m_out = [⟨o.entries ++ delivered t.m_link_latency now (i.entries.take n),
        o.capacity⟩] ∧
      t1.m_units_remaining = [0] ∧
      (delivered t.m_link_latency now (i.entries.take n)).length
        = min n i.entries.length := by
  obtain ⟨t1, flags, h, a1, a2, a3⟩ := wakeups_unit_bandwidth int_of bw threshold NUM n
    now t i o hw hbw hV hin hout hun hmsg hcap
  refine ⟨t1, flags, h, a1, a2, a3, ?_⟩
  rw [delivered_length, List.length_take]

/-- C13 at the example throttle with four messages of 1000 units, link bandwidth 1000
and link latency 1: wakeups at cycles 0 to 4 deliver the messages with arrival times
1, 2, 3 and 4; the first four wakeups schedule the next one, the fifth finds nothing
and does not. -/
theorem one_message_per_cycle_witness :
    WellFormed 2 (Examples.single Examples.unit_queue ⟨[], 10⟩) ∧
    (wakeups Examples.int_of 1000 (1 / 2) 5 0
        (Examples.single Examples.unit_queue ⟨[], 10⟩)).map
      (fun r => (r.1.m_in, r.1.m_out, r.1.m_units_remaining, r.2))
      = .ok ([⟨[], 10⟩],
          [⟨[⟨1, Examples.message 1 0⟩, ⟨2, Examples.message 2 0⟩,
             ⟨3, Examples.message 3 0⟩, ⟨4, Examples.message 4 0⟩], 10⟩],
          [0], [true, true, true, true, false]) ∧
    ∃ (t1 : Throttle) (flags : List Bool),
      wakeups Examples.int_of 1000 (1 / 2) 3 0
        (Examples.single Examples.unit_queue ⟨[], 10⟩) = .ok (t1, flags) ∧
      t1.m_in = [⟨[⟨0, Examples.message 4 0⟩], 10⟩] ∧
      t1.m_out = [⟨[⟨1, Examples.message 1 0⟩, ⟨2, Examples.message 2 0⟩,
             ⟨3, Examples.message 3 0⟩], 10⟩] ∧
      t1.m_units_remaining = [0] :=
  ⟨by decide, by decide!,
   (one_message_per_cycle Examples.int_of 1000 (1 / 2) 2 3 0
      (Examples.single Examples.unit_queue ⟨[], 10⟩) Examples.unit_queue ⟨[], 10⟩
      (by decide) (by decide) rfl rfl rfl rfl (by decide) (by decide)).imp
     fun _ h1 => h1.imp fun _ h2 => ⟨h2.1, h2.2.1, h2.2.2.1, h2.2.2.2.1⟩⟩

/-- C14: take a well-formed throttle with a single virtual network,
`units_remaining = 0`, link bandwidth `bw > 0`, a ready head message of `s > 0` units
and two free slots in the output buffer, and let `k = (s + bw - 1) / bw`, which is
`ceil(s / bw)`.  After each of the first `j < k` wakeups `units_remaining` is
`s - j * bw > 0`, the throttle has scheduled itself every time, the message is in the
output buffer and the messages behind it are still in the input buffer; the loop
never starts a message while `units_remaining` is not 0.  When nothing waits behind the
message, `units_remaining` is 0 after the `k`-th wakeup, which schedules itself
exactly when `s = k * bw`. -/
theorem message_occupies_ceil_cycles (int_of : Nat → Int) (bw : Int) (threshold : ℚ)
    (NUM : Nat) (k : Nat) (now : Int) (t : Throttle) (i o : MessageBuffer)
    (m : MessageBufferNode) (rest : List MessageBufferNode) (s : Int)
    (hw : WellFormed NUM t) (hbw : 0 < bw) (hV : t.m_vnets = 1)
    (hin : t.m_in = [i]) (hout : t.m_out = [o]) (hun : t.m_units_remaining = [0])
    (he : i.entries = m :: rest) (hm : m.m_time ≤ now)
    (hsize : network_message_to_size int_of (some m.m_msgptr) = .ok s) (hs : 0 < s)
    (hcap : o.entries.length + 2 ≤ o.capacity)
    (hk : (k : Int) = (s + bw - 1) / bw) :
    (1 ≤ k ∧ ((k : Int) - 1) * bw < s ∧ s ≤ (k : Int) * bw) ∧
    (∀ j : Nat, 1 ≤ j → j < k →
      ∃ t1 : Throttle,
        wakeups int_of bw threshold j now t = .ok (t1, List.replicate j true) ∧
        t1.m_in = [⟨rest, i.capacity⟩] ∧
        t1.m_out = [o.enqueue m.m_msgptr t.m_link_latency now] ∧
        t1.m_units_remaining = [s - (j : Int) * bw] ∧ 0 < s - (j : Int) * bw) ∧
    (∀ (link_latency cycle vnet : Int) (slot : VnetSlot), slot.m_units_remaining ≠ 0 →
      move_message int_of link_latency cycle vnet slot = .ok slot) ∧
    (rest = [] →
      ∃ t1 : Throttle,
        wakeups int_of bw threshold k now t
          = .ok (t1, List.replicate (k - 1) true ++ [decide (s = (k : Int) * bw)]) ∧
        t1.m_in = [⟨[], i.capacity⟩] ∧
        t1.m_out = [o.enqueue m.m_msgptr t.m_link_latency now] ∧
        t1.m_units_remaining = [0]) := by
  obtain ⟨hk1, hlo, hhi⟩ := ceil_div_bounds s bw k hs hbw hk
  have hearly : ∀ j : Nat, 1 ≤ j → j < k → (j : Int) * bw < s := by
    intro j _ hjk
    have h1 : (j : Int) ≤ (k : Int) - 1 := by omega
    have h2 : (j : Int) * bw ≤ ((k : Int) - 1) * bw :=
      mul_le_mul_of_nonneg_right h1 (le_of_lt hbw)
    omega
  refine ⟨⟨hk1, hlo, hhi⟩, ?_, ?_, ?_⟩
  · intro j hj hjk
    obtain ⟨t1, h1, _, _, _, a1, a2, a3⟩ := wakeups_occupancy int_of bw threshold NUM j now
      t i o m rest s hw hbw hV hin hout hun he hm hsize hcap hj (hearly j hj hjk)
    exact ⟨t1, h1, a1, a2, a3, by have := hearly j hj hjk; omega⟩
  · intro link_latency cycle vnet slot hne
    unfold move_message
    rw [if_neg (fun h => hne h.1)]
  · intro hrest
    subst hrest
    have hslot : o.areNSlotsAvailable 1 = true := by
      unfold MessageBuffer.areNSlotsAvailable
      simp only [decide_eq_true_eq]
      omega
    have hslot1 : (o.enqueue m.m_msgptr t.m_link_latency now).areNSlotsAvailable 1
        = true := by
      unfold MessageBuffer.areNSlotsAvailable MessageBuffer.enqueue
      simp only [List.length_append, List.length_cons, List.length_nil,
        decide_eq_true_eq]
      omega
    by_cases hk2 : k = 1
    · subst hk2
      simp only [Nat.cast_one, one_mul] at hhi ⊢
      obtain ⟨t1, hwk, _, _, _, a1, a2, a3⟩ :=
        wakeup_single_take int_of bw threshold now NUM t i o m [] s hw hbw hV hin hout hun
          he hm hslot hsize (Or.inr rfl)
      have e1 : max 0 (s - bw) = 0 := max_eq_left (by omega)
      rw [e1] at a3
      have hflag : decide (bw ≤ s) = decide (s = bw) := by
        by_cases h : s = bw
        · simp [h]
        · have : ¬ bw ≤ s := by omega
          simp [h, this]
      rw [hflag] at hwk
      refine ⟨t1, ?_, a1, a2, a3⟩
      unfold wakeups
      rw [hwk]
      simp [wakeups]
    · have hj : 1 ≤ k - 1 := by omega
      have hcast : ((k - 1 : Nat) : Int) = (k : Int) - 1 := by omega
      obtain ⟨t1, h1, hw1, hV1, hlat1, a1, a2, a3⟩ :=
        wakeups_occupancy int_of bw threshold NUM (k - 1) now t i o m [] s hw hbw hV hin
          hout hun he hm hsize hcap hj (by rw [hcast]; exact hlo)
      rw [hcast] at a3
      have hu0 : 0 < s - ((k : Int) - 1) * bw := by omega
      have hkb : ((k : Int) - 1) * bw = (k : Int) * bw - bw := by ring
      obtain ⟨t2, hwk, _, _, _, b1, b2, b3⟩ :=
        wakeup_single_pay int_of bw threshold (now + ((k - 1 : Nat) : Int)) NUM t1
          ⟨[], i.capacity⟩ (o.enqueue m.m_msgptr t.m_link_latency now)
          (s - ((k : Int) - 1) * bw) hw1 hbw hV1 a1 a2 a3 hu0 hslot1 (Or.inr rfl)
      have e1 : max 0 (s - ((k : Int) - 1) * bw - bw) = 0 := max_eq_left (by omega)
      rw [e1] at b3
      have hflag : decide (bw ≤ s - ((k : Int) - 1) * bw) = decide (s = (k : Int) * bw) := by
        by_cases h : s = (k : Int) * bw
        · have : bw ≤ s - ((k : Int) - 1) * bw := by omega
          simp [h, this]
          rw [← h]; exact this
        · have : ¬ bw ≤ s - ((k : Int) - 1) * bw := by omega
          simp [h, this]
      rw [hflag] at hwk
      have hone : wakeups int_of bw threshold 1 (now + ((k - 1 : Nat) : Int)) t1
          = .ok (t2, [decide (s = (k : Int) * bw)]) := by
        unfold wakeups
        rw [hwk]
        simp [wakeups]
      have happ := wakeups_append int_of bw threshold (k - 1) 1 now t t1 t2 _ _ h1 hone
      have hk3 : k - 1 + 1 = k := by omega
      rw [hk3] at happ
      exact ⟨t2, happ, b1, b2, b3⟩

/-- C14 at a message of 4000 units on a link of bandwidth 1000: `k = 4`; after three
wakeups 1000 units remain, after the fourth none, and all four wakeups schedule the
next one. -/
theorem message_occupies_ceil_cycles_witness :
    WellFormed 2 (Examples.single ⟨[⟨0, Examples.message 1 1⟩], 10⟩ ⟨[], 10⟩) ∧
    ((4 : Nat) : Int) = (4000 + 1000 - 1) / 1000 ∧
    (wakeups Examples.int_of 1000 (1 / 2) 4 0
        (Examples.single ⟨[⟨0, Examples.message 1 1⟩], 10⟩ ⟨[], 10⟩)).map
      (fun r => (r.1.m_in, r.1.m_out, r.1.m_units_remaining, r.2))
      = .ok ([⟨[], 10⟩], [⟨[⟨1, Examples.message 1 1⟩], 10⟩], [0],
          [true, true, true, true]) ∧
    ∃ t1 : Throttle,
      wakeups Examples.int_of 1000 (1 / 2) 3 0
        (Examples.single ⟨[⟨0, Examples.message 1 1⟩], 10⟩ ⟨[], 10⟩)
        = .ok (t1, [true, true, true]) ∧
      t1.m_units_remaining = [1000] :=
  ⟨by decide, by decide, by decide!,
   ((message_occupies_ceil_cycles Examples.int_of 1000 (1 / 2) 2 4 0
      (Examples.single ⟨[⟨0, Examples.message 1 1⟩], 10⟩ ⟨[], 10⟩)
      ⟨[⟨0, Examples.message 1 1⟩], 10⟩ ⟨[], 10⟩ ⟨0, Examples.message 1 1⟩ [] 4000
      (by decide) (by decide) rfl rfl rfl rfl rfl (by decide) (by decide) (by decide)
      (by decide) (by decide)).2.1 3 (by decide) (by decide)).imp
     fun _ h => ⟨h.1, h.2.2.2.1⟩⟩

/-- C20 fails on the code: an interval in which every cycle used the whole bandwidth
can take the counter down.  A throttle constructed at cycle 0 reaches, by 50000 wakeups
that each use a link bandwidth of 42949 in full, a state with the counter still at 256
and `50000 * 42949` units accumulated; the next wakeup, at cycle 50001, uses the whole
bandwidth again, takes the sample and leaves the counter at 255.  At the throttle
`saturated_link`, the same state with the counter at 100, the `int` sum
`m_bandwidth_since_sample += bw_used` leaves `-2147474347` where
`50001 * 42949 = 2147492949` is meant, so the sample is negative and the counter goes
from 100 to 99.  With a bandwidth of 1000 the same run takes the counter to 101.
A wakeup that catches up with two idle intervals runs the loop twice (`woken_late`:
256 to 254). -/
theorem bash_counter_drops_on_saturated_link :
    (∃ t t1 : Throttle,
      Reachable (fun _ => 42949) 42949 (1 / 2) 50000 t ∧
      t.m_bash_counter = 256 ∧ t.m_bandwidth_since_sample = 50000 * 42949 ∧
      t.m_last_bandwidth_sample = 0 ∧
      wakeup (fun _ => 42949) 42949 (1 / 2) 50001 t = .ok (t1, true) ∧
      t1.m_bash_counter = 255 ∧ t1.m_bandwidth_since_sample = 0 ∧
      t1.m_last_bandwidth_sample = 50000) ∧
    Examples.saturated_link.m_bash_counter = 100 ∧
    Examples.saturated_link.m_bandwidth_since_sample = 50000 * 42949 ∧
    (wakeup_locals (fun _ => 43) 42949 50001 Examples.saturated_link).map
      (fun w => (w.bw_remaining, (accounted 42949 w).m_bandwidth_since_sample))
      = .ok (0, -2147474347) ∧
    (50001 : Int) * 42949 = 2147492949 ∧
    utilization (-2147474347) 42949 = some ((-2147474347 : ℚ) / (2147450000 : ℚ)) ∧
    utilization_exceeds (-2147474347) 42949 (1 / 2) = false ∧
    (wakeup (fun _ => 43) 42949 (1 / 2) 50001 Examples.saturated_link).map
      (fun r => (r.1.m_bash_counter, r.1.m_bandwidth_since_sample,
        r.1.m_last_bandwidth_sample, r.2))
      = .ok (99, 0, 50000, true) ∧
    (wakeup (fun _ => 1) 1000 (1 / 2) 50001
        { Examples.saturated_link with m_bandwidth_since_sample := 50000 * 1000 }).map
      (fun r => (r.1.m_bash_counter, r.1.m_bandwidth_since_sample,
        r.1.m_last_bandwidth_sample, r.2))
      = .ok (101, 0, 50000, true) ∧
    wakeup Examples.int_of 5000 (1 / 2) 120000 Examples.linked
      = .ok (Examples.woken_late, true) :=
  ⟨saturated_interval_sample, by decide!⟩

/-- C21 fails on the code for link bandwidths from 42950 on, where the `int` product
`ADJUST_INTERVAL * getLinkBandwidth()` no longer holds `50000 * bw`.  For `bw = 42950`
the denominator is `-2147467296` instead of `2147500000`, so the sample for 1000
accumulated units is negative, and even `2147483647` accumulated units, all an `int`
can hold, do not exceed the threshold one half; for `bw = 268435456` the denominator is
0 and the sample is no number at all.  For `bw = 42949` the denominator is the true
product. -/
theorem utilization_sample_overflows :
    (42950 : Int) < 2147483648 ∧ (268435456 : Int) < 2147483648 ∧
    sample_denominator 42950 = -2147467296 ∧
    50000 * (42950 : Int) = 2147500000 ∧
    utilization 1000 42950 = some ((1000 : ℚ) / (-2147467296 : ℚ)) ∧
    (1000 : ℚ) / (-2147467296 : ℚ) < 0 ∧
    (1000 : ℚ) / (-2147467296 : ℚ) ≠ (1000 : ℚ) / (2147500000 : ℚ) ∧
    utilization_exceeds 2147483647 42950 (1 / 2) = false ∧
    decide ((2147483647 : ℚ) / (2147500000 : ℚ) > 1 / 2) = true ∧
    sample_denominator 268435456 = 0 ∧
    utilization 1000 268435456 = none ∧
    sample_denominator 42949 = 50000 * 42949 := by
  decide!

/-- C22: a wakeup of a well-formed throttle with link bandwidth `bw > 0` and message
sizes that are not negative completes with `0 <= bw_remaining <= bw`, and the bandwidth
consumed is the sum over the virtual networks `v` of the units paid off:
`units_remaining[v]` before, plus the sizes of the messages moved from `in[v]`, less
`units_remaining[v]` after.  Hence the ratio handed to `linkUtilized`, the `double`
`1.0 - bw_remaining / bw`, lies in `[0, 1]`, and the amount `bw - bw_remaining` added
to the `int` `m_bandwidth_since_sample` lies in `[0, bw]`.  Every accounting step takes
`min(units_remaining[v], bw_remaining)` from both quantities, leaving one of them 0. -/
theorem bandwidth_conservation (int_of : Nat → Int) (bw : Int) (threshold : ℚ)
    (now : Int) (NUM : Nat) (t : Throttle) (hw : WellFormed NUM t) (hbw : 0 < bw)
    (hn : SizesNonneg int_of) :
    (∃ (t1 : Throttle) (scheduled : Bool) (w : WakeupState),
      wakeup int_of bw threshold now t = .ok (t1, scheduled) ∧
      wakeup_locals int_of bw now t = .ok w ∧
      0 ≤ w.bw_remaining ∧ w.bw_remaining ≤ bw ∧
      bw - w.bw_remaining
        = ((List.range t.m_vnets.toNat).map (units_paid int_of t t1)).sum ∧
      t1 = bash_loop bw threshold now (bash_fuel now (accounted bw w)) (accounted bw w) ∧
      link_ratio bw w.bw_remaining
        = round_double (1 - round_double ((w.bw_remaining : ℚ) / (bw : ℚ))) ∧
      t1.m_links_utilized
        = add_double t.m_links_utilized (link_ratio bw w.bw_remaining) ∧
      0 ≤ link_ratio bw w.bw_remaining ∧ link_ratio bw w.bw_remaining ≤ 1 ∧
      (accounted bw w).m_bandwidth_since_sample
        = add_int t.m_bandwidth_since_sample (bw - w.bw_remaining) ∧
      0 ≤ bw - w.bw_remaining ∧ bw - w.bw_remaining ≤ bw) ∧
    (∀ s : VnetSlot,
      (spend_bandwidth s).m_units_remaining
        = s.m_units_remaining - min s.m_units_remaining s.bw_remaining ∧
      (spend_bandwidth s).bw_remaining
        = s.bw_remaining - min s.m_units_remaining s.bw_remaining ∧
      ((spend_bandwidth s).m_units_remaining = 0 ∨
        (spend_bandwidth s).bw_remaining = 0)) := by
  refine ⟨?_, spend_bandwidth_min⟩
  obtain ⟨t1, scheduled, w, h, hl, h0, h1, hsum⟩ :=
    wakeup_conservation int_of bw threshold now NUM t hw hbw hn
  obtain ⟨_, w2, hfor, ht1, _⟩ := wakeup_ok h
  have hww : w2 = w := by
    have : wakeup_locals int_of bw now t = .ok w2 := hfor
    rw [hl] at this
    simp only [Except.ok.injEq] at this
    exact this.symm
  subst hww
  have hsc := wakeup_for_sameControl _ hfor
  obtain ⟨_, _, _, _, _, _, _, c8, _, _, c11, _⟩ := hsc
  simp only at c8 c11
  have hpl := bash_loop_accounted bw threshold now (bash_fuel now (accounted bw w2)) w2
  rw [← ht1] at hpl
  obtain ⟨b0, b1⟩ := link_ratio_bounds bw w2.bw_remaining hbw h0 h1
  refine ⟨t1, scheduled, w2, h, hl, h0, h1, hsum, ht1, rfl, ?_, b0, b1, ?_,
    by omega, by omega⟩
  · rw [hpl.2.2.2.2.2.2.2, ← c11]
    rfl
  · rw [← c8]
    rfl

/-- C22 at the example throttle with a link bandwidth of 7000: 2000 units are paid off
on virtual network 0 and 4000 on virtual network 1, 1000 are left, and the ratio
handed to `linkUtilized` is the `double` nearest to `1 - x` for the `double` `x`
nearest to 1/7. -/
theorem bandwidth_conservation_witness :
    WellFormed 2 Examples.linked ∧
    (wakeup_locals Examples.int_of 7000 0 Examples.linked).map (fun w => w.bw_remaining)
      = .ok 1000 ∧
    (wakeup Examples.int_of 7000 (1 / 2) 0 Examples.linked).map
      (fun r => ((List.range 2).map (units_paid Examples.int_of Examples.linked r.1),
        r.1.m_links_utilized, r.1.m_bandwidth_since_sample))
      = .ok ([2000, 4000], (1930114126015927 : ℚ) / 2251799813685248, 6000) ∧
    ∃ (t1 : Throttle) (scheduled : Bool) (w : WakeupState),
      wakeup Examples.int_of 7000 (1 / 2) 0 Examples.linked = .ok (t1, scheduled) ∧
      wakeup_locals Examples.int_of 7000 0 Examples.linked = .ok w ∧
      0 ≤ w.bw_remaining ∧ w.bw_remaining ≤ 7000 ∧
      7000 - w.bw_remaining
        = ((List.range Examples.linked.m_vnets.toNat).map
            (units_paid Examples.int_of Examples.linked t1)).sum :=
  ⟨by decide, by decide!, by decide!,
   (bandwidth_conservation Examples.int_of 7000 (1 / 2) 0 2 Examples.linked (by decide)
      (by decide) examples_sizes_nonneg).1.imp
     fun _ h1 => h1.imp fun _ h2 => h2.imp fun _ h3 =>
       ⟨h3.1, h3.2.1, h3.2.2.1, h3.2.2.2.1, h3.2.2.2.2.1⟩⟩

end Throttle

/-! ## Garnet network: the claims -/

namespace GarnetNetwork

/-- C2: over every sequence of `getToNetQueue` / `getFromNetQueue` calls with in-range
arguments and any `ordered` flags, every call takes effect and no entry of `m_in_use`
or `m_ordered` that is true at some point is false later.  In particular
`getToNetQueue(n, false, v)` followed by `getToNetQueue(n, true, v)` leaves
`m_ordered[v]` true, and after `getToNetQueue(0, true, 3)` any later in-range requests
leave virtual network 3 printed as "active, ordered". -/
theorem vnet_allocation_monotone :
    (∀ (net : GarnetNetwork) (cs1 cs2 : List QueueCall),
      Constructed net → (∀ c ∈ cs1 ++ cs2, c.in_range net) →
      run_queue_calls net (cs1 ++ cs2)
        = (cs1 ++ cs2).foldl (fun n c => allocated n c.ordered c.network_num) net ∧
      ∀ j : Nat,
        ((run_queue_calls net cs1).m_in_use[j]? = some true →
          (run_queue_calls net (cs1 ++ cs2)).m_in_use[j]? = some true) ∧
        ((run_queue_calls net cs1).m_ordered[j]? = some true →
          (run_queue_calls net (cs1 ++ cs2)).m_ordered[j]? = some true)) ∧
    (∀ (net : GarnetNetwork) (n v : Int), Constructed net →
      0 ≤ n → n < net.m_nodes → 0 ≤ v → v < net.m_virtual_networks →
      (run_queue_calls net [.to_net n false v, .to_net n true v]).m_ordered[v.toNat]?
        = some true) ∧
    (∀ (net : GarnetNetwork) (calls : List QueueCall), Constructed net →
      0 < net.m_nodes → 3 < net.m_virtual_networks → (∀ c ∈ calls, c.in_range net) →
      printConfig_vnet (run_queue_calls net (.to_net 0 true 3 :: calls)) 3
        = some .active_ordered) := by
  refine ⟨?_, ?_, ?_⟩
  · intro net cs1 cs2 hi hc
    exact ⟨run_queue_calls_in_range _ net hi hc, run_queue_calls_append_keeps cs1 cs2 net⟩
  · intro net n v hi h0 h1 h2 h3
    have hlen : v.toNat < net.m_ordered.length := by
      obtain ⟨_, _, _, _, _, _, _, ho⟩ := hi; omega
    rw [run_queue_calls_in_range _ net hi]
    · simp [QueueCall.ordered, QueueCall.network_num, allocated, List.getElem?_set, hlen]
    · intro c hc
      simp only [List.mem_cons, List.mem_singleton, List.not_mem_nil, or_false] at hc
      rcases hc with rfl | rfl <;> exact ⟨h0, h1, h2, h3⟩
  · intro net calls hi hn hv hc
    have hlu : 3 < net.m_in_use.length := by
      obtain ⟨_, _, _, _, _, _, hu, _⟩ := hi; omega
    have hlo : 3 < net.m_ordered.length := by
      obtain ⟨_, _, _, _, _, _, _, ho⟩ := hi; omega
    have hfirst : (QueueCall.to_net 0 true 3).in_range net :=
      ⟨le_refl _, hn, by decide, hv⟩
    have hkeep := run_queue_calls_append_keeps [QueueCall.to_net 0 true 3] calls net 3
    have h1 : run_queue_calls net [QueueCall.to_net 0 true 3] = allocated net true 3 := by
      rw [run_queue_calls_in_range _ net hi]
      · rfl
      · intro c hc1
        simp only [List.mem_singleton] at hc1
        subst hc1; exact hfirst
    rw [h1] at hkeep
    have hu : (run_queue_calls net (QueueCall.to_net 0 true 3 :: calls)).m_in_use[3]?
        = some true := by
      apply hkeep.1
      simp [allocated, List.getElem?_set, hlu]
    have ho : (run_queue_calls net (QueueCall.to_net 0 true 3 :: calls)).m_ordered[3]?
        = some true := by
      apply hkeep.2
      simp [allocated, List.getElem?_set, hlo]
    unfold printConfig_vnet
    rw [hu, ho]
    rfl

/-- C2 at the example network. -/
theorem vnet_allocation_monotone_witness :
    (run_queue_calls Examples.network [.to_net 1 false 2, .to_net 1 true 2]).m_ordered[2]?
      = some true ∧
    printConfig_vnet
      (run_queue_calls Examples.network
        [.to_net 0 true 3, .from_net 1 false 3, .to_net 0 false 3]) 3
      = some .active_ordered ∧
    (run_queue_calls Examples.network
      ([.to_net 0 true 3] ++ [.from_net 1 false 3])).m_ordered[3]? = some true :=
  ⟨vnet_allocation_monotone.2.1 Examples.network 1 2 (by decide!) (by decide) (by decide!)
      (by decide) (by decide!),
   vnet_allocation_monotone.2.2 Examples.network [.from_net 1 false 3, .to_net 0 false 3]
      (by decide!) (by decide!) (by decide!) (by decide!),
   ((vnet_allocation_monotone.1 Examples.network [.to_net 0 true 3] [.from_net 1 false 3]
      (by decide!) (by decide!)).2 3).2 (by decide!)⟩

/-- C3, as stated, fails: `network_num = -1` satisfies `network_num < V` and `0 < N`,
both assertions pass, and the write `m_in_use[-1] = true` is outside the vector; no
buffer is returned. -/
theorem queue_request_negative_vnet :
    (0 : Int) < Examples.network.m_nodes ∧
    (-1 : Int) < Examples.network.m_virtual_networks ∧
    (getToNetQueue Examples.network 0 false (-1)).status = .out_of_bounds ∧
    (getToNetQueue Examples.network 0 false (-1)).value = none := by
  decide!

/-- C3, amended: for `0 ≤ id < N` and `0 ≤ network_num < V` on a constructed network,
`getToNetQueue` returns the buffer `m_toNetQueues[id][network_num]`
(`getFromNetQueue` the one of `m_fromNetQueues`);
afterwards `m_in_use[network_num]` is true, `m_ordered[network_num]` is its old value
or `ordered`, and every other entry of the two bitmaps, the queues and the rest of the
state are unchanged. -/
theorem queue_request_in_range (net : GarnetNetwork) (id : Int) (ordered : Bool)
    (network_num : Int) (hi : Constructed net)
    (h0 : 0 ≤ id) (h1 : id < net.m_nodes)
    (h2 : 0 ≤ network_num) (h3 : network_num < net.m_virtual_networks) :
    (∃ b, getToNetQueue net id ordered network_num
            = ⟨allocated net ordered network_num, .ok, some b⟩ ∧
          net.m_toNetQueues[id.toNat]?.bind (fun row => row[network_num.toNat]?) = some b) ∧
    (∃ b, getFromNetQueue net id ordered network_num
            = ⟨allocated net ordered network_num, .ok, some b⟩ ∧
          net.m_fromNetQueues[id.toNat]?.bind (fun row => row[network_num.toNat]?) = some b) ∧
    (allocated net ordered network_num).m_in_use[network_num.toNat]? = some true ∧
    (∃ old, net.m_ordered[network_num.toNat]? = some old ∧
      (allocated net ordered network_num).m_ordered[network_num.toNat]?
        = some (old || ordered)) ∧
    (∀ j : Nat, j ≠ network_num.toNat →
      (allocated net ordered network_num).m_in_use[j]? = net.m_in_use[j]? ∧
      (allocated net ordered network_num).m_ordered[j]? = net.m_ordered[j]?) ∧
    (allocated net ordered network_num).m_toNetQueues = net.m_toNetQueues ∧
    (allocated net ordered network_num).m_fromNetQueues = net.m_fromNetQueues :=
  queue_request_effect net id ordered network_num hi h0 h1 h2 h3

/-- C3, amended, at the example network. -/
theorem queue_request_in_range_witness :
    Constructed Examples.network ∧
    (∃ b, getToNetQueue Examples.network 1 true 2
            = ⟨allocated Examples.network true 2, .ok, some b⟩ ∧
          Examples.network.m_toNetQueues[(1 : Int).toNat]?.bind
            (fun row => row[(2 : Int).toNat]?) = some b) :=
  ⟨by decide!,
   (queue_request_in_range Examples.network 1 true 2 (by decide!) (by decide) (by decide!)
      (by decide) (by decide!)).1⟩

/-- C4: when `id ≥ N` or `network_num ≥ V`, `checkNetworkAllocation`, `getToNetQueue`
and `getFromNetQueue` end in a failed assertion and leave the whole state, `m_in_use`
and `m_ordered` included, as it was: both range checks precede every write. -/
theorem allocation_range_checks_precede_writes (net : GarnetNetwork) (id : Int)
    (ordered : Bool) (network_num : Int)
    (h : id ≥ net.m_nodes ∨ network_num ≥ net.m_virtual_networks) :
    checkNetworkAllocation net id ordered network_num = ⟨net, .assertion_failed, none⟩ ∧
    getToNetQueue net id ordered network_num = ⟨net, .assertion_failed, none⟩ ∧
    getFromNetQueue net id ordered network_num = ⟨net, .assertion_failed, none⟩ := by
  have hc : checkNetworkAllocation net id ordered network_num
      = ⟨net, .assertion_failed, none⟩ := by
    unfold checkNetworkAllocation
    by_cases h1 : id < net.m_nodes
    · have h2 : ¬ network_num < net.m_virtual_networks := by omega
      rw [if_pos h1, if_neg h2]
    · rw [if_neg h1]
  refine ⟨hc, ?_, ?_⟩
  · simp only [getToNetQueue, hc]
  · simp only [getFromNetQueue, hc]

/-- C4 at the example network, for a node and for a virtual network out of range. -/
theorem allocation_range_checks_precede_writes_witness :
    getToNetQueue Examples.network 2 true 0 = ⟨Examples.network, .assertion_failed, none⟩ ∧
    getFromNetQueue Examples.network 0 true 4
      = ⟨Examples.network, .assertion_failed, none⟩ :=
  ⟨(allocation_range_checks_precede_writes Examples.network 2 true 0
      (Or.inl (by decide!))).2.1,
   (allocation_range_checks_precede_writes Examples.network 0 true 4
      (Or.inr (by decide!))).2.2⟩

/-- C5: for `makeInLink`, `makeOutLink` and `makeInternalLink` with IDs in range on an
initialised network, the call fails if and only if `isReconfiguration` is true; a
failing call is the fatal reconfiguration error and leaves the whole state unchanged;
a call with `isReconfiguration = false` appends exactly the `NetworkLink` of the
requested direction of the given physical link to `m_link_ptr_vector`, so after `k`
such calls the registry holds the `k` links in call order after its old content. -/
theorem link_making_rejects_reconfiguration :
    (∀ (net : GarnetNetwork) (c : LinkCall) (isReconfiguration : Bool),
      Initialised net → c.in_range net →
      ((c.run net isReconfiguration).status ≠ .ok ↔ isReconfiguration = true) ∧
      (isReconfiguration = true →
        c.run net isReconfiguration = ⟨net, .fatal_reconfiguration, none⟩) ∧
      (isReconfiguration = false →
        (c.run net isReconfiguration).status = .ok ∧
        (c.run net isReconfiguration).net.m_link_ptr_vector
          = net.m_link_ptr_vector ++ [(c.link.m_network_links c.direction).init_net_ptr])) ∧
    (∀ (net : GarnetNetwork) (calls : List LinkCall),
      Initialised net → (∀ c ∈ calls, c.in_range net) →
      (createLinks net false calls).status = .ok ∧
      (createLinks net false calls).net.m_link_ptr_vector
        = net.m_link_ptr_vector
          ++ calls.map (fun c => (c.link.m_network_links c.direction).init_net_ptr)) := by
  constructor
  · intro net c flag hi hc
    cases flag
    · obtain ⟨hs, hl, _⟩ := LinkCall.run_ok net c hi hc
      refine ⟨?_, ?_, ?_⟩
      · rw [hs]; simp
      · intro h; cases h
      · intro _; exact ⟨hs, hl⟩
    · have hr := LinkCall.run_reconfiguration net c hc
      refine ⟨?_, ?_, ?_⟩
      · rw [hr]; simp
      · intro _; exact hr
      · intro h; cases h
  · intro net calls hi hc
    obtain ⟨hs, hl, _⟩ := createLinks_in_range calls net hi hc
    exact ⟨hs, hl⟩

/-- C5 at the example network and its three link-making calls. -/
theorem link_making_rejects_reconfiguration_witness :
    (createLinks Examples.network false Examples.link_calls).status = .ok ∧
    (createLinks Examples.network false Examples.link_calls).net.m_link_ptr_vector
      = Examples.network.m_link_ptr_vector
        ++ Examples.link_calls.map
          (fun c => (c.link.m_network_links c.direction).init_net_ptr) ∧
    LinkCall.run Examples.network ⟨.in_link, 0, 1, Examples.wire 0, .forward, ⟨[0], false⟩⟩
      true = ⟨Examples.network, .fatal_reconfiguration, none⟩ :=
  ⟨(link_making_rejects_reconfiguration.2 Examples.network Examples.link_calls
      (by decide!) (by decide!)).1,
   (link_making_rejects_reconfiguration.2 Examples.network Examples.link_calls
      (by decide!) (by decide!)).2,
   (link_making_rejects_reconfiguration.1 Examples.network
      ⟨.in_link, 0, 1, Examples.wire 0, .forward, ⟨[0], false⟩⟩ true
      (by decide!) (by decide!)).2.1 rfl⟩

/-- C16: on a constructed network in any state, `reset()` completes, and after one or
more calls every buffer `to_net[node][vnet]` and `from_net[node][vnet]` with
`node < N` and `vnet < V` is the buffer that was there, emptied; the tables keep their
`N x V` shape, and the link registry, the router list, the interface list and the
allocation flags are unchanged.  A second `reset()` changes nothing. -/
theorem reset_empties_queues (net : GarnetNetwork) (hc : Constructed net) :
    reset net = ⟨cleared net, .ok, some ()⟩ ∧
    reset (reset net).net = reset net ∧
    (∀ k : Nat, 0 < k →
      resets k net = cleared net ∧
      (∀ node vnet : Int, 0 ≤ node → node < net.m_nodes →
        0 ≤ vnet → vnet < net.m_virtual_networks →
        (∃ b, queue_at net.m_toNetQueues node vnet = some b ∧
          queue_at (resets k net).m_toNetQueues node vnet = some ⟨[], b.capacity⟩) ∧
        (∃ b, queue_at net.m_fromNetQueues node vnet = some b ∧
          queue_at (resets k net).m_fromNetQueues node vnet = some ⟨[], b.capacity⟩)) ∧
      Constructed (resets k net) ∧
      (resets k net).m_nodes = net.m_nodes ∧
      (resets k net).m_virtual_networks = net.m_virtual_networks ∧
      (resets k net).m_link_ptr_vector = net.m_link_ptr_vector ∧
      (resets k net).m_router_ptr_vector = net.m_router_ptr_vector ∧
      (resets k net).m_ni_ptr_vector = net.m_ni_ptr_vector ∧
      (resets k net).m_in_use = net.m_in_use ∧
      (resets k net).m_ordered = net.m_ordered) := by
  have hr := reset_constructed net hc
  refine ⟨hr, ?_, ?_⟩
  · rw [hr]
    simp only
    rw [reset_constructed _ (cleared_constructed net hc), cleared_cleared]
  · intro k hk
    obtain ⟨j, rfl⟩ : ∃ j, k = j + 1 := ⟨k - 1, by omega⟩
    have hk1 := resets_constructed j net hc
    rw [hk1]
    refine ⟨rfl, ?_, cleared_constructed net hc, rfl, rfl, rfl, rfl, rfl, rfl, rfl⟩
    intro node vnet h0 h1 h2 h3
    obtain ⟨_, _, c3, c4, c5, c6, _, _⟩ := hc
    obtain ⟨b, hb, _⟩ := queue_at_isSome net.m_toNetQueues node vnet _ _ c3 c5 h0 h1 h2 h3
    obtain ⟨b1, hb1, _⟩ :=
      queue_at_isSome net.m_fromNetQueues node vnet _ _ c4 c6 h0 h1 h2 h3
    constructor
    · refine ⟨b, hb, ?_⟩
      simp only [cleared]
      rw [queue_at_cleared, hb]
      rfl
    · refine ⟨b1, hb1, ?_⟩
      simp only [cleared]
      rw [queue_at_cleared, hb1]
      rfl

/-- C16 at the example network with two waiting messages: after three calls of
`reset()` both buffers are empty and the flags are as before. -/
theorem reset_empties_queues_witness :
    Constructed Examples.busy_network ∧
    queue_at Examples.busy_network.m_toNetQueues 0 1
      = some ⟨[⟨3, Examples.message 1 0⟩], 8⟩ ∧
    (∃ b, queue_at Examples.busy_network.m_toNetQueues 0 1 = some b ∧
      queue_at (resets 3 Examples.busy_network).m_toNetQueues 0 1
        = some ⟨[], b.capacity⟩) ∧
    (∃ b, queue_at Examples.busy_network.m_fromNetQueues 1 2 = some b ∧
      queue_at (resets 3 Examples.busy_network).m_fromNetQueues 1 2
        = some ⟨[], b.capacity⟩) ∧
    (resets 3 Examples.busy_network).m_in_use = [false, true, true, false] ∧
    reset (reset Examples.busy_network).net = reset Examples.busy_network :=
  ⟨by decide!, by decide!,
   (((reset_empties_queues Examples.busy_network (by decide!)).2.2 3 (by decide)).2.1
      0 1 (by decide) (by decide!) (by decide) (by decide!)).1,
   (((reset_empties_queues Examples.busy_network (by decide!)).2.2 3 (by decide)).2.1
      1 2 (by decide) (by decide!) (by decide) (by decide!)).2,
   ((reset_empties_queues Examples.busy_network (by decide!)).2.2 3
      (by decide)).2.2.2.2.2.2.2.2.1,
   (reset_empties_queues Examples.busy_network (by decide!)).2.1⟩

/-- C17 fails on the code: on the example network of two nodes and two routers,
`makeInLink` with the router index `dest = 2` passes its only assertion, appends the
link to the registry and then indexes `m_router_ptr_vector[2]`; `makeInternalLink` with
`src = 2` has no assertion at all, appends the link, adds it to the input ports of
router 0 and then indexes `m_router_ptr_vector[2]`.  Only `makeOutLink` and the node
index of `makeInLink` are checked. -/
theorem link_making_unchecked_router_index :
    Examples.network.m_router_ptr_vector.length = 2 ∧
    Examples.network.m_link_ptr_vector = [] ∧
    (makeInLink Examples.network 0 2 (Examples.wire 0) .forward ⟨[0], false⟩ false).status
      = .out_of_bounds ∧
    (makeInLink Examples.network 0 2 (Examples.wire 0) .forward
      ⟨[0], false⟩ false).net.m_link_ptr_vector = [⟨0, true⟩] ∧
    (makeInternalLink Examples.network 2 0 (Examples.wire 1) .forward
      ⟨[0], false⟩ false).status = .out_of_bounds ∧
    (makeInternalLink Examples.network 2 0 (Examples.wire 1) .forward
      ⟨[0], false⟩ false).net.m_link_ptr_vector = [⟨2, true⟩] ∧
    (makeInternalLink Examples.network 2 0 (Examples.wire 1) .forward
      ⟨[0], false⟩ false).net.m_router_ptr_vector
      = [⟨true, [⟨2, true⟩], []⟩, ⟨true, [], []⟩] ∧
    makeOutLink Examples.network 2 0 (Examples.wire 1) .forward ⟨[0], false⟩ false
      = ⟨Examples.network, .assertion_failed, none⟩ ∧
    makeOutLink Examples.network 0 2 (Examples.wire 1) .forward ⟨[0], false⟩ false
      = ⟨Examples.network, .assertion_failed, none⟩ ∧
    makeInLink Examples.network 2 0 (Examples.wire 1) .forward ⟨[0], false⟩ false
      = ⟨Examples.network, .assertion_failed, none⟩ := by
  decide!

end GarnetNetwork

end Ruby
